import Mathlib

/-!
Verification development for the UV-island border-extension subsystem
(`source/blender/blenkernel/intern/uv_islands.cc` region of the corpus).

Shallow embedding conventions:
* `float2` UV coordinates are embedded as pairs of rationals (`Q2`).  The C++
  code compares coordinates with exact `==`; rational equality models that.
* Pointers into the append-only stores (`VectorList`) are embedded as natural
  number indices into Lean lists; the stores are append-only so indices are
  stable, exactly like the stable addresses of `VectorList`.
* Floating-point transcendental routines (`angle_signed_v2v2`,
  `float3x3::from_rotation` inside `UVBorderCorner::uv`) are not re-modelled
  bit for bit; they are passed as explicit function parameters, so every
  theorem quantifies over them.
* Loops of the source that can diverge on adversarial data (the border walk in
  `UVBorder::extract_from_edges`, the fan walk in `Fan::Fan`) are embedded
  with explicit fuel; a distinguished result marks the diverging case.
* The struct declarations and small inline accessors live in the header
  `BKE_uv_islands.hh`, which is not part of the reviewed sources; those
  definitions are modelled from the specification and are marked
  `Modelled from the spec:` in their doc comments.
-/

namespace UVIslandsModel

/-- Embedded `float2`: a UV coordinate as a pair of rationals. -/
abbrev Q2 : Type := ℚ × ℚ

/-- Sentinel for an unclaimed mask cell, `0xffff` in the source. -/
def unclaimedCell : ℕ := 0xffff

/-!  ## Island mask (`UVIslandsMask` / `Tile`)

The mask of a tile is stored in the source as a flat row-major array
`mask[y * mask_resolution.x + x]`.  All reads and writes in `dilate_x`,
`dilate_y` and `is_masked` stay inside a row (guarded by `x != 0`,
`x < mask_resolution.x - 1`) or move by exactly one full row (guarded by
`y != 0`, `y < mask_resolution.y - 1`), so the flat array is used through the
standard bijection `offset = y * w + x` with `x < w`.  We embed the mask as a
curried function of the cell coordinates `x y`, which is the same data up to
that bijection. -/
structure Tile where
  udim_offset : Q2
  tile_resolution : ℕ × ℕ
  mask_resolution : ℕ × ℕ
  mask : ℕ → ℕ → ℕ

/-- Embeds `mask_resolution_from_tile_resolution`: `max(res >> 2, 256)`
componentwise. -/
def mask_resolution_from_tile_resolution (tile_resolution : ℕ × ℕ) : ℕ × ℕ :=
  (max (tile_resolution.1 / 4) 256, max (tile_resolution.2 / 4) 256)

/-- Embeds the `Tile` constructor: stores resolutions and fills the whole
mask with the unclaimed sentinel `0xffff`. -/
def Tile.make (udim_offset : Q2) (tile_resolution : ℕ × ℕ) : Tile :=
  { udim_offset := udim_offset
    tile_resolution := tile_resolution
    mask_resolution := mask_resolution_from_tile_resolution tile_resolution
    mask := fun _ _ => unclaimedCell }

/-- Embeds `UVIslandsMask::Tile::contains`: `IN_RANGE(tile_uv.x, 0.0, 1.0)`
with `IN_RANGE` the strict open-interval test of `BLI_math_base.h`
(for `b < c` it is `b < a && a < c`). -/
def Tile.contains (t : Tile) (uv : Q2) : Bool :=
  let tux : ℚ := uv.1 - t.udim_offset.1
  let tuy : ℚ := uv.2 - t.udim_offset.2
  decide (0 < tux) && decide (tux < 1) && decide (0 < tuy) && decide (tuy < 1)

/-- Embeds `UVIslandsMask::Tile::get_pixel_size_in_uv_space`:
`min(1/res.x, 1/res.y)` as a rational. -/
def Tile.get_pixel_size_in_uv_space (t : Tile) : ℚ :=
  min (1 / (t.tile_resolution.1 : ℚ)) (1 / (t.tile_resolution.2 : ℚ))

/-- Embeds `UVIslandsMask::Tile::is_masked`: translate into the tile, reject
coordinates outside `[0,1) x [0,1)`, floor to the coarse grid and compare the
stored cell with the island index. -/
def Tile.is_masked (t : Tile) (island_index : ℕ) (uv : Q2) : Bool :=
  let lux : ℚ := uv.1 - t.udim_offset.1
  let luy : ℚ := uv.2 - t.udim_offset.2
  if lux < 0 ∨ luy < 0 ∨ (1:ℚ) ≤ lux ∨ (1:ℚ) ≤ luy then false
  else
    let px : ℕ := (lux * (t.mask_resolution.1 : ℚ)).floor.toNat
    let py : ℕ := (luy * (t.mask_resolution.2 : ℚ)).floor.toNat
    decide (t.mask px py = island_index)

/-- Embeds `UVIslandsMask`: a list of tiles. -/
structure UVIslandsMask where
  tiles : List Tile

/-- Embeds `UVIslandsMask::find_tile`: the first tile containing the UV
coordinate, if any. -/
def UVIslandsMask.find_tile (m : UVIslandsMask) (uv : Q2) : Option Tile :=
  m.tiles.find? (fun t => t.contains uv)

/-- Single-cell update rule of `dilate_x` at cell `(x, y)`: an unclaimed cell
copies its left neighbour's claim when that exists and is claimed, otherwise
its right neighbour's.  Claimed cells are skipped. -/
def dilateXCell (w : ℕ) (prev : ℕ → ℕ → ℕ) (x y : ℕ) : ℕ :=
  if prev x y ≠ unclaimedCell then prev x y
  else if x ≠ 0 ∧ prev (x - 1) y ≠ unclaimedCell then prev (x - 1) y
  else if x < w - 1 ∧ prev (x + 1) y ≠ unclaimedCell then prev (x + 1) y
  else prev x y

/-- Single-cell update rule of `dilate_y` at cell `(x, y)`: the same rule in
the `y` direction. -/
def dilateYCell (h : ℕ) (prev : ℕ → ℕ → ℕ) (x y : ℕ) : ℕ :=
  if prev x y ≠ unclaimedCell then prev x y
  else if y ≠ 0 ∧ prev x (y - 1) ≠ unclaimedCell then prev x (y - 1)
  else if y < h - 1 ∧ prev x (y + 1) ≠ unclaimedCell then prev x (y + 1)
  else prev x y

/-- Embeds `dilate_x`: all cells are rewritten from a snapshot of the mask
(the source copies `prev_mask` before the loop); the returned flag records
whether any in-grid cell changed (the source sets `changed` exactly at the
cells it overwrites, and every overwrite replaces the unclaimed sentinel with
a claimed value, hence changes the cell). -/
def dilateX (t : Tile) : Tile × Bool :=
  let w := t.mask_resolution.1
  let h := t.mask_resolution.2
  let prev := t.mask
  let next : ℕ → ℕ → ℕ := fun x y =>
    if x < w ∧ y < h then dilateXCell w prev x y else prev x y
  let changed : Bool :=
    (List.range (w * h)).any (fun o => next (o % w) (o / w) ≠ prev (o % w) (o / w))
  ({ t with mask := next }, changed)

/-- Embeds `dilate_y`, analogous to `dilateX`. -/
def dilateY (t : Tile) : Tile × Bool :=
  let w := t.mask_resolution.1
  let h := t.mask_resolution.2
  let prev := t.mask
  let next : ℕ → ℕ → ℕ := fun x y =>
    if x < w ∧ y < h then dilateYCell h prev x y else prev x y
  let changed : Bool :=
    (List.range (w * h)).any (fun o => next (o % w) (o / w) ≠ prev (o % w) (o / w))
  ({ t with mask := next }, changed)

/-- Embeds `dilate_tile`: run an x-pass then a y-pass, up to `max_iterations`
times, stopping early when neither pass changed a cell. -/
def dilate_tile (t : Tile) : ℕ → Tile
  | 0 => t
  | n + 1 =>
    let rx := dilateX t
    let ry := dilateY rx.1
    if rx.2 || ry.2 then dilate_tile ry.1 n else ry.1

/-- Embeds `UVIslandsMask::dilate`: dilate every tile. -/
def UVIslandsMask.dilate (m : UVIslandsMask) (max_iterations : ℕ) : UVIslandsMask :=
  { tiles := m.tiles.map (fun t => dilate_tile t max_iterations) }

/-!  ## Mesh data (read-only external input)

Pointers of the source (`MeshVertex *`, `MeshEdge *`, `MeshPrimitive *`)
become natural-number indices into the lists of `MeshData`. -/

/-- Embeds `MeshUVVert`: a mesh vertex id together with the UV coordinate the
enclosing primitive assigns to it. -/
structure MeshUVVert where
  vertex : ℕ
  uv : Q2
deriving DecidableEq, Inhabited

/-- Embeds `MeshVertex`: its id `v` and the ids of its incident mesh edges. -/
structure MeshVertex where
  v : ℕ
  edges : List ℕ
deriving DecidableEq, Inhabited

/-- Embeds `MeshEdge`: two mesh vertex ids and the ids of the 1-2 incident
primitives. -/
structure MeshEdge where
  vert1 : ℕ
  vert2 : ℕ
  primitives : List ℕ
deriving DecidableEq, Inhabited

/-- Embeds `MeshPrimitive`: a triangle with exactly 3 `MeshUVVert` (kept as a
list of length 3), 3 incident mesh edge ids, an index and an island id. -/
structure MeshPrimitive where
  index : ℕ
  vertices : List MeshUVVert
  edges : List ℕ
  uv_island_id : ℕ
deriving DecidableEq, Inhabited

/-- Embeds the external mesh adjacency view. -/
structure MeshData where
  verts : List MeshVertex
  medges : List MeshEdge
  mprims : List MeshPrimitive
deriving DecidableEq, Inhabited

/-- Dereferences a mesh vertex id. -/
def MeshData.vertAt (m : MeshData) (i : ℕ) : MeshVertex := m.verts.getD i default

/-- Dereferences a mesh edge id. -/
def MeshData.edgeAt (m : MeshData) (i : ℕ) : MeshEdge := m.medges.getD i default

/-- Dereferences a mesh primitive id. -/
def MeshData.primAt (m : MeshData) (i : ℕ) : MeshPrimitive := m.mprims.getD i default

/-- Embeds the static helper `get_uv_vert` of `uv_islands.cc`: the first
`MeshUVVert` of the primitive whose mesh vertex is `v` (the source asserts
one exists and falls back to `vertices[0]`). -/
def get_uv_vert (p : MeshPrimitive) (v : ℕ) : MeshUVVert :=
  (p.vertices.find? (fun uvv => uvv.vertex == v)).getD (p.vertices.getD 0 default)

/-- Embeds `has_vertex` of `uv_islands.cc`: does the primitive use the mesh
vertex. -/
def has_vertex (p : MeshPrimitive) (v : ℕ) : Bool :=
  (List.range 3).any (fun i => (p.vertices.getD i default).vertex == v)

/-- Modelled from the spec: `MeshPrimitive::get_other_uv_vertex(v1, v2)` of
the header returns the corner of the triangle that is neither `v1` nor `v2`
(first match in `vertices` order). -/
def MeshPrimitive.get_other_uv_vertex (p : MeshPrimitive) (v1 v2 : ℕ) : Option MeshUVVert :=
  p.vertices.find? (fun uvv => uvv.vertex != v1 && uvv.vertex != v2)

/-!  ## UV topology store -/

/-- Embeds the transient `UVVertex` flags. -/
structure UVVertexFlags where
  is_border : Bool
  is_extended : Bool
deriving DecidableEq, Inhabited

/-- Embeds `UVVertex`: a (mesh vertex id, UV coordinate) pair with
back-references to incident UV edge ids and the transient flags. -/
structure UVVertex where
  vertex : ℕ
  uv : Q2
  uv_edges : List ℕ
  flags : UVVertexFlags
deriving DecidableEq, Inhabited

/-- Builds a `UVVertex` template the way both header constructors do:
empty back-references and both flags cleared. -/
def mkUVVertex (vertex : ℕ) (uv : Q2) : UVVertex :=
  { vertex := vertex, uv := uv, uv_edges := [], flags := ⟨false, false⟩ }

/-- Embeds `UVEdge`: the ids of its two `UVVertex` endpoints
(`vertices[0]` / `vertices[1]`) and back-references to the UV primitives
using it. -/
structure UVEdge where
  vertex0 : ℕ
  vertex1 : ℕ
  uv_primitives : List ℕ
deriving DecidableEq, Inhabited

/-- Embeds `UVPrimitive`: the originating mesh primitive id plus its 3 UV
edge ids. -/
structure UVPrimitive where
  primitive : ℕ
  edges : List ℕ
deriving DecidableEq, Inhabited

/-- Embeds `UVBorderEdge`: a UV edge id with orientation flag, owning UV
primitive id, the extraction tag and the cyclic-sequence bookkeeping
indices. -/
structure UVBorderEdge where
  edge : ℕ
  reverse_order : Bool
  uv_primitive : ℕ
  tag : Bool
  prev_index : ℕ
  index : ℕ
  next_index : ℕ
  border_index : ℕ
deriving DecidableEq, Inhabited

/-- Builds a `UVBorderEdge` the way the header constructor
`UVBorderEdge(edge, uv_primitive)` does: tag and orientation cleared,
indices zeroed. -/
def mkUVBorderEdge (edge uv_primitive : ℕ) : UVBorderEdge :=
  { edge := edge, reverse_order := false, uv_primitive := uv_primitive, tag := false
    prev_index := 0, index := 0, next_index := 0, border_index := 0 }

/-- Embeds `UVBorder`: an ordered cyclic sequence of border edges. -/
structure UVBorder where
  edges : List UVBorderEdge
deriving DecidableEq, Inhabited

/-- Embeds `UVIsland`: the append-only vertex/edge/primitive stores plus the
extracted borders. -/
structure UVIsland where
  uv_vertices : List UVVertex
  uv_edges : List UVEdge
  uv_primitives : List UVPrimitive
  borders : List UVBorder
deriving DecidableEq, Inhabited

/-- Dereferences a UV vertex id. -/
def UVIsland.vert (isl : UVIsland) (i : ℕ) : UVVertex := isl.uv_vertices.getD i default

/-- Dereferences a UV edge id. -/
def UVIsland.uvedge (isl : UVIsland) (i : ℕ) : UVEdge := isl.uv_edges.getD i default

/-- Dereferences a UV primitive id. -/
def UVIsland.uvprim (isl : UVIsland) (i : ℕ) : UVPrimitive := isl.uv_primitives.getD i default

/-- Modelled from the spec: `UVEdge::is_border_edge` -- an edge used by
exactly one primitive is a border edge of the island. -/
def UVIsland.is_border_edge (isl : UVIsland) (ei : ℕ) : Bool :=
  (isl.uvedge ei).uv_primitives.length == 1

/-- Modelled from the spec: `UVIsland::lookup_or_create(UVVertex)` -- find a
stored vertex with the same (mesh vertex, UV value) identity, else append the
template with its back-reference list cleared.  Returns the updated island
and the stable index of the record. -/
def UVIsland.lookup_or_create_vert (isl : UVIsland) (tmpl : UVVertex) : UVIsland × ℕ :=
  match isl.uv_vertices.findIdx? (fun v => v.uv == tmpl.uv && v.vertex == tmpl.vertex) with
  | some i => (isl, i)
  | none =>
    ({ isl with uv_vertices := isl.uv_vertices ++ [{ tmpl with uv_edges := [] }] },
     isl.uv_vertices.length)

/-- Modelled from the spec: `UVIsland::lookup_or_create(UVEdge)` -- equality
for UV edges is the unordered pair of endpoint ids; on miss the template is
appended with its primitive back-references cleared. -/
def UVIsland.lookup_or_create_edge (isl : UVIsland) (v0 v1 : ℕ) : UVIsland × ℕ :=
  match isl.uv_edges.findIdx?
      (fun e => (e.vertex0 == v0 && e.vertex1 == v1) || (e.vertex0 == v1 && e.vertex1 == v0)) with
  | some i => (isl, i)
  | none =>
    ({ isl with uv_edges := isl.uv_edges ++ [⟨v0, v1, []⟩] }, isl.uv_edges.length)

/-- Registers one UV edge id in one vertex record's back-reference list,
skipping duplicates. -/
def addEdgeRef (vs : List UVVertex) (vi ei : ℕ) : List UVVertex :=
  let v := vs.getD vi default
  if ei ∈ v.uv_edges then vs else vs.set vi { v with uv_edges := v.uv_edges ++ [ei] }

/-- Modelled from the spec: `UVEdge::append_to_uv_vertices` -- register the
edge id in the back-reference list of both endpoints (no duplicates). -/
def UVIsland.edge_append_to_uv_vertices (isl : UVIsland) (ei : ℕ) : UVIsland :=
  let e := isl.uvedge ei
  { isl with uv_vertices := addEdgeRef (addEdgeRef isl.uv_vertices e.vertex0 ei) e.vertex1 ei }

/-- Modelled from the spec: registering a primitive id with one of its UV
edges (`UVEdge.uv_primitives.append`). -/
def UVIsland.edge_append_prim (isl : UVIsland) (ei pi : ℕ) : UVIsland :=
  let e := isl.uvedge ei
  { isl with
    uv_edges := isl.uv_edges.set ei { e with uv_primitives := e.uv_primitives ++ [pi] } }

/-- Modelled from the spec: `UVBorderEdge::get_uv_vertex(index)` -- endpoint
lookup respecting `reverse_order` (index `i` reads `vertices[1-i]` when the
edge is reversed).  Returns the UV vertex id. -/
def UVIsland.bedgeVertId (isl : UVIsland) (be : UVBorderEdge) (i : ℕ) : ℕ :=
  let e := isl.uvedge be.edge
  let j := if be.reverse_order then 1 - i else i
  if j = 0 then e.vertex0 else e.vertex1

/-- UV coordinate of `get_uv_vertex(i)` of a border edge. -/
def UVIsland.bedgeUV (isl : UVIsland) (be : UVBorderEdge) (i : ℕ) : Q2 :=
  (isl.vert (isl.bedgeVertId be i)).uv

/-- Modelled from the spec: `UVBorderEdge::get_other_uv_vertex` -- the third
corner of the owning primitive: the first endpoint among the primitive's
edges whose mesh vertex differs from the mesh vertices of both endpoints of
this border edge.  Returns the UV vertex id. -/
def UVIsland.bedgeOtherVertId (isl : UVIsland) (be : UVBorderEdge) : ℕ :=
  let e := isl.uvedge be.edge
  let m1 := (isl.vert e.vertex0).vertex
  let m2 := (isl.vert e.vertex1).vertex
  let candidates :=
    ((isl.uvprim be.uv_primitive).edges.map
      (fun ei => [(isl.uvedge ei).vertex0, (isl.uvedge ei).vertex1])).flatten
  (candidates.find? (fun vid =>
    (isl.vert vid).vertex != m1 && (isl.vert vid).vertex != m2)).getD 0

/-!  ## Border extraction (`UVBorder::extract_from_edges`,
`UVIsland::extract_borders`) -/

/-- Result of one call of `UVBorder::extract_from_edges`.  The C++ walk
`while (current_uv != first_uv)` makes no progress when no untagged candidate
edge touches `current_uv`; the source then loops forever, which the embedding
reports as `diverged`. -/
inductive ExtractResult where
  | noneLeft (cand : List UVBorderEdge)
  | extracted (b : List UVBorderEdge) (cand : List UVBorderEdge)
  | diverged
deriving DecidableEq, Inhabited

/-- One iteration of the walk: scan the candidate list in order for the first
untagged edge with an endpoint at `current` (endpoint 0 checked before
endpoint 1), set its orientation so that `get_uv_vertex(0)` is at `current`,
tag it, and step to its other endpoint.  Returns the updated candidate list,
the copied edge, and the new walk coordinate. -/
def findWalkStep (isl : UVIsland) :
    List UVBorderEdge → Q2 → Option (List UVBorderEdge × UVBorderEdge × Q2)
  | [], _ => none
  | be :: rest, current =>
    if be.tag then
      (findWalkStep isl rest current).map (fun r => (be :: r.1, r.2.1, r.2.2))
    else
      let uv0 := (isl.vert (isl.uvedge be.edge).vertex0).uv
      let uv1 := (isl.vert (isl.uvedge be.edge).vertex1).uv
      if uv0 = current then
        let be' := { be with reverse_order := false, tag := true }
        some (be' :: rest, be', uv1)
      else if uv1 = current then
        let be' := { be with reverse_order := true, tag := true }
        some (be' :: rest, be', uv0)
      else
        (findWalkStep isl rest current).map (fun r => (be :: r.1, r.2.1, r.2.2))

/-- The walk loop of `extract_from_edges`, with fuel.  Every successful step
tags one previously untagged edge, so fuel equal to the candidate-list length
is always enough: running out of fuel can only happen in a state where the
C++ loop is stuck anyway (reported as `diverged`). -/
def borderWalk (isl : UVIsland) :
    ℕ → List UVBorderEdge → List UVBorderEdge → Q2 → Q2 → ExtractResult
  | 0, cand, acc, first, current =>
    if current = first then .extracted acc cand else .diverged
  | n + 1, cand, acc, first, current =>
    if current = first then .extracted acc cand
    else
      match findWalkStep isl cand current with
      | none => .diverged
      | some (cand', be, cur') => borderWalk isl n cand' (acc ++ [be]) first cur'

/-- Embeds `UVBorder::extract_from_edges`: return `noneLeft` when every
candidate is tagged; otherwise tag the first untagged candidate, start the
border with a copy of it (the source copies it into the border before
tagging, so the copy keeps `tag = false`), and walk until the border closes. -/
def extract_from_edges (isl : UVIsland) (cand : List UVBorderEdge) : ExtractResult :=
  match cand.findIdx? (fun be => !be.tag) with
  | none => .noneLeft cand
  | some i =>
    let start := cand.getD i default
    let cand1 := cand.set i { start with tag := true }
    borderWalk isl cand.length cand1 [start] (isl.bedgeUV start 0) (isl.bedgeUV start 1)

/-- Embeds `cross_poly_v2` of `BLI_math_geom` for a triangle: the sum of
`(x_i - x_prev) * (y_i + y_prev)` around the three corners (this is minus
twice the signed area). -/
def cross3 (p0 p1 p2 : Q2) : ℚ :=
  (p0.1 - p2.1) * (p0.2 + p2.2) + (p1.1 - p0.1) * (p1.2 + p0.2) + (p2.1 - p1.1) * (p2.2 + p1.2)

/-- Embeds `UVBorder::is_ccw`: the triangle of the first border edge's two
endpoints and the third corner of its owning primitive has negative
`cross_poly_v2`, i.e. positive signed area. -/
def border_is_ccw (isl : UVIsland) (edges : List UVBorderEdge) : Bool :=
  let e := edges.getD 0 default
  let p0 := isl.bedgeUV e 0
  let p1 := isl.bedgeUV e 1
  let p2 := (isl.vert (isl.bedgeOtherVertId e)).uv
  decide (cross3 p0 p1 p2 < 0)

/-- Embeds `UVBorder::update_indexes`: recompute the cyclic prev/self/next
positions and the border id of every edge. -/
def update_indexes (bi : ℕ) (edges : List UVBorderEdge) : List UVBorderEdge :=
  let n := edges.length
  (List.range n).map (fun i =>
    { edges.getD i default with
      prev_index := (i + n - 1) % n
      index := i
      next_index := (i + 1) % n
      border_index := bi })

/-- Embeds `UVBorder::flip`: toggle every edge's orientation flag, reverse
the edge order, and recompute indexes with the border id taken from the first
edge before flipping. -/
def border_flip (edges : List UVBorderEdge) : List UVBorderEdge :=
  let bi := (edges.getD 0 default).border_index
  update_indexes bi ((edges.map (fun e => { e with reverse_order := !e.reverse_order })).reverse)

/-- Embeds the candidate collection loop of `UVIsland::extract_borders`:
every border edge of every primitive, in store order, wrapped as an untagged
`UVBorderEdge`. -/
def collectBorderEdges (isl : UVIsland) : List UVBorderEdge :=
  ((List.range isl.uv_primitives.length).map (fun pi =>
    ((isl.uvprim pi).edges.filter (fun ei => isl.is_border_edge ei)).map
      (fun ei => mkUVBorderEdge ei pi))).flatten

/-- The extraction loop of `UVIsland::extract_borders`: repeatedly extract a
border, normalize its orientation, and append it, until no untagged candidate
remains.  Fuel `cand.length + 1` is always enough because every extraction
tags at least the starting edge.  `none` models the case where the inner walk
diverges. -/
def extractBordersLoop (isl : UVIsland) :
    ℕ → List UVBorderEdge → List (List UVBorderEdge) → Option (List (List UVBorderEdge))
  | 0, _, _ => none
  | n + 1, cand, acc =>
    match extract_from_edges isl cand with
    | .noneLeft _ => some acc
    | .diverged => none
    | .extracted b cand' =>
      let b' := if border_is_ccw isl b then b else border_flip b
      extractBordersLoop isl n cand' (acc ++ [b'])

/-- Embeds `UVIsland::extract_borders`: collect the border edges, extract and
normalize every cycle, and append the results to the island's border list. -/
def UVIsland.extract_borders (isl : UVIsland) : Option UVIsland :=
  let cand := collectBorderEdges isl
  (extractBordersLoop isl (cand.length + 1) cand []).map
    (fun bs => { isl with borders := isl.borders ++ bs.map (fun es => ⟨es⟩) })

/-!  ## Corner selection (`sharpest_border_corner`)

The source computes corner angles with the floating-point routine
`angle_signed_v2v2` and the constant `M_PI`.  The embedding abstracts the
numeric routine as a parameter `sa` and the constant as a parameter `piQ`;
all selection theorems quantify over them. -/

/-- The largest finite `float`, `FLT_MAX`, used by the source as the initial
running minimum (`std::numeric_limits<float>::max()`); the numeral is
`(2 - 2 ^ -23) * 2 ^ 127`, see `floatMax_eq`. -/
def floatMax : ℚ := 340282346638528859811704183484516925440

/-- The `floatMax` numeral is the value of `FLT_MAX`. -/
theorem floatMax_eq : floatMax = (2 - (1 / 2 ^ 23 : ℚ)) * 2 ^ 127 := by
  unfold floatMax
  norm_num

/-- Embeds `UVBorderCorner`: the source stores pointers to two adjacent
border edges; here the positions of these edges inside the border they were
found in (`first = &edges[e.prev_index]`, `second = &e`). -/
structure UVBorderCorner where
  borderPos : ℕ
  firstPos : ℕ
  secondPos : ℕ
  angle : ℚ
deriving DecidableEq, Inhabited

/-- Embeds `UVBorder::outside_angle`: `M_PI` minus the signed angle between
the previous border edge's UV direction and this edge's UV direction, where
the previous edge is read off the edge's `prev_index` field. -/
def border_outside_angle (sa : Q2 → Q2 → ℚ) (piQ : ℚ) (isl : UVIsland)
    (b : UVBorder) (e : UVBorderEdge) : ℚ :=
  let prev := b.edges.getD e.prev_index default
  piQ - sa (isl.bedgeUV prev 1 - isl.bedgeUV prev 0) (isl.bedgeUV e 1 - isl.bedgeUV e 0)

/-- Generic shape of both `sharpest_border_corner` loops: walk the items in
order, skip ineligible ones, and replace the running best exactly when the
key is strictly smaller. -/
def selectScan {α β : Type} (key : α → ℚ) (val : α → Option β) (elig : α → Bool) :
    List α → Option β × ℚ → Option β × ℚ
  | [], st => st
  | x :: rest, (res, best) =>
    if elig x = true ∧ key x < best then selectScan key val elig rest (val x, key x)
    else selectScan key val elig rest (res, best)

/-- Is the border edge at position `i` of border `b` eligible for extension:
its `get_uv_vertex(0)` must be flagged `is_border` and not `is_extended`. -/
def edgeEligible (isl : UVIsland) (b : UVBorder) (i : ℕ) : Bool :=
  let e := b.edges.getD i default
  let v := isl.vert (isl.bedgeVertId e 0)
  v.flags.is_border && !v.flags.is_extended

/-- Angle key used by the per-border loop for the edge at position `i`. -/
def edgeAngle (sa : Q2 → Q2 → ℚ) (piQ : ℚ) (isl : UVIsland) (b : UVBorder) (i : ℕ) : ℚ :=
  border_outside_angle sa piQ isl b (b.edges.getD i default)

/-- Corner built by the per-border loop when the edge at position `i` of the
border at position `bp` wins: `first` is the edge at the winner's
`prev_index`, `second` the winner itself. -/
def cornerAt (sa : Q2 → Q2 → ℚ) (piQ : ℚ) (isl : UVIsland) (bp : ℕ) (b : UVBorder)
    (i : ℕ) : UVBorderCorner :=
  { borderPos := bp
    firstPos := (b.edges.getD i default).prev_index
    secondPos := i
    angle := edgeAngle sa piQ isl b i }

/-- Embeds the per-border `sharpest_border_corner(UVBorder &, float *)`:
scan the edges in order, skipping ineligible start vertices, keeping the
first strict improvement of the running minimum (initially `FLT_MAX`).
Returns the optional corner and the final running minimum (`*r_angle`). -/
def sharpest_border_corner_in (sa : Q2 → Q2 → ℚ) (piQ : ℚ) (isl : UVIsland)
    (bp : ℕ) : Option UVBorderCorner × ℚ :=
  let b := isl.borders.getD bp default
  selectScan (edgeAngle sa piQ isl b) (fun i => some (cornerAt sa piQ isl bp b i))
    (edgeEligible isl b) (List.range b.edges.length) (none, floatMax)

/-- Embeds the island-level `sharpest_border_corner(UVIsland &)`: scan the
borders in order, adopting a border's result exactly when its reported angle
strictly improves the running sharpest angle. -/
def sharpest_border_corner (sa : Q2 → Q2 → ℚ) (piQ : ℚ) (isl : UVIsland) :
    Option UVBorderCorner :=
  (selectScan (fun bp => (sharpest_border_corner_in sa piQ isl bp).2)
    (fun bp => (sharpest_border_corner_in sa piQ isl bp).1)
    (fun _ => true) (List.range isl.borders.length) (none, floatMax)).1

/-!  ## Vertex fan (`InnerEdge`, `Fan`) -/

/-- Embeds `InnerEdge`: a fan blade.  `uvs` is only written by
`init_uv_coordinates` (and only read by debug printing), `vert_order`
reorders the primitive's corners so that entry 0 is the fan's centre
vertex. -/
structure InnerEdge where
  primitive : ℕ
  uvs : List Q2
  vert_order : List ℕ
  found : Bool
deriving DecidableEq, Inhabited

/-- Embeds the `InnerEdge(primitive, vertex)` constructor: cyclic reorder of
the corner indices so the first one is `vertex`; `found` cleared; `uvs` is
left uninitialized by the source (zero-filled here, never read before being
written). -/
def mkInnerEdge (m : MeshData) (pi v : ℕ) : InnerEdge :=
  let p := m.primAt pi
  let vo : List ℕ :=
    if (p.vertices.getD 1 default).vertex == v then [1, 2, 0]
    else if (p.vertices.getD 2 default).vertex == v then [2, 0, 1]
    else [0, 1, 2]
  { primitive := pi, uvs := [(0, 0), (0, 0), (0, 0)], vert_order := vo, found := false }

/-- Embeds `Fan`: the collected blades and the `full` flag. -/
structure Fan where
  inner_edges : List InnerEdge
  full : Bool
deriving DecidableEq, Inhabited

/-- One search of the fan walk: among the primitives of the current edge
(minus the previous primitive, in order), the first primitive owning an edge
that differs from the current edge and touches the centre vertex; returns
that primitive and edge. -/
def fanFindNext (m : MeshData) (v ce : ℕ) : List ℕ → Option (ℕ × ℕ)
  | [] => none
  | op :: rest =>
    match (m.primAt op).edges.find? (fun e =>
        e != ce && ((m.edgeAt e).vert1 == v || (m.edgeAt e).vert2 == v)) with
    | some e => some (op, e)
    | none => fanFindNext m v ce rest

/-- The walk loop of the `Fan` constructor, with fuel.  On adversarial
adjacency data the C++ `while (true)` can revisit primitives forever without
reaching the stop primitive; exhausted fuel (`none`) reports that case. -/
def fanLoop (m : MeshData) (v sp : ℕ) :
    ℕ → ℕ → ℕ → List InnerEdge → Option (List InnerEdge × Bool)
  | 0, _, _, _ => none
  | fuel + 1, ce, pp, acc =>
    match fanFindNext m v ce ((m.edgeAt ce).primitives.filter (fun p => p != pp)) with
    | none => some (acc, false)
    | some (op, e) =>
      let acc' := acc ++ [mkInnerEdge m op v]
      if sp == op then some (acc', true)
      else fanLoop m v sp fuel e op acc'

/-- Embeds the `Fan(MeshVertex &)` constructor: start at the vertex's first
edge and that edge's first primitive, walk the ring, record blades; `full`
is false when the walk finds no continuation (non-manifold vertex). -/
def mkFan (m : MeshData) (fuel v : ℕ) : Option Fan :=
  let ce0 := (m.vertAt v).edges.getD 0 0
  let sp := (m.edgeAt ce0).primitives.getD 0 0
  (fanLoop m v sp fuel ce0 sp []).map (fun r => ⟨r.1, r.2⟩)

/-- Embeds `Fan::count_num_to_add`: the number of blades not yet represented
in UV space. -/
def countNumToAdd (fan : Fan) : ℕ :=
  (fan.inner_edges.filter (fun fe => !fe.found)).length

/-- Modelled from the spec: `UVEdge::get_other_uv_vertex(mesh vertex)` --
the endpoint of the UV edge whose mesh vertex is not the given one
(endpoint 1 if endpoint 0 matches, else endpoint 0).  Returns a UV vertex
id. -/
def UVIsland.edgeOtherVertId (isl : UVIsland) (ei v : ℕ) : ℕ :=
  let e := isl.uvedge ei
  if (isl.vert e.vertex0).vertex == v then e.vertex1 else e.vertex0

/-- Embeds `Fan::mark_already_added_segments`: a blade is `found` exactly
when one of the centre UV vertex's incident UV edges joins the blade's first
two mesh vertices (in either order). -/
def markSegments (isl : UVIsland) (m : MeshData) (uvv : UVVertex) (fan : Fan) : Fan :=
  { fan with
    inner_edges := fan.inner_edges.map (fun fe =>
      let p := m.primAt fe.primitive
      let v0 := (p.vertices.getD (fe.vert_order.getD 0 0) default).vertex
      let v1 := (p.vertices.getD (fe.vert_order.getD 1 0) default).vertex
      let fnd := uvv.uv_edges.any (fun ei =>
        let e0 := (isl.vert (isl.uvedge ei).vertex0).vertex
        let e1 := (isl.vert (isl.uvedge ei).vertex1).vertex
        (e0 == v0 && e1 == v1) || (e0 == v1 && e1 == v0))
      { fe with found := fnd }) }

/-- Embeds `Fan::init_uv_coordinates`: write each blade's first two UV
coordinates from the matching incident UV edge of the centre vertex, then
wire entry 2 to the cyclic successor's entry 1.  The data is only consumed
by debug printing. -/
def initFanUV (isl : UVIsland) (uvv : UVVertex) (m : MeshData) (fan : Fan) : Fan :=
  let edges1 := fan.inner_edges.map (fun fe =>
    let p := m.primAt fe.primitive
    let ov0 := (p.vertices.getD (fe.vert_order.getD 0 0) default).vertex
    let other_v :=
      if ov0 == uvv.vertex then (p.vertices.getD (fe.vert_order.getD 1 0) default).vertex
      else ov0
    match uvv.uv_edges.find? (fun ei =>
        (isl.vert (isl.edgeOtherVertId ei uvv.vertex)).vertex == other_v) with
    | some ei =>
      { fe with uvs := [uvv.uv, (isl.vert (isl.edgeOtherVertId ei uvv.vertex)).uv,
                        fe.uvs.getD 2 default] }
    | none => fe)
  let n := edges1.length
  { fan with
    inner_edges := (List.range n).map (fun i =>
      let fe := edges1.getD i default
      let succ := edges1.getD ((i + 1) % n) default
      { fe with uvs := [fe.uvs.getD 0 default, fe.uvs.getD 1 default, succ.uvs.getD 1 default] }) }

/-!  ## Fill-primitive search and primitive insertion -/

/-- Embeds the 3-vertex `find_fill_border`: scan the first vertex's edges and
their primitives for the first primitive containing all three mesh
vertices. -/
def find_fill_border3 (m : MeshData) (v1 v2 v3 : ℕ) : Option ℕ :=
  (m.vertAt v1).edges.findSome? (fun e =>
    (m.edgeAt e).primitives.find? (fun p =>
      has_vertex (m.primAt p) v1 && has_vertex (m.primAt p) v2 && has_vertex (m.primAt p) v3))

/-- Modelled from the spec: `UVEdge::has_same_vertices(MeshEdge)` -- the UV
edge's endpoint mesh vertices equal the mesh edge's vertices as an unordered
pair. -/
def UVIsland.uvedge_matches_mesh_edge (isl : UVIsland) (ei : ℕ) (m : MeshData) (me : ℕ) : Bool :=
  let e := isl.uvedge ei
  let a := (isl.vert e.vertex0).vertex
  let b := (isl.vert e.vertex1).vertex
  let c := (m.edgeAt me).vert1
  let d := (m.edgeAt me).vert2
  (a == c && b == d) || (a == d && b == c)

/-- Embeds the corner overload of `find_fill_border`: reject corners whose
edges do not share their middle vertex or that fold back onto themselves,
then scan the shared mesh vertex's edges for the one matching
`corner.first->edge` and return its primitive whose remaining vertex is the
corner's far end. -/
def find_fill_border_corner (isl : UVIsland) (m : MeshData) (c : UVBorderCorner) : Option ℕ :=
  let b := isl.borders.getD c.borderPos default
  let fe := b.edges.getD c.firstPos default
  let se := b.edges.getD c.secondPos default
  if isl.bedgeVertId fe 1 ≠ isl.bedgeVertId se 0 then none
  else if isl.bedgeVertId fe 0 = isl.bedgeVertId se 1 then none
  else
    let shared := isl.vert (isl.bedgeVertId se 0)
    let farMesh := (isl.vert (isl.bedgeVertId se 1)).vertex
    (m.vertAt shared.vertex).edges.findSome? (fun me =>
      if isl.uvedge_matches_mesh_edge fe.edge m me then
        (m.edgeAt me).primitives.find? (fun p =>
          match (m.primAt p).get_other_uv_vertex (m.edgeAt me).vert1 (m.edgeAt me).vert2 with
          | some ov => ov.vertex == farMesh
          | none => false)
      else none)

/-- Modelled from the spec: `UVPrimitive::get_uv_edge(float2, float2)` --
the first edge of the primitive whose endpoint UV coordinates equal the
given unordered pair. -/
def UVIsland.prim_get_uv_edge_uv (isl : UVIsland) (pid : ℕ) (uv1 uv2 : Q2) : Option ℕ :=
  (isl.uvprim pid).edges.find? (fun ei =>
    let a := (isl.vert (isl.uvedge ei).vertex0).uv
    let b := (isl.vert (isl.uvedge ei).vertex1).uv
    (a == uv1 && b == uv2) || (a == uv2 && b == uv1))

/-- Modelled from the spec: `UVPrimitive::get_uv_edge(MeshVertex*, MeshVertex*)`
-- the first edge of the primitive whose endpoint mesh vertices equal the
given unordered pair. -/
def UVIsland.prim_get_uv_edge_mv (isl : UVIsland) (pid : ℕ) (v1 v2 : ℕ) : Option ℕ :=
  (isl.uvprim pid).edges.find? (fun ei =>
    let a := (isl.vert (isl.uvedge ei).vertex0).vertex
    let b := (isl.vert (isl.uvedge ei).vertex1).vertex
    (a == v1 && b == v2) || (a == v2 && b == v1))

/-- Registers a freshly built UV primitive: append the primitive id to its 3
edges' back-references (`append_to_uv_edges`), register the edges with their
endpoints (`append_to_uv_vertices`), and append the primitive record.  The
source registers the address the primitive is about to receive in the
island's store. -/
def UVIsland.push_prim (isl : UVIsland) (mp e1 e2 e3 : ℕ) : UVIsland :=
  let pid := isl.uv_primitives.length
  let isl1 := ((isl.edge_append_prim e1 pid).edge_append_prim e2 pid).edge_append_prim e3 pid
  let isl2 := ((isl1.edge_append_to_uv_vertices e1).edge_append_to_uv_vertices
      e2).edge_append_to_uv_vertices e3
  { isl2 with uv_primitives := isl2.uv_primitives ++ [⟨mp, [e1, e2, e3]⟩] }

/-- Embeds `add_uv_primitive_shared_uv_edge`: create (or find) the unshared
vertex at `uv_unconnected`, the two connected vertices, the three edges, and
push the primitive. -/
def add_uv_primitive_shared_uv_edge (isl : UVIsland) (m : MeshData) (cv1 cv2 : ℕ)
    (uv_unconnected : Q2) (mp : ℕ) : UVIsland :=
  let p := m.primAt mp
  let mv1 := (isl.vert cv1).vertex
  let mv2 := (isl.vert cv2).vertex
  let other_vert := (p.get_other_uv_vertex mv1 mv2).getD default
  let r0 := isl.lookup_or_create_vert (mkUVVertex other_vert.vertex uv_unconnected)
  let r1 := r0.1.lookup_or_create_vert (mkUVVertex (get_uv_vert p mv1).vertex (isl.vert cv1).uv)
  let r2 := r1.1.lookup_or_create_vert (mkUVVertex (get_uv_vert p mv2).vertex (isl.vert cv2).uv)
  let re1 := r2.1.lookup_or_create_edge r1.2 r2.2
  let re2 := re1.1.lookup_or_create_edge r2.2 r0.2
  let re3 := re2.1.lookup_or_create_edge r0.2 r1.2
  re3.1.push_prim mp re1.2 re2.2 re3.2

/-- Embeds `add_uv_primitive_fill`: three edge lookups between the given
vertices and a primitive push. -/
def add_uv_primitive_fill (isl : UVIsland) (v1 v2 v3 mp : ℕ) : UVIsland :=
  let re1 := isl.lookup_or_create_edge v1 v2
  let re2 := re1.1.lookup_or_create_edge v2 v3
  let re3 := re2.1.lookup_or_create_edge v3 v1
  re3.1.push_prim mp re1.2 re2.2 re3.2

/-!  ## Island extension (`extend_at_vert`, `UVIsland::extend_border`) -/

/-- Type of the abstracted `UVBorderCorner::uv(factor, min_uv_distance)`:
the source rotates and rescales with floating-point trigonometry; every
theorem quantifies over this function.  It receives the island state at
entry of `extend_at_vert` (the fields it reads are never modified before its
calls). -/
abbrev CornerUV : Type := UVIsland → UVBorderCorner → ℚ → ℚ → Q2

/-- The two fill primitives of the `num_to_add == 0` branch: the found one
twice, else the corner edges' own primitives (crosswise, as in the source:
`fill_primitive_1` from `corner.second`, `fill_primitive_2` from
`corner.first`). -/
def resolveFillPrims (isl : UVIsland) (m : MeshData) (c : UVBorderCorner) : ℕ × ℕ :=
  let b0 := isl.borders.getD c.borderPos default
  let firstE := b0.edges.getD c.firstPos default
  let secondE := b0.edges.getD c.secondPos default
  match find_fill_border_corner isl m c with
  | some fp => (fp, fp)
  | none => ((isl.uvprim secondE.uv_primitive).primitive,
             (isl.uvprim firstE.uv_primitive).primitive)

/-- Embeds the `num_to_add == 0` branch of `extend_at_vert`: resolve the two
fill primitives, create the centre vertex at `corner.uv(0.5, min_uv_distance)`
through two `add_uv_primitive_shared_uv_edge` calls, and replace the corner's
two border edges in place. -/
def extendAtVertZero (m : MeshData) (cuv : CornerUV) (isl : UVIsland) (c : UVBorderCorner)
    (min_uv_distance : ℚ) : UVIsland :=
  let b0 := isl.borders.getD c.borderPos default
  let firstE := b0.edges.getD c.firstPos default
  let secondE := b0.edges.getD c.secondPos default
  let fps := resolveFillPrims isl m c
  let center_uv := cuv isl c (1 / 2) min_uv_distance
  let islA := add_uv_primitive_shared_uv_edge isl m (isl.bedgeVertId firstE 1)
      (isl.bedgeVertId firstE 0) center_uv fps.1
  let np1 := islA.uv_primitives.length - 1
  let islB := add_uv_primitive_shared_uv_edge islA m (isl.bedgeVertId secondE 0)
      (isl.bedgeVertId secondE 1) center_uv fps.2
  let np2 := islB.uv_primitives.length - 1
  let firstE' := match islB.prim_get_uv_edge_uv np1 (isl.bedgeUV firstE 0) center_uv with
    | some ne =>
      { firstE with
        uv_primitive := np1
        edge := ne
        reverse_order := (islB.vert (islB.uvedge ne).vertex0).uv == center_uv }
    | none => { firstE with uv_primitive := np1 }
  let secondE' := match islB.prim_get_uv_edge_uv np2 (isl.bedgeUV secondE 1) center_uv with
    | some ne =>
      { secondE with
        uv_primitive := np2
        edge := ne
        reverse_order := (islB.vert (islB.uvedge ne).vertex1).uv == center_uv }
    | none => { secondE with uv_primitive := np2 }
  let newEdges := (b0.edges.set c.firstPos firstE').set c.secondPos secondE'
  { islB with borders := islB.borders.set c.borderPos ⟨newEdges⟩ }

/-- One iteration of the `for (int i = 0; i < num_to_add; i++)` loop of
`extend_at_vert`: search the not-yet-found fan segments for the first one
whose `find_fill_border` lookup succeeds, create the three vertices (the new
one at `corner.uv((i+1)/(num_to_add+1), ...)`), fill the primitive, advance
the current edge and collect the new border edge.  A failed search leaves
the island untouched and clears the `ok` marker (the source silently skips
such iterations). -/
def extendStepFn (m : MeshData) (cuv : CornerUV) (isl : UVIsland) (c : UVBorderCorner)
    (min_uv_distance : ℚ) (uvv : UVVertex) (num_to_add : ℕ)
    (st : UVIsland × Fan × ℕ × List UVBorderEdge × Bool) (i : ℕ) :
    UVIsland × Fan × ℕ × List UVBorderEdge × Bool :=
  let islS := st.1
  let fanS := st.2.1
  let ce := st.2.2.1
  let acc := st.2.2.2.1
  let ok := st.2.2.2.2
  let ovId := islS.edgeOtherVertId ce uvv.vertex
  let old_uv := (islS.vert ovId).uv
  let sev := (islS.vert ovId).vertex
  let factor : ℚ := ((i : ℚ) + 1) / ((num_to_add : ℚ) + 1)
  let new_uv := cuv isl c factor min_uv_distance
  match (List.range fanS.inner_edges.length).findSome? (fun j =>
      let seg := fanS.inner_edges.getD j default
      if seg.found then none
      else
        match find_fill_border3 m uvv.vertex sev
            ((m.primAt seg.primitive).vertices.getD
              (seg.vert_order.getD 1 0) default).vertex with
        | some fp => some (j, fp)
        | none => none) with
  | none => (islS, fanS, ce, acc, false)
  | some jfp =>
    let seg := fanS.inner_edges.getD jfp.1 default
    let opv := (((m.primAt jfp.2).get_other_uv_vertex uvv.vertex sev).getD default).vertex
    let r1 := islS.lookup_or_create_vert (mkUVVertex uvv.vertex uvv.uv)
    let r2 := r1.1.lookup_or_create_vert (mkUVVertex sev old_uv)
    let r3 := r2.1.lookup_or_create_vert (mkUVVertex opv new_uv)
    let i4 := add_uv_primitive_fill r3.1 r1.2 r2.2 r3.2 jfp.2
    let np := i4.uv_primitives.length - 1
    let fan1 := { fanS with
      inner_edges := fanS.inner_edges.set jfp.1 { seg with found := true } }
    let ce1 := (i4.prim_get_uv_edge_mv np uvv.vertex opv).getD ce
    let ne := (i4.prim_get_uv_edge_mv np sev opv).getD 0
    (i4, fan1, ce1, acc ++ [mkUVBorderEdge ne np], ok)

/-- The final segment of the `num_to_add > 0` branch of `extend_at_vert`:
one more fill towards the corner's second outer vertex (the source asserts
this lookup; a failure clears the `ok` marker here). -/
def extendFinalSeg (m : MeshData) (isl : UVIsland) (secondE : UVBorderEdge) (uvv : UVVertex)
    (stL : UVIsland × Fan × ℕ × List UVBorderEdge × Bool) :
    UVIsland × List UVBorderEdge × Bool :=
  let islL := stL.1
  let ceL := stL.2.2.1
  let accL := stL.2.2.2.1
  let okL := stL.2.2.2.2
  let ovId := islL.edgeOtherVertId ceL uvv.vertex
  let old_uv := (islL.vert ovId).uv
  let sev := (islL.vert ovId).vertex
  match find_fill_border3 m uvv.vertex sev
      ((isl.vert (isl.bedgeVertId secondE 1)).vertex) with
  | none => (islL, accL, false)
  | some fp =>
    let opv := (((m.primAt fp).get_other_uv_vertex uvv.vertex sev).getD default).vertex
    let r1 := islL.lookup_or_create_vert (mkUVVertex uvv.vertex uvv.uv)
    let r2 := r1.1.lookup_or_create_vert (mkUVVertex sev old_uv)
    let r3 := r2.1.lookup_or_create_vert
        (mkUVVertex opv (isl.vert (isl.bedgeVertId secondE 1)).uv)
    let i4 := add_uv_primitive_fill r3.1 r1.2 r2.2 r3.2 fp
    let np := i4.uv_primitives.length - 1
    let ne := (i4.prim_get_uv_edge_mv np sev opv).getD 0
    (i4, accL ++ [mkUVBorderEdge ne np], okL)

/-- Embeds the `num_to_add > 0` branch of `extend_at_vert`: run the fill
loop, add the final segment, then splice the border in place of the corner's
two edges (`remove`, `remove`, `insert`, `update_indexes`).  The boolean is
the `ok` marker: true when every `find_fill_border` lookup succeeded. -/
def extendAtVertMany (m : MeshData) (cuv : CornerUV) (isl : UVIsland) (c : UVBorderCorner)
    (min_uv_distance : ℚ) (uvv : UVVertex) (fan2 : Fan) (num_to_add : ℕ) :
    UVIsland × Bool :=
  let b0 := isl.borders.getD c.borderPos default
  let firstE := b0.edges.getD c.firstPos default
  let secondE := b0.edges.getD c.secondPos default
  let st0 : UVIsland × Fan × ℕ × List UVBorderEdge × Bool :=
    (isl, fan2, firstE.edge, [], true)
  let stL := (List.range num_to_add).foldl
    (extendStepFn m cuv isl c min_uv_distance uvv num_to_add) st0
  let res2 := extendFinalSeg m isl secondE uvv stL
  let islF := res2.1
  let newBE := res2.2.1
  let bi := firstE.border_index
  let bEdges := (islF.borders.getD bi default).edges
  let bIns0 := firstE.index
  let l1 := bEdges.eraseIdx bIns0
  let bNext0 := secondE.index
  let bIns1 := if bNext0 < bIns0 then bIns0 - 1 else bIns0
  let bNext1 := if bNext0 < bIns0 then bNext0 else bNext0 - 1
  let l2 := l1.eraseIdx bNext1
  let l3 := l2.take bIns1 ++ newBE ++ l2.drop bIns1
  ({ islF with borders := islF.borders.set bi ⟨update_indexes bi l3⟩ }, res2.2.2)

/-- Embeds `extend_at_vert`.  `none` models divergence of the inner fan walk
(fuel exhausted).  The returned flag is true when every `find_fill_border`
lookup that the `num_to_add > 0` path consulted eventually succeeded (the
source asserts the final lookup and silently skips failed loop iterations);
paths that consult no lookups return true. -/
def extend_at_vert (m : MeshData) (cuv : CornerUV) (fanFuel : ℕ) (isl : UVIsland)
    (c : UVBorderCorner) (min_uv_distance : ℚ) : Option (UVIsland × Bool) :=
  let b0 := isl.borders.getD c.borderPos default
  let secondE := b0.edges.getD c.secondPos default
  let uvv := isl.vert (isl.bedgeVertId secondE 0)
  match mkFan m fanFuel uvv.vertex with
  | none => none
  | some fan0 =>
    if fan0.full = false then some (isl, true)
    else
      let fan2 := markSegments isl m uvv (initFanUV isl uvv m fan0)
      let num_to_add := countNumToAdd fan2
      if num_to_add = 0 then some (extendAtVertZero m cuv isl c min_uv_distance, true)
      else some (extendAtVertMany m cuv isl c min_uv_distance uvv fan2 num_to_add)

/-- Embeds the flag write `uv_vertex->flags.is_extended = true` of the
extension loop. -/
def markExtended (isl : UVIsland) (vid : ℕ) : UVIsland :=
  let v := isl.uv_vertices.getD vid default
  { isl with
    uv_vertices := isl.uv_vertices.set vid { v with flags := { v.flags with is_extended := true } } }

/-- Embeds `reset_extendability_flags`: clear both flags everywhere, then
set `is_border` on every endpoint of every border edge. -/
def reset_extendability_flags (isl : UVIsland) : UVIsland :=
  let cleared := isl.uv_vertices.map (fun v => { v with flags := ⟨false, false⟩ })
  let ids := ((isl.borders.map (fun b => b.edges.map (fun be =>
      [(isl.uvedge be.edge).vertex0, (isl.uvedge be.edge).vertex1]))).flatten).flatten
  { isl with
    uv_vertices := (List.range cleared.length).map (fun i =>
      let v := cleared.getD i default
      if i ∈ ids then { v with flags := { v.flags with is_border := true } } else v) }

/-- Is a vertex eligible for extension (`is_border && !is_extended`). -/
def vertEligible (v : UVVertex) : Bool := v.flags.is_border && !v.flags.is_extended

/-- Number of eligible vertices of the island. -/
def eligCount (isl : UVIsland) : ℕ := (isl.uv_vertices.filter vertEligible).length

/-- Number of vertices flagged `is_border`. -/
def borderFlagCount (isl : UVIsland) : ℕ :=
  (isl.uv_vertices.filter (fun v => v.flags.is_border)).length

/-- Embeds one iteration of the `while (true)` loop of
`UVIsland::extend_border`, after a corner has been selected: look up the
mask tile of the corner's shared vertex, extend when the tile claims the
coordinate for this island, and in every case mark the vertex
`is_extended`. -/
def extendBorderStep (m : MeshData) (cuv : CornerUV) (fanFuel : ℕ) (mask : UVIslandsMask)
    (island_index : ℕ) (islS : UVIsland) (c : UVBorderCorner) : Option UVIsland :=
  let se := (islS.borders.getD c.borderPos default).edges.getD c.secondPos default
  let uvvId := islS.bedgeVertId se 0
  let uv := (islS.vert uvvId).uv
  let after : Option UVIsland :=
    match mask.find_tile uv with
    | some tile =>
      if tile.is_masked island_index uv then
        (extend_at_vert m cuv fanFuel islS c (tile.get_pixel_size_in_uv_space * 2)).map
          (fun r => r.1)
      else some islS
    | none => some islS
  after.map (fun isl2 => markExtended isl2 uvvId)

/-- The selection loop of `UVIsland::extend_border`, with fuel: exit when no
eligible corner remains, otherwise run one step.  `none` models divergence
of an inner walk or exhausted fuel (the halting theorem shows fuel
`eligCount` always suffices). -/
def extendBorderLoop (m : MeshData) (sa : Q2 → Q2 → ℚ) (piQ : ℚ) (cuv : CornerUV)
    (fanFuel : ℕ) (mask : UVIslandsMask) (island_index : ℕ) :
    ℕ → UVIsland → Option UVIsland
  | 0, islS =>
    match sharpest_border_corner sa piQ islS with
    | none => some islS
    | some _ => none
  | fuel + 1, islS =>
    match sharpest_border_corner sa piQ islS with
    | none => some islS
    | some c =>
      match extendBorderStep m cuv fanFuel mask island_index islS c with
      | none => none
      | some s2 => extendBorderLoop m sa piQ cuv fanFuel mask island_index fuel s2

/-- The entry sequence of `UVIsland::extend_border` before its `while (true)`
loop: reset the extendability flags and recompute every border's indexes. -/
def UVIsland.extend_border_prep (isl : UVIsland) : UVIsland :=
  let isl0 := reset_extendability_flags isl
  { isl0 with
    borders := (List.range isl0.borders.length).map (fun i =>
      ⟨update_indexes i (isl0.borders.getD i default).edges⟩) }

/-- Embeds `UVIsland::extend_border`: reset the extendability flags,
recompute every border's indexes, and run the selection loop (the halting
theorem justifies fuel `eligCount`). -/
def UVIsland.extend_border (isl : UVIsland) (m : MeshData) (sa : Q2 → Q2 → ℚ) (piQ : ℚ)
    (cuv : CornerUV) (fanFuel : ℕ) (mask : UVIslandsMask) (island_index : ℕ) :
    Option UVIsland :=
  extendBorderLoop m sa piQ cuv fanFuel mask island_index
    (eligCount isl.extend_border_prep) isl.extend_border_prep

/-!  ## Claim C9: dilation of a single-cell mask -/

/-- Running `dilate_tile` once is one x-pass followed by one y-pass. -/
theorem dilate_tile_one (t : Tile) : dilate_tile t 1 = (dilateY (dilateX t).1).1 := by
  rw [dilate_tile]
  split
  · rfl
  · rfl

/-- C9: for a tile whose mask claims exactly the cell `(x, y)` for island `K`
and leaves every other cell unclaimed, `dilate(0)` changes nothing (at the
mask level and at the tile level), and after `dilate(1)` every direct
4-neighbour of `(x, y)` that exists in the grid holds `K`. -/
theorem claim_C9 (w h x y K : ℕ) (t : Tile)
    (hx : x < w) (hy : y < h) (hK : K ≠ unclaimedCell)
    (hres : t.mask_resolution = (w, h))
    (hmask : t.mask = fun a b => if a = x ∧ b = y then K else unclaimedCell) :
    (∀ msk : UVIslandsMask, msk.dilate 0 = msk) ∧
    dilate_tile t 0 = t ∧
    ((1 ≤ x → (dilate_tile t 1).mask (x - 1) y = K) ∧
     (x + 1 < w → (dilate_tile t 1).mask (x + 1) y = K) ∧
     (1 ≤ y → (dilate_tile t 1).mask x (y - 1) = K) ∧
     (y + 1 < h → (dilate_tile t 1).mask x (y + 1) = K)) := by
  have hm0ne : ∀ a b, ¬(a = x ∧ b = y) → t.mask a b = unclaimedCell := by
    intro a b hab
    rw [hmask]
    simp [hab]
  have hm0c : t.mask x y = K := by rw [hmask]; simp
  have hm1 : ((dilateX t).1).mask =
      fun a b => if a < w ∧ b < h then dilateXCell w t.mask a b else t.mask a b := by
    simp only [dilateX, hres]
  have hm1res : ((dilateX t).1).mask_resolution = (w, h) := by
    simp only [dilateX, hres]
  have hm2 : ((dilateY (dilateX t).1).1).mask =
      fun a b => if a < w ∧ b < h then dilateYCell h ((dilateX t).1).mask a b
                 else ((dilateX t).1).mask a b := by
    simp only [dilateY, hm1res]
  -- the x-pass keeps the centre claimed
  have hm1c : ((dilateX t).1).mask x y = K := by
    rw [hm1]
    simp only [hx, hy, and_self, if_true]
    unfold dilateXCell
    rw [hm0c]
    simp [hK]
  -- the x-pass claims the left neighbour
  have hm1l : 1 ≤ x → ((dilateX t).1).mask (x - 1) y = K := by
    intro h1
    rw [hm1]
    have hxw : x - 1 < w := by omega
    simp only [hxw, hy, and_self, if_true]
    unfold dilateXCell
    have e1 : t.mask (x - 1) y = unclaimedCell := hm0ne _ _ (by omega)
    have e2 : t.mask (x - 1 - 1) y = unclaimedCell := hm0ne _ _ (by omega)
    have e3 : x - 1 + 1 = x := by omega
    rw [e1, e2, e3, hm0c]
    have hg : x - 1 < w - 1 := by omega
    simp [hK, hg]
  -- the x-pass claims the right neighbour
  have hm1r : x + 1 < w → ((dilateX t).1).mask (x + 1) y = K := by
    intro h1
    rw [hm1]
    simp only [h1, hy, and_self, if_true]
    unfold dilateXCell
    have e1 : t.mask (x + 1) y = unclaimedCell := hm0ne _ _ (by omega)
    have e2 : x + 1 - 1 = x := by omega
    rw [e1, e2, hm0c]
    simp [hK]
  -- the x-pass leaves the rest of the centre column unclaimed
  have hm1col : ∀ b, b ≠ y → ((dilateX t).1).mask x b = unclaimedCell := by
    intro b hb
    rw [hm1]
    have e1 : t.mask x b = unclaimedCell := hm0ne _ _ (by tauto)
    have e2 : t.mask (x - 1) b = unclaimedCell := hm0ne _ _ (by tauto)
    have e3 : t.mask (x + 1) b = unclaimedCell := hm0ne _ _ (by tauto)
    by_cases hin : x < w ∧ b < h
    · simp only [hin, if_true]
      unfold dilateXCell
      rw [e1, e2, e3]
      simp
    · simp only [hin, if_false]
      exact e1
  refine ⟨?_, rfl, ?_, ?_, ?_, ?_⟩
  · intro msk
    cases msk with
    | mk tiles =>
      simp only [UVIslandsMask.dilate, UVIslandsMask.mk.injEq]
      have : ∀ tl : Tile, dilate_tile tl 0 = tl := fun _ => rfl
      simp [this]
  · intro h1
    rw [dilate_tile_one, hm2]
    have hxw : x - 1 < w := by omega
    simp only [hxw, hy, and_self, if_true]
    unfold dilateYCell
    rw [hm1l h1]
    simp [hK]
  · intro h1
    rw [dilate_tile_one, hm2]
    simp only [h1, hy, and_self, if_true]
    unfold dilateYCell
    rw [hm1r h1]
    simp [hK]
  · intro h1
    rw [dilate_tile_one, hm2]
    have hyh : y - 1 < h := by omega
    simp only [hx, hyh, and_self, if_true]
    unfold dilateYCell
    have e1 : ((dilateX t).1).mask x (y - 1) = unclaimedCell := hm1col _ (by omega)
    have e2 : ((dilateX t).1).mask x (y - 1 - 1) = unclaimedCell := hm1col _ (by omega)
    have e3 : y - 1 + 1 = y := by omega
    rw [e1, e2, e3, hm1c]
    have hg : y - 1 < h - 1 := by omega
    simp [hK, hg]
  · intro h1
    rw [dilate_tile_one, hm2]
    simp only [hx, h1, and_self, if_true]
    unfold dilateYCell
    have e1 : ((dilateX t).1).mask x (y + 1) = unclaimedCell := hm1col _ (by omega)
    have e2 : y + 1 - 1 = y := by omega
    rw [e1, e2, hm1c]
    simp [hK]

/-- Concrete single-cell tile used by the C9 witness: a 3x3 mask grid whose
centre cell is claimed by island 5. -/
def tileC9 : Tile :=
  { udim_offset := (0, 0)
    tile_resolution := (12, 12)
    mask_resolution := (3, 3)
    mask := fun a b => if a = 1 ∧ b = 1 then 5 else unclaimedCell }

/-- Witness for C9 at the concrete tile `tileC9`. -/
theorem claim_C9_witness :
    (dilate_tile tileC9 1).mask 0 1 = 5 ∧ (dilate_tile tileC9 1).mask 2 1 = 5 ∧
    (dilate_tile tileC9 1).mask 1 0 = 5 ∧ (dilate_tile tileC9 1).mask 1 2 = 5 ∧
    dilate_tile tileC9 0 = tileC9 := by
  have h := claim_C9 3 3 1 1 5 tileC9 (by decide) (by decide) (by decide) rfl rfl
  exact ⟨h.2.2.1 (by decide), h.2.2.2.1 (by decide), h.2.2.2.2.1 (by decide),
    h.2.2.2.2.2 (by decide), h.2.1⟩

/-!  ## Claim C10: tile membership is a strict open interval -/

/-- A rational with denominator 1 (an integer value) never lies strictly
between 0 and 1. -/
theorem den_one_not_open (q : ℚ) (hq : q.den = 1) : ¬(0 < q ∧ q < 1) := by
  rintro ⟨h0, h1⟩
  have hnum : (q.num : ℚ) = q := Rat.coe_int_num_of_den_eq_one hq
  have h0' : (0 : ℚ) < (q.num : ℚ) := by rw [hnum]; exact h0
  have h1' : (q.num : ℚ) < 1 := by rw [hnum]; exact h1
  have h0n : 0 < q.num := by exact_mod_cast h0'
  have h1n : q.num < 1 := by exact_mod_cast h1'
  omega

/-- Differences of denominator-1 rationals have denominator 1. -/
theorem den_one_sub (p q : ℚ) (hp : p.den = 1) (hq : q.den = 1) : (p - q).den = 1 := by
  have hp' : (p.num : ℚ) = p := Rat.coe_int_num_of_den_eq_one hp
  have hq' : (q.num : ℚ) = q := Rat.coe_int_num_of_den_eq_one hq
  have : p - q = ((p.num - q.num : ℤ) : ℚ) := by push_cast [hp', hq']; ring
  rw [this]
  exact Rat.den_intCast _

/-- A tile cannot contain a UV coordinate once one local coordinate has an
integral value (in particular a local coordinate of exactly 0 or 1). -/
theorem contains_false_of_den_one (t : Tile) (uv : Q2)
    (h : (uv.1 - t.udim_offset.1).den = 1 ∨ (uv.2 - t.udim_offset.2).den = 1) :
    t.contains uv = false := by
  unfold Tile.contains
  rcases h with h | h
  · have hno := den_one_not_open _ h
    by_cases h1 : 0 < uv.1 - t.udim_offset.1
    · have h2 : ¬ uv.1 - t.udim_offset.1 < 1 := fun h2 => hno ⟨h1, h2⟩
      simp [h2]
    · simp [h1]
  · have hno := den_one_not_open _ h
    by_cases h1 : 0 < uv.2 - t.udim_offset.2
    · have h2 : ¬ uv.2 - t.udim_offset.2 < 1 := fun h2 => hno ⟨h1, h2⟩
      simp [h2]
    · simp [h1]

/-- C10: tile membership is a strict open interval (a local coordinate of
exactly 0 or 1 is excluded); a UV coordinate with an integral x or y
coordinate lies in no tile of a mask whose tiles sit at integral UDIM
offsets, so `find_tile` yields null for it; and in that situation the
extension loop body only marks the corner's shared vertex `is_extended`,
leaving the island otherwise untouched. -/
theorem claim_C10 :
    (∀ (t : Tile) (uv : Q2),
      (uv.1 - t.udim_offset.1 = 0 ∨ uv.1 - t.udim_offset.1 = 1 ∨
       uv.2 - t.udim_offset.2 = 0 ∨ uv.2 - t.udim_offset.2 = 1) →
      t.contains uv = false) ∧
    (∀ (msk : UVIslandsMask) (uv : Q2),
      (∀ t ∈ msk.tiles, t.udim_offset.1.den = 1 ∧ t.udim_offset.2.den = 1) →
      (uv.1.den = 1 ∨ uv.2.den = 1) →
      msk.find_tile uv = none) ∧
    (∀ (m : MeshData) (cuv : CornerUV) (fanFuel : ℕ) (msk : UVIslandsMask) (ii : ℕ)
      (islS : UVIsland) (c : UVBorderCorner),
      msk.find_tile ((islS.vert (islS.bedgeVertId
        ((islS.borders.getD c.borderPos default).edges.getD c.secondPos default) 0)).uv) = none →
      extendBorderStep m cuv fanFuel msk ii islS c =
        some (markExtended islS (islS.bedgeVertId
          ((islS.borders.getD c.borderPos default).edges.getD c.secondPos default) 0))) := by
  refine ⟨?_, ?_, ?_⟩
  · intro t uv h
    apply contains_false_of_den_one
    rcases h with h | h | h | h
    · exact Or.inl (by rw [h]; rfl)
    · exact Or.inl (by rw [h]; rfl)
    · exact Or.inr (by rw [h]; rfl)
    · exact Or.inr (by rw [h]; rfl)
  · intro msk uv hoffs hden
    unfold UVIslandsMask.find_tile
    rw [List.find?_eq_none]
    intro t ht
    have hd := hoffs t ht
    have : t.contains uv = false := by
      apply contains_false_of_den_one
      rcases hden with h | h
      · exact Or.inl (den_one_sub _ _ h hd.1)
      · exact Or.inr (den_one_sub _ _ h hd.2)
    simp [this]
  · intro m cuv fanFuel msk ii islS c hnone
    unfold extendBorderStep
    simp only []
    rw [hnone]
    rfl

/-- Concrete tile at UDIM offset (0,0) for the C10 witness. -/
def tileC10 : Tile := Tile.make (0, 0) (4, 4)

/-- Concrete one-tile mask for the C10 witness. -/
def mskC10 : UVIslandsMask := ⟨[tileC10]⟩

/-- Concrete island for the C10 witness: its single border corner's shared
vertex sits at UV (1, 7), exactly on a tile boundary. -/
def islC10 : UVIsland :=
  { uv_vertices := [mkUVVertex 3 (1, 7)]
    uv_edges := [⟨0, 0, [0]⟩]
    uv_primitives := [⟨0, [0]⟩]
    borders := [⟨[mkUVBorderEdge 0 0]⟩] }

/-- Witness for C10: at UV (1, 7) the tile test fails, no tile is found, and
the loop body only marks the shared vertex. -/
theorem claim_C10_witness :
    tileC10.contains (1, 7) = false ∧
    mskC10.find_tile (1, 7) = none ∧
    extendBorderStep ⟨[], [], []⟩ (fun _ _ _ _ => (0, 0)) 0 mskC10 0 islC10 ⟨0, 0, 0, 0⟩ =
      some (markExtended islC10 0) := by
  have h := claim_C10
  have hoffs : ∀ t ∈ mskC10.tiles, t.udim_offset.1.den = 1 ∧ t.udim_offset.2.den = 1 := by
    intro t ht
    simp only [mskC10, List.mem_singleton] at ht
    subst ht
    exact ⟨by decide, by decide⟩
  have hnone : mskC10.find_tile (1, 7) = none :=
    h.2.1 mskC10 (1, 7) hoffs (Or.inl (by decide))
  refine ⟨?_, hnone, ?_⟩
  · exact h.1 tileC10 (1, 7) (Or.inr (Or.inl (by simp [tileC10, Tile.make])))
  · exact h.2.2 ⟨[], [], []⟩ (fun _ _ _ _ => (0, 0)) 0 mskC10 0 islC10 ⟨0, 0, 0, 0⟩ hnone

/-!  ## Claims C2 and C8: border extraction -/

/-- Adjacency of the closure invariant: the end UV coordinate of one border
edge equals the start UV coordinate of the next. -/
def bedgeAdj (isl : UVIsland) (a b : UVBorderEdge) : Prop :=
  isl.bedgeUV a 1 = isl.bedgeUV b 0

/-- The cyclic closure invariant of C2 over a border's edge list. -/
def borderClosed (isl : UVIsland) (es : List UVBorderEdge) : Prop :=
  ∀ i, i < es.length →
    isl.bedgeUV (es.getD i default) 1 = isl.bedgeUV (es.getD ((i + 1) % es.length) default) 0

/-- Linear (non-cyclic) chain form of the closure invariant. -/
def chainD (isl : UVIsland) (es : List UVBorderEdge) : Prop :=
  ∀ i, i + 1 < es.length → bedgeAdj isl (es.getD i default) (es.getD (i + 1) default)

/-- Number of untagged candidate edges. -/
def untaggedCount (l : List UVBorderEdge) : ℕ := (l.filter (fun be => !be.tag)).length

/-- Appending one edge to a chain preserves it when the new edge continues
the last one. -/
theorem chainD_append_singleton (isl : UVIsland) (es : List UVBorderEdge) (be : UVBorderEdge)
    (hch : chainD isl es)
    (hlast : es ≠ [] → bedgeAdj isl (es.getD (es.length - 1) default) be) :
    chainD isl (es ++ [be]) := by
  intro i hi
  rw [List.length_append, List.length_singleton] at hi
  by_cases hi2 : i + 1 < es.length
  · rw [List.getD_append _ _ _ _ (by omega), List.getD_append _ _ _ _ (by omega)]
    exact hch i hi2
  · have hlen : i + 1 = es.length := by omega
    have hne : es ≠ [] := by
      intro h
      rw [h] at hlen
      simp at hlen
    rw [List.getD_append _ _ _ _ (by omega), List.getD_append_right _ _ _ _ (by omega)]
    have h1 : i = es.length - 1 := by omega
    have h2 : i + 1 - es.length = 0 := by omega
    rw [h2, h1]
    exact hlast hne

/-- A nonempty chain whose last edge wraps onto its first satisfies the
cyclic closure invariant. -/
theorem borderClosed_of_chainD (isl : UVIsland) (es : List UVBorderEdge)
    (hne : es ≠ [])
    (hch : chainD isl es)
    (hwrap : isl.bedgeUV (es.getD (es.length - 1) default) 1 =
      isl.bedgeUV (es.getD 0 default) 0) :
    borderClosed isl es := by
  intro i hi
  by_cases hl : i + 1 < es.length
  · rw [Nat.mod_eq_of_lt hl]
    exact hch i hl
  · have hlen : i + 1 = es.length := by omega
    have h0 : (i + 1) % es.length = 0 := by rw [hlen]; exact Nat.mod_self _
    have h1 : i = es.length - 1 := by omega
    rw [h0, h1]
    exact hwrap

/-- Specification of one walk step: the chosen edge is oriented to start at
the walk coordinate, ends at the new walk coordinate, and one untagged
candidate has been consumed. -/
theorem findWalkStep_spec (isl : UVIsland) :
    ∀ (cand : List UVBorderEdge) (cur : Q2) (cand' : List UVBorderEdge)
      (be : UVBorderEdge) (cur' : Q2),
    findWalkStep isl cand cur = some (cand', be, cur') →
    isl.bedgeUV be 0 = cur ∧ isl.bedgeUV be 1 = cur' ∧
    untaggedCount cand' + 1 = untaggedCount cand := by
  intro cand
  induction cand with
  | nil => intro cur cand' be cur' h; simp [findWalkStep] at h
  | cons hd rest ih =>
    intro cur cand' be cur' h
    rw [findWalkStep] at h
    by_cases htag : hd.tag
    · rw [if_pos htag, Option.map_eq_some'] at h
      obtain ⟨r, hr, heq⟩ := h
      injection heq with h1 h23
      injection h23 with h2 h3
      subst h1 h2 h3
      obtain ⟨ha, hb, hu⟩ := ih cur r.1 r.2.1 r.2.2 (by rw [hr])
      refine ⟨ha, hb, ?_⟩
      simp only [untaggedCount, List.filter_cons, htag, Bool.not_true] at *
      simpa using hu
    · rw [if_neg htag] at h
      by_cases h0 : (isl.vert (isl.uvedge hd.edge).vertex0).uv = cur
      · rw [if_pos h0] at h
        simp only [] at h
        injection h with h
        injection h with h1 h23
        injection h23 with h2 h3
        subst h1 h2 h3
        refine ⟨?_, ?_, ?_⟩
        · simp [UVIsland.bedgeUV, UVIsland.bedgeVertId, h0]
        · simp [UVIsland.bedgeUV, UVIsland.bedgeVertId]
        · simp [untaggedCount, List.filter_cons, htag]
      · rw [if_neg h0] at h
        by_cases h1 : (isl.vert (isl.uvedge hd.edge).vertex1).uv = cur
        · rw [if_pos h1] at h
          simp only [] at h
          injection h with h
          injection h with ha hb3
          injection hb3 with hb hc
          subst ha hb hc
          refine ⟨?_, ?_, ?_⟩
          · simp [UVIsland.bedgeUV, UVIsland.bedgeVertId, h1]
          · simp [UVIsland.bedgeUV, UVIsland.bedgeVertId]
          · simp [untaggedCount, List.filter_cons, htag]
        · rw [if_neg h1, Option.map_eq_some'] at h
          obtain ⟨r, hr, heq⟩ := h
          injection heq with ha hb3
          injection hb3 with hb hc
          subst ha hb hc
          obtain ⟨hx, hy, hu⟩ := ih cur r.1 r.2.1 r.2.2 (by rw [hr])
          refine ⟨hx, hy, ?_⟩
          simp only [untaggedCount, List.filter_cons, htag, Bool.not_false] at *
          simpa using hu

/-- Invariant of the extraction walk: a successful walk extends the chain of
already-collected edges into a chain ending at the first coordinate, keeps
the first collected edge, and consumes one untagged candidate per collected
edge. -/
theorem borderWalk_spec (isl : UVIsland) :
    ∀ (n : ℕ) (cand acc : List UVBorderEdge) (first cur : Q2) (b cand' : List UVBorderEdge),
    borderWalk isl n cand acc first cur = .extracted b cand' →
    acc ≠ [] →
    chainD isl acc →
    isl.bedgeUV (acc.getD (acc.length - 1) default) 1 = cur →
    (b ≠ [] ∧ chainD isl b ∧ b.getD 0 default = acc.getD 0 default ∧
     isl.bedgeUV (b.getD (b.length - 1) default) 1 = first ∧
     untaggedCount cand' + b.length = untaggedCount cand + acc.length) := by
  intro n
  induction n with
  | zero =>
    intro cand acc first cur b cand' h hne hch hlast
    rw [borderWalk] at h
    by_cases hcf : cur = first
    · rw [if_pos hcf] at h
      injection h with h1 h2
      subst h1 h2
      exact ⟨hne, hch, rfl, by rw [hlast, hcf], by omega⟩
    · rw [if_neg hcf] at h
      exact absurd h (by simp)
  | succ n ih =>
    intro cand acc first cur b cand' h hne hch hlast
    rw [borderWalk] at h
    by_cases hcf : cur = first
    · rw [if_pos hcf] at h
      injection h with h1 h2
      subst h1 h2
      exact ⟨hne, hch, rfl, by rw [hlast, hcf], by omega⟩
    · rw [if_neg hcf] at h
      cases hfs : findWalkStep isl cand cur with
      | none => rw [hfs] at h; exact absurd h (by simp)
      | some r =>
        rw [hfs] at h
        obtain ⟨hs0, hs1, hsu⟩ := findWalkStep_spec isl cand cur r.1 r.2.1 r.2.2 (by
          rw [hfs])
        have hres := ih r.1 (acc ++ [r.2.1]) first r.2.2 b cand' h (by simp)
          (chainD_append_singleton isl acc r.2.1 hch (fun _ => by
            unfold bedgeAdj
            rw [hlast, hs0]))
          (by
            have hlen : (acc ++ [r.2.1]).length - 1 = acc.length := by
              simp
            rw [hlen, List.getD_append_right _ _ _ _ (le_refl _), Nat.sub_self]
            simpa using hs1)
        obtain ⟨hb1, hb2, hb3, hb4, hb5⟩ := hres
        refine ⟨hb1, hb2, ?_, hb4, ?_⟩
        · rw [hb3, List.getD_append _ _ _ _ (by
            cases acc with
            | nil => exact absurd rfl hne
            | cons a l => simp)]
        · rw [List.length_append, List.length_singleton] at hb5
          omega

/-- Characterization of a successful `findIdx?`: the hit is in range,
satisfies the predicate, and everything before it does not. -/
theorem findIdx?_spec {α : Type} [Inhabited α] (p : α → Bool) :
    ∀ (l : List α) (i : ℕ), l.findIdx? p = some i →
      i < l.length ∧ p (l.getD i default) = true ∧
      ∀ j, j < i → p (l.getD j default) = false := by
  intro l
  induction l with
  | nil => intro i h; simp [List.findIdx?] at h
  | cons hd rest ih =>
    intro i h
    rw [List.findIdx?_cons] at h
    by_cases hp : p hd
    · rw [if_pos hp] at h
      injection h with h
      subst h
      exact ⟨by simp, by simpa using hp, fun j hj => absurd hj (Nat.not_lt_zero j)⟩
    · rw [if_neg hp, List.findIdx?_succ] at h
      cases hfi : rest.findIdx? p with
      | none => rw [hfi] at h; simp at h
      | some k =>
        rw [hfi] at h
        simp only [Option.map_some'] at h
        injection h with h
        subst h
        obtain ⟨h1, h2, h3⟩ := ih k hfi
        refine ⟨by simpa using Nat.succ_lt_succ h1, by simpa using h2, ?_⟩
        intro j hj
        cases j with
        | zero => simpa using hp
        | succ j2 => simpa using h3 j2 (by omega)

/-- Tagging the untagged element at position `i` decreases the untagged
count by one. -/
theorem untagged_set (l : List UVBorderEdge) :
    ∀ i, i < l.length → (l.getD i default).tag = false →
      untaggedCount (l.set i { l.getD i default with tag := true }) + 1 = untaggedCount l := by
  induction l with
  | nil => intro i h; simp at h
  | cons hd rest ih =>
    intro i hi htag
    cases i with
    | zero =>
      simp only [List.getD_cons_zero] at htag ⊢
      simp [untaggedCount, List.filter_cons, htag]
    | succ i2 =>
      rw [List.getD_cons_succ] at htag
      have hrec := ih i2 (by simpa using hi) htag
      rw [List.getD_cons_succ, List.set_cons_succ]
      unfold untaggedCount at hrec ⊢
      rw [List.filter_cons, List.filter_cons]
      cases hhd : hd.tag
      · rw [if_pos (show (!false) = true from rfl), if_pos (show (!false) = true from rfl),
          List.length_cons, List.length_cons]
        omega
      · rw [if_neg (show ¬ (!true) = true from by simp),
          if_neg (show ¬ (!true) = true from by simp)]
        omega

/-- The walk loop never produces the `noneLeft` outcome. -/
theorem borderWalk_ne_noneLeft (isl : UVIsland) :
    ∀ (n : ℕ) (cand acc : List UVBorderEdge) (f c : Q2) (c' : List UVBorderEdge),
    borderWalk isl n cand acc f c ≠ .noneLeft c' := by
  intro n
  induction n with
  | zero =>
    intro cand acc f c c'
    rw [borderWalk]
    split <;> simp
  | succ n ih =>
    intro cand acc f c c' h
    rw [borderWalk] at h
    by_cases hcf : c = f
    · rw [if_pos hcf] at h; simp at h
    · rw [if_neg hcf] at h
      cases hfs : findWalkStep isl cand c with
      | none => rw [hfs] at h; simp at h
      | some r => rw [hfs] at h; exact ih _ _ _ _ _ h

/-- Full specification of a successful extraction: the returned border
satisfies the cyclic closure invariant, starts at the first untagged
candidate, and consumes (tags) exactly one untagged candidate per border
edge. -/
theorem extract_from_edges_spec (isl : UVIsland) (cand b cand' : List UVBorderEdge)
    (h : extract_from_edges isl cand = .extracted b cand') :
    borderClosed isl b ∧
    ∃ i, i < cand.length ∧ (∀ j, j < i → (cand.getD j default).tag = true) ∧
      (cand.getD i default).tag = false ∧ b.getD 0 default = cand.getD i default ∧
      1 ≤ b.length ∧ untaggedCount cand' + b.length = untaggedCount cand := by
  unfold extract_from_edges at h
  cases hfi : cand.findIdx? (fun be => !be.tag) with
  | none => rw [hfi] at h; exact absurd h (by simp)
  | some i =>
    rw [hfi] at h
    simp only [] at h
    obtain ⟨hlt, hp, hprev⟩ := findIdx?_spec (fun be => !be.tag) cand i hfi
    have htag : (cand.getD i default).tag = false := by simpa using hp
    have hw := borderWalk_spec isl cand.length
      (cand.set i { cand.getD i default with tag := true })
      [cand.getD i default]
      (isl.bedgeUV (cand.getD i default) 0) (isl.bedgeUV (cand.getD i default) 1)
      b cand' h (by simp)
      (fun j hj => by simp at hj)
      (by simp)
    obtain ⟨hb1, hb2, hb3, hb4, hb5⟩ := hw
    have hhead : b.getD 0 default = cand.getD i default := by simpa using hb3
    refine ⟨?_, i, hlt, ?_, htag, hhead, ?_, ?_⟩
    · refine borderClosed_of_chainD isl b hb1 hb2 ?_
      rw [hb4, hhead]
    · intro j hj
      have := hprev j hj
      simpa using this
    · cases b with
      | nil => exact absurd rfl hb1
      | cons x l => simp
    · rw [List.length_singleton] at hb5
      have hset := untagged_set cand i hlt htag
      omega

/-- The endpoint lookup of a border edge only reads its `edge` and
`reverse_order` fields. -/
theorem bedgeUV_congr (isl : UVIsland) (a b : UVBorderEdge) (he : a.edge = b.edge)
    (hr : a.reverse_order = b.reverse_order) (k : ℕ) :
    isl.bedgeUV a k = isl.bedgeUV b k := by
  unfold UVIsland.bedgeUV UVIsland.bedgeVertId
  rw [he, hr]

/-- Toggling `reverse_order` swaps the two endpoints of a border edge. -/
theorem bedgeUV_rev (isl : UVIsland) (a b : UVBorderEdge) (he : a.edge = b.edge)
    (hr : a.reverse_order = !b.reverse_order) :
    isl.bedgeUV a 0 = isl.bedgeUV b 1 ∧ isl.bedgeUV a 1 = isl.bedgeUV b 0 := by
  unfold UVIsland.bedgeUV UVIsland.bedgeVertId
  rw [he, hr]
  cases b.reverse_order <;> simp

/-- Element lookup through `update_indexes`. -/
theorem update_indexes_getD (bi : ℕ) (l : List UVBorderEdge) (i : ℕ) (h : i < l.length) :
    (update_indexes bi l).getD i default =
      { l.getD i default with
        prev_index := (i + l.length - 1) % l.length
        index := i
        next_index := (i + 1) % l.length
        border_index := bi } := by
  unfold update_indexes
  rw [List.getD_eq_getElem _ _ (by simpa using h)]
  rw [List.getElem_map, List.getElem_range]

/-- Element lookup through the reverse of a mapped list. -/
theorem getD_reverse_map (f : UVBorderEdge → UVBorderEdge) (l : List UVBorderEdge) (j : ℕ)
    (h : j < l.length) :
    ((l.map f).reverse).getD j default = f (l.getD (l.length - 1 - j) default) := by
  rw [List.getD_eq_getElem _ _ (by simpa using h)]
  rw [List.getElem_reverse, List.getElem_map]
  rw [List.getD_eq_getElem _ _ (by omega)]
  congr 2
  simp

/-- Flipping a border preserves the cyclic closure invariant. -/
theorem borderClosed_flip (isl : UVIsland) (es : List UVBorderEdge)
    (h : borderClosed isl es) : borderClosed isl (border_flip es) := by
  intro i hi
  have hlen : (border_flip es).length = es.length := by
    simp [border_flip, update_indexes]
  rw [hlen] at hi ⊢
  have hn : 1 ≤ es.length := by omega
  have hgd : ∀ j, j < es.length → (border_flip es).getD j default =
      { { es.getD (es.length - 1 - j) default with
          reverse_order := !(es.getD (es.length - 1 - j) default).reverse_order } with
        prev_index := (j + ((es.map (fun e =>
          { e with reverse_order := !e.reverse_order })).reverse).length - 1) %
            ((es.map (fun e => { e with reverse_order := !e.reverse_order })).reverse).length
        index := j
        next_index := (j + 1) %
          ((es.map (fun e => { e with reverse_order := !e.reverse_order })).reverse).length
        border_index := (es.getD 0 default).border_index } := by
    intro j hj
    unfold border_flip
    rw [update_indexes_getD _ _ _ (by simpa using hj)]
    rw [getD_reverse_map _ _ _ hj]
  have hfst : ∀ j, j < es.length →
      isl.bedgeUV ((border_flip es).getD j default) 0 =
        isl.bedgeUV (es.getD (es.length - 1 - j) default) 1 ∧
      isl.bedgeUV ((border_flip es).getD j default) 1 =
        isl.bedgeUV (es.getD (es.length - 1 - j) default) 0 := by
    intro j hj
    refine bedgeUV_rev isl _ _ ?_ ?_
    · rw [hgd j hj]
    · rw [hgd j hj]
  rw [(hfst i hi).2, (hfst ((i + 1) % es.length) (Nat.mod_lt _ (by omega))).1]
  by_cases hend : i + 1 < es.length
  · rw [Nat.mod_eq_of_lt hend]
    have hj2 : es.length - 1 - (i + 1) < es.length := by omega
    have happ := h (es.length - 1 - (i + 1)) hj2
    have harith : (es.length - 1 - (i + 1) + 1) % es.length = es.length - 1 - i := by
      rw [Nat.mod_eq_of_lt (by omega)]
      omega
    rw [harith] at happ
    exact happ.symm
  · have hieq : i = es.length - 1 := by omega
    have h0 : (i + 1) % es.length = 0 := by
      have : i + 1 = es.length := by omega
      rw [this, Nat.mod_self]
    rw [h0]
    have happ := h (es.length - 1) (by omega)
    have harith : (es.length - 1 + 1) % es.length = 0 := by
      have : es.length - 1 + 1 = es.length := by omega
      rw [this, Nat.mod_self]
    rw [harith] at happ
    have hz : es.length - 1 - 0 = es.length - 1 := by omega
    have hz2 : es.length - 1 - i = 0 := by omega
    rw [hz, hz2]
    exact happ.symm
  -- indices of the two rewritten positions both lie in range

/-- Every border accumulated by the extraction loop satisfies the closure
invariant. -/
theorem extractBordersLoop_closed (isl : UVIsland) :
    ∀ (fuel : ℕ) (cand : List UVBorderEdge) (acc out : List (List UVBorderEdge)),
    extractBordersLoop isl fuel cand acc = some out →
    (∀ es ∈ acc, borderClosed isl es) →
    ∀ es ∈ out, borderClosed isl es := by
  intro fuel
  induction fuel with
  | zero => intro cand acc out h; simp [extractBordersLoop] at h
  | succ n ih =>
    intro cand acc out h hacc
    rw [extractBordersLoop] at h
    cases hex : extract_from_edges isl cand with
    | noneLeft c =>
      rw [hex] at h
      injection h with h
      subst h
      exact hacc
    | diverged => rw [hex] at h; simp at h
    | extracted b cand' =>
      rw [hex] at h
      simp only [] at h
      have hb := (extract_from_edges_spec isl cand b cand' hex).1
      refine ih cand' _ out h ?_
      intro es hes
      rw [List.mem_append, List.mem_singleton] at hes
      rcases hes with hes | hes
      · exact hacc es hes
      · subst hes
        by_cases hccw : border_is_ccw isl b
        · rw [if_pos hccw]; exact hb
        · rw [if_neg hccw]; exact borderClosed_flip isl b hb

/-- C2: every border successfully extracted by
`UVBorder::extract_from_edges` satisfies the cyclic closure invariant
(`edges[i].get_uv_vertex(1).uv = edges[(i+1) mod n].get_uv_vertex(0).uv`),
and hence every border appended to an island by
`UVIsland::extract_borders` satisfies it as well. -/
theorem claim_C2 :
    (∀ (isl : UVIsland) (cand b cand' : List UVBorderEdge),
      extract_from_edges isl cand = .extracted b cand' → borderClosed isl b) ∧
    (∀ (isl isl' : UVIsland), isl.extract_borders = some isl' →
      ∀ bord ∈ isl'.borders, bord ∈ isl.borders ∨ borderClosed isl' bord.edges) := by
  constructor
  · intro isl cand b cand' h
    exact (extract_from_edges_spec isl cand b cand' h).1
  · intro isl isl' h bord hmem
    unfold UVIsland.extract_borders at h
    rw [Option.map_eq_some'] at h
    obtain ⟨bs, hbs, heq⟩ := h
    subst heq
    simp only [] at hmem
    rw [List.mem_append] at hmem
    rcases hmem with hm | hm
    · exact Or.inl hm
    · right
      rw [List.mem_map] at hm
      obtain ⟨es, hes, hbord⟩ := hm
      subst hbord
      exact extractBordersLoop_closed isl _ _ [] bs hbs (by simp) es hes

/-- Concrete single-triangle island (vertices at (0,0), (1,0), (0,1)); all
three edges are border edges. -/
def triIsland : UVIsland :=
  { uv_vertices := [mkUVVertex 0 (0, 0), mkUVVertex 1 (1, 0), mkUVVertex 2 (0, 1)]
    uv_edges := [⟨0, 1, [0]⟩, ⟨1, 2, [0]⟩, ⟨2, 0, [0]⟩]
    uv_primitives := [⟨0, [0, 1, 2]⟩]
    borders := [] }

/-- Candidate border edges of `triIsland`. -/
def candTri : List UVBorderEdge := collectBorderEdges triIsland

/-- The border extracted from `candTri` (the first copy is appended before
being tagged, so it carries `tag = false`). -/
def bTri : List UVBorderEdge :=
  [mkUVBorderEdge 0 0, { mkUVBorderEdge 1 0 with tag := true },
   { mkUVBorderEdge 2 0 with tag := true }]

/-- The candidate list after extraction: everything tagged. -/
def candTri' : List UVBorderEdge :=
  [{ mkUVBorderEdge 0 0 with tag := true }, { mkUVBorderEdge 1 0 with tag := true },
   { mkUVBorderEdge 2 0 with tag := true }]

/-- One unroll of the extraction loop in the CCW case. -/
theorem extractBordersLoop_extracted (isl : UVIsland) (n : ℕ)
    (cand b cand' : List UVBorderEdge)
    (acc : List (List UVBorderEdge))
    (hex : extract_from_edges isl cand = .extracted b cand')
    (hccw : border_is_ccw isl b = true) :
    extractBordersLoop isl (n + 1) cand acc = extractBordersLoop isl n cand' (acc ++ [b]) := by
  rw [extractBordersLoop, hex]
  simp only []
  rw [hccw]
  simp

/-- One unroll of the extraction loop in the terminal case. -/
theorem extractBordersLoop_noneLeft (isl : UVIsland) (n : ℕ) (cand : List UVBorderEdge)
    (acc : List (List UVBorderEdge)) (c' : List UVBorderEdge)
    (hex : extract_from_edges isl cand = .noneLeft c') :
    extractBordersLoop isl (n + 1) cand acc = some acc := by
  rw [extractBordersLoop, hex]

/-- The first triangle corner of the extracted triangle border is CCW. -/
theorem tri_border_ccw : border_is_ccw triIsland bTri = true := by
  show decide (cross3 (0, 0) (1, 0) (0, 1) < 0) = true
  norm_num [cross3]

/-- The island produced by `extract_borders` on the triangle island. -/
def islTri : UVIsland := { triIsland with borders := [UVBorder.mk bTri] }

/-- Concrete run of `extract_borders` on the triangle island. -/
theorem tri_extract_borders : triIsland.extract_borders = some islTri := by
  unfold UVIsland.extract_borders
  simp only []
  have h4 : (collectBorderEdges triIsland).length = 3 := by decide
  rw [h4]
  rw [extractBordersLoop_extracted triIsland 3 (collectBorderEdges triIsland)
    bTri candTri' [] (by decide) tri_border_ccw]
  rw [extractBordersLoop_noneLeft triIsland 2 candTri' ([] ++ [bTri]) candTri' (by decide)]
  decide

/-- Witness for C2 on the concrete triangle island. -/
theorem claim_C2_witness :
    borderClosed triIsland bTri ∧
    (UVBorder.mk bTri ∈ triIsland.borders ∨ borderClosed islTri (UVBorder.mk bTri).edges) := by
  constructor
  · exact claim_C2.1 triIsland candTri bTri candTri' (by decide)
  · exact claim_C2.2 triIsland islTri tri_extract_borders (UVBorder.mk bTri) (by decide)

/-- C8 (amended): `extract_from_edges` returns `nullopt` exactly when every
candidate edge is already tagged; otherwise it never returns `nullopt`, and
whenever the walk terminates the returned border starts at the first
untagged candidate and tags one previously-untagged candidate per border
edge.  (As stated, the claim also asserted a border is always returned in
the untagged case; the walk can fail to terminate, see the
counterexample.) -/
theorem claim_C8 :
    (∀ (isl : UVIsland) (cand : List UVBorderEdge),
      (∃ c', extract_from_edges isl cand = .noneLeft c') ↔ ∀ be ∈ cand, be.tag = true) ∧
    (∀ (isl : UVIsland) (cand b cand' : List UVBorderEdge),
      extract_from_edges isl cand = .extracted b cand' →
      ∃ i, i < cand.length ∧ (∀ j, j < i → (cand.getD j default).tag = true) ∧
        (cand.getD i default).tag = false ∧ b.getD 0 default = cand.getD i default ∧
        1 ≤ b.length ∧ untaggedCount cand' + b.length = untaggedCount cand) := by
  constructor
  · intro isl cand
    constructor
    · rintro ⟨c', hc⟩
      unfold extract_from_edges at hc
      cases hfi : cand.findIdx? (fun be => !be.tag) with
      | none =>
        rw [List.findIdx?_eq_none_iff] at hfi
        intro be hbe
        simpa using hfi be hbe
      | some i =>
        rw [hfi] at hc
        simp only [] at hc
        exact absurd hc (borderWalk_ne_noneLeft isl _ _ _ _ _ _)
    · intro h
      refine ⟨cand, ?_⟩
      unfold extract_from_edges
      have hfi : cand.findIdx? (fun be => !be.tag) = none := by
        rw [List.findIdx?_eq_none_iff]
        intro x hx
        simpa using h x hx
      rw [hfi]
  · intro isl cand b cand' h
    exact (extract_from_edges_spec isl cand b cand' h).2

/-- Concrete island with a single border edge from (0,0) to (1,0): the walk
cannot close, so the source loops forever. -/
def islC8 : UVIsland :=
  { uv_vertices := [mkUVVertex 0 (0, 0), mkUVVertex 1 (1, 0)]
    uv_edges := [⟨0, 1, [0]⟩]
    uv_primitives := [⟨0, [0]⟩]
    borders := [] }

/-- Candidate list with the single untagged edge of `islC8`. -/
def candC8 : List UVBorderEdge := [mkUVBorderEdge 0 0]

/-- Counterexample for C8 as stated: not every candidate is tagged, yet
`extract_from_edges` does not return a border -- the walk diverges (the
`while (current_uv != first_uv)` loop of the source makes no progress once
no untagged edge touches the walk coordinate). -/
theorem claim_C8_counterexample :
    (¬ ∀ be ∈ candC8, be.tag = true) ∧ extract_from_edges islC8 candC8 = .diverged := by
  exact ⟨by decide, by decide⟩

/-- The divergence of the C8 counterexample is fuel-independent: the walk is
stuck in the same state for every fuel value. -/
theorem borderWalk_stuck_all_fuel :
    ∀ n, borderWalk islC8 n (candC8.set 0 { candC8.getD 0 default with tag := true })
      [candC8.getD 0 default] (islC8.bedgeUV (candC8.getD 0 default) 0)
      (islC8.bedgeUV (candC8.getD 0 default) 1) = .diverged := by
  intro n
  cases n with
  | zero => decide
  | succ m =>
    rw [borderWalk]
    rw [if_neg (by decide)]
    have hfs : findWalkStep islC8 (candC8.set 0 { candC8.getD 0 default with tag := true })
        (islC8.bedgeUV (candC8.getD 0 default) 1) = none := by decide
    rw [hfs]

/-- Candidate list whose single edge is already tagged. -/
def candC8tag : List UVBorderEdge := [{ mkUVBorderEdge 0 0 with tag := true }]

/-- Witness for C8 on concrete inputs: the all-tagged list yields `nullopt`,
and the triangle extraction starts at the first untagged candidate and
consumes one untagged candidate per border edge. -/
theorem claim_C8_witness :
    (∃ c', extract_from_edges islC8 candC8tag = .noneLeft c') ∧
    (∃ i, i < candTri.length ∧ (∀ j, j < i → (candTri.getD j default).tag = true) ∧
      (candTri.getD i default).tag = false ∧ bTri.getD 0 default = candTri.getD i default ∧
      1 ≤ bTri.length ∧ untaggedCount candTri' + bTri.length = untaggedCount candTri) := by
  constructor
  · exact (claim_C8.1 islC8 candC8tag).mpr (by decide)
  · exact claim_C8.2 triIsland candTri bTri candTri' (by decide)

/-!  ## Claim C3: orientation normalization -/

/-- Shoelace signed area of a cyclic UV coordinate sequence. -/
def shoelace (ps : List Q2) : ℚ :=
  (((List.range ps.length).map (fun i =>
    let p := ps.getD i default
    let q := ps.getD ((i + 1) % ps.length) default
    p.1 * q.2 - q.1 * p.2)).sum) / 2

/-- The cyclic vertex-UV sequence of a border (each edge's start vertex). -/
def borderUVs (isl : UVIsland) (es : List UVBorderEdge) : List Q2 :=
  es.map (fun e => isl.bedgeUV e 0)

/-- Flip reverses the edge order. -/
theorem border_flip_length (es : List UVBorderEdge) :
    (border_flip es).length = es.length := by
  simp [border_flip, update_indexes]

/-- Pointwise description of a flipped border: position `j` holds the edge
from position `n-1-j` with its orientation flag toggled. -/
theorem border_flip_getD (es : List UVBorderEdge) (j : ℕ) (h : j < es.length) :
    ((border_flip es).getD j default).edge = (es.getD (es.length - 1 - j) default).edge ∧
    ((border_flip es).getD j default).reverse_order =
      !(es.getD (es.length - 1 - j) default).reverse_order := by
  unfold border_flip
  rw [update_indexes_getD _ _ _ (by simpa using h), getD_reverse_map _ _ _ h]
  exact ⟨rfl, rfl⟩

/-- Shape of every border accumulated by the extraction loop: an extracted
cycle kept as is when its first triangle corner tested CCW, else its flipped
version. -/
theorem extractBordersLoop_shape (isl : UVIsland) :
    ∀ (fuel : ℕ) (cand : List UVBorderEdge) (acc out : List (List UVBorderEdge)),
    extractBordersLoop isl fuel cand acc = some out →
    ∀ es ∈ out, es ∈ acc ∨
      ∃ b c0 c1, extract_from_edges isl c0 = .extracted b c1 ∧
        ((border_is_ccw isl b = true ∧ es = b) ∨
         (border_is_ccw isl b = false ∧ es = border_flip b)) := by
  intro fuel
  induction fuel with
  | zero => intro cand acc out h; simp [extractBordersLoop] at h
  | succ n ih =>
    intro cand acc out h es hes
    rw [extractBordersLoop] at h
    cases hex : extract_from_edges isl cand with
    | noneLeft c =>
      rw [hex] at h
      injection h with h
      subst h
      exact Or.inl hes
    | diverged => rw [hex] at h; simp at h
    | extracted b cand' =>
      rw [hex] at h
      simp only [] at h
      rcases ih cand' _ out h es hes with hmem | hshape
      · rw [List.mem_append, List.mem_singleton] at hmem
        rcases hmem with hm | hm
        · exact Or.inl hm
        · right
          refine ⟨b, cand, cand', hex, ?_⟩
          by_cases hccw : border_is_ccw isl b
          · rw [if_pos hccw] at hm; exact Or.inl ⟨hccw, hm⟩
          · rw [if_neg hccw] at hm
            exact Or.inr ⟨Bool.not_eq_true _ ▸ (by simpa using hccw), hm⟩
      · exact Or.inr hshape

/-- C3 (amended): `UVBorder::flip` reverses the edge order and toggles every
edge's `reverse_order` flag; after `extract_borders`, every appended border
is an extracted cycle kept unchanged when `is_ccw()` (the sign of the first
triangle corner: first edge's endpoints plus the owning primitive's third
vertex) reported counter-clockwise, and the flipped cycle when it reported
clockwise.  (As stated, the claim asserted positive shoelace area of the
whole cyclic vertex sequence; the first-corner test does not ensure that --
see the counterexample.) -/
theorem claim_C3 :
    (∀ (es : List UVBorderEdge), (border_flip es).length = es.length ∧
      ∀ j, j < es.length →
        ((border_flip es).getD j default).edge = (es.getD (es.length - 1 - j) default).edge ∧
        ((border_flip es).getD j default).reverse_order =
          !(es.getD (es.length - 1 - j) default).reverse_order) ∧
    (∀ (isl isl' : UVIsland), isl.extract_borders = some isl' →
      ∀ bord ∈ isl'.borders, bord ∈ isl.borders ∨
        ∃ b c0 c1, extract_from_edges isl c0 = .extracted b c1 ∧
          ((border_is_ccw isl b = true ∧ bord.edges = b) ∨
           (border_is_ccw isl b = false ∧ bord.edges = border_flip b))) := by
  constructor
  · intro es
    exact ⟨border_flip_length es, fun j hj => border_flip_getD es j hj⟩
  · intro isl isl' h bord hmem
    unfold UVIsland.extract_borders at h
    rw [Option.map_eq_some'] at h
    obtain ⟨bs, hbs, heq⟩ := h
    subst heq
    simp only [] at hmem
    rw [List.mem_append] at hmem
    rcases hmem with hm | hm
    · exact Or.inl hm
    · rw [List.mem_map] at hm
      obtain ⟨es, hes, hbord⟩ := hm
      subst hbord
      rcases extractBordersLoop_shape isl _ _ [] bs hbs es hes with hacc | hshape
      · simp at hacc
      · exact Or.inr hshape

/-- Concrete island whose single border is the clockwise quad
(2,0) -> (2,1) -> (3,1) -> (3,0); the first border edge's owning primitive
has its third corner at (1,0), to the left of that edge, so the first-corner
test reports counter-clockwise. -/
def quadIsland : UVIsland :=
  { uv_vertices := [mkUVVertex 0 (2, 0), mkUVVertex 1 (2, 1), mkUVVertex 2 (3, 1),
                    mkUVVertex 3 (3, 0), mkUVVertex 4 (1, 0)]
    uv_edges := [⟨0, 1, [0]⟩, ⟨1, 2, [1]⟩, ⟨2, 3, [2]⟩, ⟨3, 0, [3]⟩,
                 ⟨1, 4, [0, 1]⟩, ⟨4, 0, [0, 1]⟩]
    uv_primitives := [⟨0, [0, 4, 5]⟩, ⟨1, [1, 4, 5]⟩, ⟨2, [2, 4, 5]⟩, ⟨3, [3, 4, 5]⟩]
    borders := [] }

/-- The border extracted from `quadIsland`. -/
def bQuad : List UVBorderEdge :=
  [mkUVBorderEdge 0 0, { mkUVBorderEdge 1 1 with tag := true },
   { mkUVBorderEdge 2 2 with tag := true }, { mkUVBorderEdge 3 3 with tag := true }]

/-- The fully tagged candidate list after extracting `bQuad`. -/
def candQuad' : List UVBorderEdge :=
  [{ mkUVBorderEdge 0 0 with tag := true }, { mkUVBorderEdge 1 1 with tag := true },
   { mkUVBorderEdge 2 2 with tag := true }, { mkUVBorderEdge 3 3 with tag := true }]

/-- The first-corner test of the extracted quad border reports CCW. -/
theorem quad_border_ccw : border_is_ccw quadIsland bQuad = true := by
  show decide (cross3 (2, 0) (2, 1) (1, 0) < 0) = true
  norm_num [cross3]

/-- Result of `extract_borders` on the quad island. -/
def islQuad : UVIsland := { quadIsland with borders := [UVBorder.mk bQuad] }

/-- Concrete run of `extract_borders` on the quad island: the clockwise quad
passes the first-corner CCW test and is appended unflipped. -/
theorem quad_extract_borders : quadIsland.extract_borders = some islQuad := by
  unfold UVIsland.extract_borders
  simp only []
  have h4 : (collectBorderEdges quadIsland).length = 4 := by decide
  rw [h4]
  rw [extractBordersLoop_extracted quadIsland 4 (collectBorderEdges quadIsland)
    bQuad candQuad' [] (by decide) quad_border_ccw]
  rw [extractBordersLoop_noneLeft quadIsland 3 candQuad' ([] ++ [bQuad]) candQuad' (by decide)]
  decide

/-- Counterexample for C3 as stated: `extract_borders` appends the clockwise
quad border unflipped (its first-corner test said CCW), and the appended
border's full cyclic vertex sequence has negative shoelace signed area. -/
theorem claim_C3_counterexample :
    quadIsland.extract_borders = some islQuad ∧
    shoelace (borderUVs islQuad (islQuad.borders.getD 0 default).edges) < 0 := by
  refine ⟨quad_extract_borders, ?_⟩
  show shoelace [(2, 0), (2, 1), (3, 1), (3, 0)] < 0
  unfold shoelace
  norm_num [List.range_succ]

/-- Witness for C3 on the concrete triangle island: flip structure at
position 0, and the shape of the appended triangle border. -/
theorem claim_C3_witness :
    ((border_flip bTri).getD 0 default).edge = (bTri.getD (bTri.length - 1 - 0) default).edge ∧
    ((border_flip bTri).getD 0 default).reverse_order =
      !(bTri.getD (bTri.length - 1 - 0) default).reverse_order ∧
    (UVBorder.mk bTri ∈ triIsland.borders ∨
      ∃ b c0 c1, extract_from_edges triIsland c0 = .extracted b c1 ∧
        ((border_is_ccw triIsland b = true ∧ (UVBorder.mk bTri).edges = b) ∨
         (border_is_ccw triIsland b = false ∧ (UVBorder.mk bTri).edges = border_flip b))) := by
  obtain ⟨h1, h2⟩ := claim_C3
  exact ⟨((h1 bTri).2 0 (by decide)).1, ((h1 bTri).2 0 (by decide)).2,
    h2 triIsland islTri tri_extract_borders (UVBorder.mk bTri) (by decide)⟩

/-!  ## Claim C4: sharpest-corner selection -/

/-- The scan does not move when no remaining item strictly improves the
running best. -/
theorem selectScan_stay {α β : Type} (key : α → ℚ) (val : α → Option β) (elig : α → Bool) :
    ∀ (l : List α) (res0 : Option β) (best0 : ℚ),
    (∀ x ∈ l, elig x = true → best0 ≤ key x) →
    selectScan key val elig l (res0, best0) = (res0, best0) := by
  intro l
  induction l with
  | nil => intro res0 best0 _; rfl
  | cons hd rest ih =>
    intro res0 best0 h
    rw [selectScan]
    rw [if_neg (fun hc => absurd hc.2 (not_lt.mpr (h hd (List.mem_cons_self hd rest) hc.1)))]
    exact ih res0 best0 (fun x hx he => h x (List.mem_cons_of_mem _ hx) he)

/-- When some item strictly improves the running best, the scan ends at the
first item attaining the minimum improving key: everything eligible before
it is strictly larger, everything eligible after it at least as large. -/
theorem selectScan_found {α β : Type} (key : α → ℚ) (val : α → Option β) (elig : α → Bool) :
    ∀ (l : List α) (res0 : Option β) (best0 : ℚ),
    (∃ x ∈ l, elig x = true ∧ key x < best0) →
    ∃ l1 x l2, l = l1 ++ x :: l2 ∧ elig x = true ∧ key x < best0 ∧
      selectScan key val elig l (res0, best0) = (val x, key x) ∧
      (∀ y ∈ l1, elig y = true → key x < key y) ∧
      (∀ y ∈ l2, elig y = true → key x ≤ key y) := by
  intro l
  induction l with
  | nil => rintro res0 best0 ⟨x, hx, _⟩; simp at hx
  | cons hd rest ih =>
    rintro res0 best0 hex
    by_cases hhd : elig hd = true ∧ key hd < best0
    · by_cases hrest : ∃ y ∈ rest, elig y = true ∧ key y < key hd
      · obtain ⟨l1, x, l2, hsplit, hx1, hx2, hres, hl1, hl2⟩ := ih (val hd) (key hd) hrest
        refine ⟨hd :: l1, x, l2, by rw [hsplit]; rfl, hx1, lt_trans hx2 hhd.2, ?_, ?_, hl2⟩
        · rw [selectScan, if_pos hhd]
          exact hres
        · intro y hy he
          rcases List.mem_cons.mp hy with hyh | hy2
          · rw [hyh]; exact hx2
          · exact hl1 y hy2 he
      · refine ⟨[], hd, rest, rfl, hhd.1, hhd.2, ?_, by simp, ?_⟩
        · rw [selectScan, if_pos hhd]
          refine selectScan_stay key val elig rest (val hd) (key hd) ?_
          intro y hy he
          by_contra hlt
          exact hrest ⟨y, hy, he, not_le.mp hlt⟩
        · intro y hy he
          by_contra hlt
          exact hrest ⟨y, hy, he, not_le.mp hlt⟩
    · obtain ⟨x, hx, hxe, hxk⟩ := hex
      have hx2 : x ∈ rest := by
        rcases List.mem_cons.mp hx with hxh | h2
        · exact absurd ⟨hxh ▸ hxe, hxh ▸ hxk⟩ hhd
        · exact h2
      obtain ⟨l1, z, l2, hsplit, hz1, hz2, hres, hl1, hl2⟩ :=
        ih res0 best0 ⟨x, hx2, hxe, hxk⟩
      refine ⟨hd :: l1, z, l2, by rw [hsplit]; rfl, hz1, hz2, ?_, ?_, hl2⟩
      · rw [selectScan, if_neg hhd]
        exact hres
      · intro y hy he
        rcases List.mem_cons.mp hy with hyh | hy2
        · subst hyh
          have hge : best0 ≤ key y := by
            by_contra hlt
            exact hhd ⟨he, not_le.mp hlt⟩
          exact lt_of_lt_of_le hz2 hge
        · exact hl1 y hy2 he

/-- A decomposition of `List.range n` locates its middle element: it is the
count of elements before it, everything before is smaller, everything after
larger. -/
theorem range_split (n : ℕ) (l1 l2 : List ℕ) (x : ℕ)
    (h : List.range n = l1 ++ x :: l2) :
    x < n ∧ (∀ y ∈ l1, y < x) ∧ (∀ y ∈ l2, x < y) := by
  have hpw : List.Pairwise (· < ·) (l1 ++ x :: l2) := by
    rw [← h]
    exact List.pairwise_lt_range n
  rw [List.pairwise_append] at hpw
  obtain ⟨_, hpw2, hcross⟩ := hpw
  rw [List.pairwise_cons] at hpw2
  refine ⟨?_, ?_, hpw2.1⟩
  · have : x ∈ List.range n := by rw [h]; simp
    simpa using this
  · intro y hy
    exact hcross y hy x (List.mem_cons_self x l2)

/-- A border without eligible edges reports no corner and angle `FLT_MAX`. -/
theorem border_scan_none (sa : Q2 → Q2 → ℚ) (piQ : ℚ) (isl : UVIsland) (bp : ℕ)
    (h : ∀ i, i < (isl.borders.getD bp default).edges.length →
      edgeEligible isl (isl.borders.getD bp default) i = false) :
    sharpest_border_corner_in sa piQ isl bp = (none, floatMax) := by
  unfold sharpest_border_corner_in
  apply selectScan_stay
  intro x hx he
  rw [List.mem_range] at hx
  rw [h x hx] at he
  exact absurd he (by simp)

/-- A border with an eligible edge (and all eligible angles below `FLT_MAX`)
reports the first eligible edge attaining the minimal angle. -/
theorem border_scan_some (sa : Q2 → Q2 → ℚ) (piQ : ℚ) (isl : UVIsland) (bp : ℕ)
    (hbound : ∀ i, i < (isl.borders.getD bp default).edges.length →
      edgeEligible isl (isl.borders.getD bp default) i = true →
      edgeAngle sa piQ isl (isl.borders.getD bp default) i < floatMax)
    (hex : ∃ i, i < (isl.borders.getD bp default).edges.length ∧
      edgeEligible isl (isl.borders.getD bp default) i = true) :
    ∃ i, i < (isl.borders.getD bp default).edges.length ∧
      edgeEligible isl (isl.borders.getD bp default) i = true ∧
      sharpest_border_corner_in sa piQ isl bp =
        (some (cornerAt sa piQ isl bp (isl.borders.getD bp default) i),
         edgeAngle sa piQ isl (isl.borders.getD bp default) i) ∧
      (∀ j, j < (isl.borders.getD bp default).edges.length →
        edgeEligible isl (isl.borders.getD bp default) j = true →
        edgeAngle sa piQ isl (isl.borders.getD bp default) i ≤
          edgeAngle sa piQ isl (isl.borders.getD bp default) j) ∧
      (∀ j, j < i → edgeEligible isl (isl.borders.getD bp default) j = true →
        edgeAngle sa piQ isl (isl.borders.getD bp default) i <
          edgeAngle sa piQ isl (isl.borders.getD bp default) j) := by
  obtain ⟨i0, hi0, he0⟩ := hex
  obtain ⟨l1, x, l2, hsplit, hx1, hx2, hres, hl1, hl2⟩ :=
    selectScan_found (edgeAngle sa piQ isl (isl.borders.getD bp default))
      (fun i => some (cornerAt sa piQ isl bp (isl.borders.getD bp default) i))
      (edgeEligible isl (isl.borders.getD bp default))
      (List.range (isl.borders.getD bp default).edges.length) none floatMax
      ⟨i0, by simpa using hi0, he0, hbound i0 hi0 he0⟩
  obtain ⟨hxlt, hbefore, hafter⟩ := range_split _ l1 l2 x hsplit
  have hmemcase : ∀ j, j < (isl.borders.getD bp default).edges.length →
      j ∈ l1 ∨ j = x ∨ j ∈ l2 := by
    intro j hj
    have : j ∈ List.range (isl.borders.getD bp default).edges.length := by simpa using hj
    rw [hsplit, List.mem_append, List.mem_cons] at this
    tauto
  refine ⟨x, hxlt, hx1, ?_, ?_, ?_⟩
  · unfold sharpest_border_corner_in
    exact hres
  · intro j hj hje
    rcases hmemcase j hj with hm | hm | hm
    · exact le_of_lt (hl1 j hm hje)
    · rw [hm]
    · exact hl2 j hm hje
  · intro j hj hje
    have hjlt : j < (isl.borders.getD bp default).edges.length := lt_trans hj hxlt
    rcases hmemcase j hjlt with hm | hm | hm
    · exact hl1 j hm hje
    · omega
    · exact absurd (hafter j hm) (by omega)

/-- C4: with every eligible angle below `FLT_MAX`, `sharpest_border_corner`
returns no corner exactly when no border edge starts at an
`is_border && !is_extended` vertex; otherwise it returns the corner
`(edges[prev_index of e], e)` of the first eligible edge `e` (borders in
order, edges within a border in order) attaining the strictly smallest
outside angle `pi - signed_angle(prev direction, this direction)`: every
eligible edge has an angle at least as large, and every eligible edge
strictly earlier in iteration order has a strictly larger angle. -/
theorem claim_C4 (sa : Q2 → Q2 → ℚ) (piQ : ℚ) (isl : UVIsland)
    (hbound : ∀ bp, bp < isl.borders.length →
      ∀ i, i < (isl.borders.getD bp default).edges.length →
      edgeEligible isl (isl.borders.getD bp default) i = true →
      edgeAngle sa piQ isl (isl.borders.getD bp default) i < floatMax) :
    (sharpest_border_corner sa piQ isl = none ↔
      ∀ bp, bp < isl.borders.length →
        ∀ i, i < (isl.borders.getD bp default).edges.length →
          edgeEligible isl (isl.borders.getD bp default) i = false) ∧
    (∀ c, sharpest_border_corner sa piQ isl = some c →
      ∃ bp i, bp < isl.borders.length ∧
        i < (isl.borders.getD bp default).edges.length ∧
        edgeEligible isl (isl.borders.getD bp default) i = true ∧
        c = cornerAt sa piQ isl bp (isl.borders.getD bp default) i ∧
        (∀ bp' i', bp' < isl.borders.length →
          i' < (isl.borders.getD bp' default).edges.length →
          edgeEligible isl (isl.borders.getD bp' default) i' = true →
          edgeAngle sa piQ isl (isl.borders.getD bp default) i ≤
            edgeAngle sa piQ isl (isl.borders.getD bp' default) i') ∧
        (∀ bp' i', bp' < isl.borders.length →
          i' < (isl.borders.getD bp' default).edges.length →
          edgeEligible isl (isl.borders.getD bp' default) i' = true →
          (bp' < bp ∨ (bp' = bp ∧ i' < i)) →
          edgeAngle sa piQ isl (isl.borders.getD bp default) i <
            edgeAngle sa piQ isl (isl.borders.getD bp' default) i')) := by
  by_cases hany : ∃ bp, bp < isl.borders.length ∧
      ∃ i, i < (isl.borders.getD bp default).edges.length ∧
        edgeEligible isl (isl.borders.getD bp default) i = true
  · obtain ⟨bp0, hbp0, i0, hi0, he0⟩ := hany
    have hbp0scan := border_scan_some sa piQ isl bp0 (hbound bp0 hbp0) ⟨i0, hi0, he0⟩
    obtain ⟨j0, hj0, hj0e, hj0res, _, _⟩ := hbp0scan
    obtain ⟨L1, bs, L2, hsplit, _, hbslt, hres, hL1, hL2⟩ :=
      selectScan_found (fun bp => (sharpest_border_corner_in sa piQ isl bp).2)
        (fun bp => (sharpest_border_corner_in sa piQ isl bp).1)
        (fun _ => true) (List.range isl.borders.length) none floatMax
        ⟨bp0, by simpa using hbp0, rfl, by
          show (sharpest_border_corner_in sa piQ isl bp0).2 < floatMax
          rw [hj0res]
          exact hbound bp0 hbp0 j0 hj0 hj0e⟩
    obtain ⟨hbslen, hLbefore, hLafter⟩ := range_split _ L1 L2 bs hsplit
    have hmemcase : ∀ bp, bp < isl.borders.length → bp ∈ L1 ∨ bp = bs ∨ bp ∈ L2 := by
      intro bp hbp
      have : bp ∈ List.range isl.borders.length := by simpa using hbp
      rw [hsplit, List.mem_append, List.mem_cons] at this
      tauto
    have hbs_has : ∃ i, i < (isl.borders.getD bs default).edges.length ∧
        edgeEligible isl (isl.borders.getD bs default) i = true := by
      by_contra hno
      push_neg at hno
      have : sharpest_border_corner_in sa piQ isl bs = (none, floatMax) :=
        border_scan_none sa piQ isl bs (fun i hi => by
          have := hno i hi
          simpa using this)
      rw [this] at hbslt
      exact absurd hbslt (lt_irrefl _)
    obtain ⟨istar, histar, histare, hbsres, hbsmin, hbsfirst⟩ :=
      border_scan_some sa piQ isl bs (hbound bs hbslen) hbs_has
    have hsome : sharpest_border_corner sa piQ isl =
        some (cornerAt sa piQ isl bs (isl.borders.getD bs default) istar) := by
      unfold sharpest_border_corner
      rw [hres, hbsres]
    have hAle : ∀ bp', bp' < isl.borders.length →
        ∀ i', i' < (isl.borders.getD bp' default).edges.length →
        edgeEligible isl (isl.borders.getD bp' default) i' = true →
        edgeAngle sa piQ isl (isl.borders.getD bs default) istar ≤
          edgeAngle sa piQ isl (isl.borders.getD bp' default) i' := by
      intro bp' hbp' i' hi' he'
      obtain ⟨k, hk, hke, hkres, hkmin, _⟩ :=
        border_scan_some sa piQ isl bp' (hbound bp' hbp') ⟨i', hi', he'⟩
      have hkey : (sharpest_border_corner_in sa piQ isl bp').2 =
          edgeAngle sa piQ isl (isl.borders.getD bp' default) k := by rw [hkres]
      have hAbs : edgeAngle sa piQ isl (isl.borders.getD bs default) istar ≤
          edgeAngle sa piQ isl (isl.borders.getD bp' default) k := by
        rcases hmemcase bp' hbp' with hm | hm | hm
        · have := hL1 bp' hm rfl
          rw [hbsres, hkey] at this
          exact le_of_lt this
        · subst hm
          have : k = istar ∨ k ≠ istar := em _
          rcases this with hk2 | hk2
          · rw [hk2]
          · have h1 := hbsmin k hk hke
            exact h1
        · have := hL2 bp' hm rfl
          rw [hbsres, hkey] at this
          exact this
      exact le_trans hAbs (hkmin i' hi' he')
    refine ⟨?_, ?_⟩
    · constructor
      · intro hnone
        rw [hsome] at hnone
        exact absurd hnone (by simp)
      · intro hall
        have := hall bs hbslen istar histar
        rw [histare] at this
        exact absurd this (by simp)
    · intro c hc
      rw [hsome] at hc
      injection hc with hc
      refine ⟨bs, istar, hbslen, histar, histare, hc.symm,
        fun bp2 i2 hb2 hi2 he2 => hAle bp2 hb2 i2 hi2 he2, ?_⟩
      intro bp' i' hbp' hi' he' hlex
      rcases hlex with hlt | ⟨heq, hilt⟩
      · have hm : bp' ∈ L1 := by
          rcases hmemcase bp' hbp' with hm | hm | hm
          · exact hm
          · omega
          · exact absurd (hLafter bp' hm) (by omega)
        obtain ⟨k, hk, hke, hkres, hkmin, _⟩ :=
          border_scan_some sa piQ isl bp' (hbound bp' hbp') ⟨i', hi', he'⟩
        have := hL1 bp' hm rfl
        rw [hbsres, hkres] at this
        exact lt_of_lt_of_le this (hkmin i' hi' he')
      · subst heq
        exact hbsfirst i' hilt he'
  · push_neg at hany
    have hallfalse : ∀ bp, bp < isl.borders.length →
        ∀ i, i < (isl.borders.getD bp default).edges.length →
          edgeEligible isl (isl.borders.getD bp default) i = false := by
      intro bp hbp i hi
      have := hany bp hbp i hi
      simpa using this
    have hstay : sharpest_border_corner sa piQ isl = none := by
      unfold sharpest_border_corner
      rw [selectScan_stay _ _ _ _ _ _ ?_]
      · intro bp hbp _
        rw [List.mem_range] at hbp
        rw [border_scan_none sa piQ isl bp (fun i hi => hallfalse bp hbp i hi)]
    refine ⟨⟨fun _ => hallfalse, fun _ => hstay⟩, ?_⟩
    intro c hc
    rw [hstay] at hc
    exact absurd hc (by simp)

/-- Constant stand-in for `angle_signed_v2v2` used by the C4 witness. -/
def saZero : Q2 → Q2 → ℚ := fun _ _ => 0

/-- Concrete island for the C4 witness: border 0 starts at an ineligible
vertex, border 1 has two eligible start vertices. -/
def islC4 : UVIsland :=
  { uv_vertices := [
      { vertex := 0, uv := (0, 0), uv_edges := [], flags := ⟨false, false⟩ },
      { vertex := 1, uv := (1, 0), uv_edges := [], flags := ⟨true, false⟩ },
      { vertex := 2, uv := (0, 1), uv_edges := [], flags := ⟨true, false⟩ }]
    uv_edges := [⟨0, 1, [0]⟩, ⟨1, 2, [0]⟩, ⟨2, 0, [0]⟩]
    uv_primitives := [⟨0, [0, 1, 2]⟩]
    borders := [⟨[mkUVBorderEdge 0 0]⟩,
                ⟨[mkUVBorderEdge 1 0, mkUVBorderEdge 2 0]⟩] }

/-- All eligible angles of `islC4` under the constant angle function are
below `FLT_MAX`. -/
theorem islC4_bound : ∀ bp, bp < islC4.borders.length →
    ∀ i, i < (islC4.borders.getD bp default).edges.length →
    edgeEligible islC4 (islC4.borders.getD bp default) i = true →
    edgeAngle saZero 5 islC4 (islC4.borders.getD bp default) i < floatMax := by
  intro bp _ i _ _
  show (5 : ℚ) - 0 < floatMax
  norm_num [floatMax]

/-- Witness for C4: the island with an eligible border vertex yields a
corner. -/
theorem claim_C4_witness : ¬ (sharpest_border_corner saZero 5 islC4 = none) := by
  intro hn
  have h := claim_C4 saZero 5 islC4 islC4_bound
  have hfalse := (h.1).mp hn 1 (by decide) 0 (by decide)
  exact absurd hfalse (by decide)

/-!  ## Claims C1 and C7: extension-loop bookkeeping

The key invariant is that the extension machinery never clears flags of
existing vertices and only ever appends vertices whose flags are cleared
(the source constructs every new `UVVertex` with both flags false, cf. the
comment at `sharpest_border_corner`: new borders "are ignored as their
is_border is set to false"). -/

/-- Lookup through `List.set`. -/
theorem getD_set {α : Type} [Inhabited α] (l : List α) (i j : ℕ) (a : α) :
    (l.set i a).getD j default =
      if i = j ∧ j < l.length then a else l.getD j default := by
  by_cases hj : j < l.length
  · rw [List.getD_eq_getElem _ _ (by simpa using hj), List.getElem_set,
      ← List.getD_eq_getElem l default hj]
    by_cases hij : i = j
    · simp [hij, hj]
    · simp [hij]
  · rw [List.getD_eq_default _ _ (by simpa using not_lt.mp hj),
      List.getD_eq_default _ _ (not_lt.mp hj)]
    simp [hj]

/-- Flag- and length-preservation relation between two island states: the
vertex store only grew, old vertex records keep their flags, and appended
records are not border-flagged. -/
def FlagExt (s s2 : UVIsland) : Prop :=
  s.uv_vertices.length ≤ s2.uv_vertices.length ∧
  (∀ i, i < s.uv_vertices.length → (s2.vert i).flags = (s.vert i).flags) ∧
  (∀ i, s.uv_vertices.length ≤ i → (s2.vert i).flags.is_border = false)

theorem FlagExt.refl (s : UVIsland) : FlagExt s s :=
  ⟨le_refl _, fun _ _ => rfl, fun i hi => by
    unfold UVIsland.vert
    rw [List.getD_eq_default _ _ hi]
    rfl⟩

theorem FlagExt.trans {a b c : UVIsland} (h1 : FlagExt a b) (h2 : FlagExt b c) :
    FlagExt a c := by
  obtain ⟨l1, f1, n1⟩ := h1
  obtain ⟨l2, f2, n2⟩ := h2
  refine ⟨le_trans l1 l2, ?_, ?_⟩
  · intro i hi
    rw [f2 i (lt_of_lt_of_le hi l1), f1 i hi]
  · intro i hi
    by_cases hb : i < b.uv_vertices.length
    · rw [f2 i hb]
      exact n1 i hi
    · exact n2 i (not_lt.mp hb)

/-- A state with the same vertex store is flag-extension-related. -/
theorem FlagExt.of_verts_eq {a b : UVIsland} (h : b.uv_vertices = a.uv_vertices) :
    FlagExt a b := by
  refine ⟨by rw [h], ?_, ?_⟩
  · intro i _
    unfold UVIsland.vert
    rw [h]
  · intro i hi
    unfold UVIsland.vert
    rw [h, List.getD_eq_default _ _ hi]
    rfl

/-- Creating a vertex from a cleared-flags template preserves the flag
invariant. -/
theorem FlagExt.lookup_vert (isl : UVIsland) (v : ℕ) (uv : Q2) :
    FlagExt isl (isl.lookup_or_create_vert (mkUVVertex v uv)).1 := by
  unfold UVIsland.lookup_or_create_vert
  cases hfi : isl.uv_vertices.findIdx?
      (fun x => x.uv == (mkUVVertex v uv).uv && x.vertex == (mkUVVertex v uv).vertex) with
  | some i => exact FlagExt.refl isl
  | none =>
    refine ⟨by simp, ?_, ?_⟩
    · intro i hi
      unfold UVIsland.vert
      simp only []
      rw [List.getD_append _ _ _ _ hi]
    · intro i hi
      unfold UVIsland.vert
      simp only []
      by_cases h2 : i < isl.uv_vertices.length + 1
      · rw [List.getD_append_right _ _ _ _ (by simpa using hi)]
        have : i - isl.uv_vertices.length = 0 := by omega
        rw [this]
        rfl
      · rw [List.getD_eq_default _ _ (by simp; omega)]
        rfl

/-- Edge creation does not touch the vertex store. -/
theorem lookup_edge_verts (isl : UVIsland) (a b : ℕ) :
    ((isl.lookup_or_create_edge a b).1).uv_vertices = isl.uv_vertices := by
  unfold UVIsland.lookup_or_create_edge
  cases isl.uv_edges.findIdx?
      (fun e => (e.vertex0 == a && e.vertex1 == b) || (e.vertex0 == b && e.vertex1 == a)) with
  | some i => rfl
  | none => rfl

/-- Primitive registration does not touch the vertex store. -/
theorem edge_append_prim_verts (isl : UVIsland) (ei pi : ℕ) :
    ((isl.edge_append_prim ei pi)).uv_vertices = isl.uv_vertices := rfl

/-- Back-reference registration keeps lengths and flags of all vertex
records. -/
theorem addEdgeRef_flags (vs : List UVVertex) (vi ei : ℕ) :
    (addEdgeRef vs vi ei).length = vs.length ∧
    ∀ i, ((addEdgeRef vs vi ei).getD i default).flags = (vs.getD i default).flags := by
  unfold addEdgeRef
  simp only []
  by_cases hmem : ei ∈ (vs.getD vi default).uv_edges
  · rw [if_pos hmem]
    exact ⟨rfl, fun i => rfl⟩
  · rw [if_neg hmem]
    refine ⟨by simp, ?_⟩
    intro i
    rw [getD_set]
    by_cases hc : vi = i ∧ i < vs.length
    · rw [if_pos hc, ← hc.1]
    · rw [if_neg hc]

/-- `append_to_uv_vertices` preserves the flag invariant. -/
theorem FlagExt.edge_append_to_uv_vertices (isl : UVIsland) (ei : ℕ) :
    FlagExt isl (isl.edge_append_to_uv_vertices ei) := by
  unfold UVIsland.edge_append_to_uv_vertices
  obtain ⟨hl1, hf1⟩ := addEdgeRef_flags isl.uv_vertices (isl.uvedge ei).vertex0 ei
  obtain ⟨hl2, hf2⟩ := addEdgeRef_flags (addEdgeRef isl.uv_vertices (isl.uvedge ei).vertex0 ei)
    (isl.uvedge ei).vertex1 ei
  refine ⟨by simp only []; omega, ?_, ?_⟩
  · intro i _
    unfold UVIsland.vert
    simp only []
    rw [hf2 i, hf1 i]
  · intro i hi
    unfold UVIsland.vert
    simp only []
    rw [List.getD_eq_default _ _ (by omega)]
    rfl

/-- Composition with a vertex-store-preserving step. -/
theorem FlagExt.cast {a b c : UVIsland} (h : FlagExt a b)
    (he : c.uv_vertices = b.uv_vertices) : FlagExt a c :=
  h.trans (FlagExt.of_verts_eq he)

/-- Composition form of `FlagExt.edge_append_to_uv_vertices`. -/
theorem FlagExt.append_to2 {a b : UVIsland} (ei : ℕ) (h : FlagExt a b) :
    FlagExt a (b.edge_append_to_uv_vertices ei) :=
  h.trans (FlagExt.edge_append_to_uv_vertices b ei)

/-- Composition form of `edge_append_prim_verts`. -/
theorem FlagExt.append_prim2 {a b : UVIsland} (ei pi : ℕ) (h : FlagExt a b) :
    FlagExt a (b.edge_append_prim ei pi) :=
  h.trans (FlagExt.of_verts_eq (edge_append_prim_verts b ei pi))

/-- `push_prim` preserves the flag invariant. -/
theorem FlagExt.push_prim (isl : UVIsland) (mp e1 e2 e3 : ℕ) :
    FlagExt isl (isl.push_prim mp e1 e2 e3) := by
  have h1 : FlagExt isl
      (((isl.edge_append_prim e1 isl.uv_primitives.length).edge_append_prim e2
        isl.uv_primitives.length).edge_append_prim e3 isl.uv_primitives.length) :=
    FlagExt.append_prim2 e3 _ (FlagExt.append_prim2 e2 _ (FlagExt.append_prim2 e1 _
      (FlagExt.refl isl)))
  have h2 := FlagExt.append_to2 e3 (FlagExt.append_to2 e2 (FlagExt.append_to2 e1 h1))
  refine FlagExt.cast h2 ?_
  unfold UVIsland.push_prim
  simp only []

/-- Composition form of `FlagExt.push_prim`. -/
theorem FlagExt.push_prim2 {a b : UVIsland} (mp e1 e2 e3 : ℕ) (h : FlagExt a b) :
    FlagExt a (b.push_prim mp e1 e2 e3) :=
  h.trans (FlagExt.push_prim b mp e1 e2 e3)

/-- Composition form of `FlagExt.lookup_vert`. -/
theorem FlagExt.lookup_vert2 {a b : UVIsland} (v : ℕ) (uv : Q2) (h : FlagExt a b) :
    FlagExt a ((b.lookup_or_create_vert (mkUVVertex v uv)).1) :=
  h.trans (FlagExt.lookup_vert b v uv)

/-- Composition form of `lookup_edge_verts`. -/
theorem FlagExt.lookup_edge2 {a b : UVIsland} (x y : ℕ) (h : FlagExt a b) :
    FlagExt a ((b.lookup_or_create_edge x y).1) :=
  h.trans (FlagExt.of_verts_eq (lookup_edge_verts b x y))

/-- `add_uv_primitive_fill` preserves the flag invariant. -/
theorem FlagExt.add_fill {a : UVIsland} (b : UVIsland) (v1 v2 v3 mp : ℕ)
    (h : FlagExt a b) : FlagExt a (add_uv_primitive_fill b v1 v2 v3 mp) := by
  unfold add_uv_primitive_fill
  simp only []
  exact FlagExt.push_prim2 _ _ _ _ (FlagExt.lookup_edge2 _ _
    (FlagExt.lookup_edge2 _ _ (FlagExt.lookup_edge2 _ _ h)))

/-- `add_uv_primitive_shared_uv_edge` preserves the flag invariant. -/
theorem FlagExt.add_shared {a : UVIsland} (b : UVIsland) (m : MeshData) (cv1 cv2 : ℕ)
    (uvu : Q2) (mp : ℕ) (h : FlagExt a b) :
    FlagExt a (add_uv_primitive_shared_uv_edge b m cv1 cv2 uvu mp) := by
  unfold add_uv_primitive_shared_uv_edge
  simp only []
  exact FlagExt.push_prim2 _ _ _ _ (FlagExt.lookup_edge2 _ _
    (FlagExt.lookup_edge2 _ _ (FlagExt.lookup_edge2 _ _
      (FlagExt.lookup_vert2 _ _ (FlagExt.lookup_vert2 _ _ (FlagExt.lookup_vert2 _ _ h))))))

/-!  ## Claim C1: termination of the extension loop -/

/-- Replacing a satisfying element by a non-satisfying one strictly shrinks
a filter. -/
theorem filter_length_set_lt {α : Type} [Inhabited α] (p : α → Bool) :
    ∀ (l : List α) (i : ℕ) (a : α), i < l.length → p (l.getD i default) = true →
      p a = false → ((l.set i a).filter p).length < (l.filter p).length := by
  intro l
  induction l with
  | nil => intro i a hi _ _; simp at hi
  | cons hd t ih =>
    intro i a hi hp hpa
    cases i with
    | zero =>
      rw [show (hd :: t).set 0 a = a :: t from rfl, List.filter_cons, List.filter_cons]
      rw [List.getD_cons_zero] at hp
      rw [hp, hpa]
      simp
    | succ n =>
      rw [show (hd :: t).set (n + 1) a = hd :: t.set n a from rfl,
        List.filter_cons, List.filter_cons]
      rw [List.getD_cons_succ] at hp
      have hn : n < t.length := by simpa using hi
      cases hhd : p hd
      · simpa using ih n a hn hp hpa
      · simpa using Nat.succ_lt_succ (ih n a hn hp hpa)

/-- Filtering a successor-mapped range is filtering the shifted predicate. -/
theorem length_filter_map_succ (q : ℕ → Bool) :
    ∀ (r : List ℕ), ((r.map Nat.succ).filter q).length =
      (r.filter (fun i => q (i + 1))).length := by
  intro r
  induction r with
  | nil => rfl
  | cons hd t ih =>
    rw [List.map_cons, List.filter_cons, List.filter_cons]
    simp only [Nat.succ_eq_add_one]
    by_cases hq : q (hd + 1) = true
    · rw [if_pos hq, if_pos hq, List.length_cons, List.length_cons, ih]
    · rw [if_neg hq, if_neg hq]
      exact ih

/-- A filter's length as a count over element positions. -/
theorem length_filter_eq_range {α : Type} [Inhabited α] (p : α → Bool) :
    ∀ (l : List α), (l.filter p).length =
      ((List.range l.length).filter (fun i => p (l.getD i default))).length := by
  intro l
  induction l with
  | nil => rfl
  | cons hd t ih =>
    rw [List.filter_cons, List.length_cons, List.range_succ_eq_map, List.filter_cons]
    simp only [List.getD_cons_zero]
    by_cases hp : p hd = true
    · rw [if_pos hp, if_pos hp, List.length_cons, List.length_cons, length_filter_map_succ]
      simp only [List.getD_cons_succ]
      rw [ih]
    · rw [if_neg hp, if_neg hp, length_filter_map_succ]
      simp only [List.getD_cons_succ]
      exact ih

/-- A present satisfying position makes the filter nonempty. -/
theorem filter_length_pos {α : Type} [Inhabited α] (p : α → Bool) (l : List α) (i : ℕ)
    (hi : i < l.length) (hp : p (l.getD i default) = true) : 0 < (l.filter p).length := by
  have hmem : l.getD i default ∈ l := by
    rw [List.getD_eq_getElem l default hi]
    exact l.getElem_mem hi
  have : l.getD i default ∈ l.filter p := List.mem_filter.mpr ⟨hmem, hp⟩
  exact List.length_pos.mpr (fun hnil => by rw [hnil] at this; cases this)

/-- `vertEligible` depends only on the flags. -/
theorem vertEligible_flags {v w : UVVertex} (h : w.flags = v.flags) :
    vertEligible w = vertEligible v := by
  unfold vertEligible
  rw [h]

/-- The flag-extension relation preserves the eligible count. -/
theorem eligCount_eq_of_flagExt {a b : UVIsland} (h : FlagExt a b) :
    eligCount b = eligCount a := by
  obtain ⟨hl, hf, hn⟩ := h
  unfold eligCount
  rw [length_filter_eq_range vertEligible b.uv_vertices,
    length_filter_eq_range vertEligible a.uv_vertices]
  have hsplit : b.uv_vertices.length =
      a.uv_vertices.length + (b.uv_vertices.length - a.uv_vertices.length) := by omega
  rw [hsplit, List.range_add, List.filter_append, List.length_append]
  have h2 : ((List.range (b.uv_vertices.length - a.uv_vertices.length)).map
      (a.uv_vertices.length + ·)).filter
        (fun i => vertEligible (b.uv_vertices.getD i default)) = [] := by
    rw [List.filter_eq_nil_iff]
    intro x hx
    rw [List.mem_map] at hx
    obtain ⟨i, _, hxi⟩ := hx
    have hb : (b.vert x).flags.is_border = false := hn x (by omega)
    unfold UVIsland.vert at hb
    unfold vertEligible
    rw [hb]
    simp
  rw [h2]
  have h3 : (List.range a.uv_vertices.length).filter
      (fun i => vertEligible (b.uv_vertices.getD i default)) =
      (List.range a.uv_vertices.length).filter
      (fun i => vertEligible (a.uv_vertices.getD i default)) := by
    refine List.filter_congr ?_
    intro i hi
    rw [List.mem_range] at hi
    exact vertEligible_flags (hf i hi)
  rw [h3]
  simp
/-- The vertex record of `markExtended`'s target. -/
theorem markExtended_vert_self (isl : UVIsland) (vid : ℕ)
    (h : vid < isl.uv_vertices.length) :
    (markExtended isl vid).vert vid =
      { isl.vert vid with
        flags := { (isl.vert vid).flags with is_extended := true } } := by
  unfold markExtended UVIsland.vert
  simp only []
  rw [getD_set, if_pos ⟨rfl, h⟩]

/-- `markExtended` leaves every other vertex record unchanged. -/
theorem markExtended_vert_other (isl : UVIsland) (vid i : ℕ) (h : i ≠ vid) :
    (markExtended isl vid).vert i = isl.vert i := by
  unfold markExtended UVIsland.vert
  simp only []
  rw [getD_set, if_neg (fun hc => h hc.1.symm)]

/-- Marking an eligible vertex extended strictly decreases the eligible
count. -/
theorem eligCount_markExtended_lt (isl : UVIsland) (vid : ℕ)
    (hv : vid < isl.uv_vertices.length) (he : vertEligible (isl.vert vid) = true) :
    eligCount (markExtended isl vid) < eligCount isl := by
  unfold eligCount markExtended
  simp only []
  refine filter_length_set_lt vertEligible isl.uv_vertices vid _ hv he ?_
  unfold vertEligible
  simp

/-- Eligible vertices are `is_border` vertices: the eligible count is bounded
by the border-flag count. -/
theorem eligCount_le_borderFlagCount (isl : UVIsland) :
    eligCount isl ≤ borderFlagCount isl := by
  unfold eligCount borderFlagCount
  have : ∀ l : List UVVertex,
      (l.filter vertEligible).length ≤
      (l.filter (fun v => v.flags.is_border)).length := by
    intro l
    induction l with
    | nil => exact le_refl _
    | cons hd t ih =>
      rw [List.filter_cons, List.filter_cons]
      by_cases hp : vertEligible hd = true
      · have hq : hd.flags.is_border = true := by
          unfold vertEligible at hp
          exact (Bool.and_eq_true _ _ |>.mp hp).1
        rw [if_pos hp, if_pos hq, List.length_cons, List.length_cons]
        exact Nat.succ_le_succ ih
      · rw [if_neg hp]
        by_cases hq : hd.flags.is_border = true
        · rw [if_pos hq, List.length_cons]
          exact le_trans ih (Nat.le_succ _)
        · rw [if_neg hq]
          exact ih
  exact this isl.uv_vertices

/-- The result slot of a scan is the initial one or an eligible item's
value. -/
theorem selectScan_mem {α β : Type} (key : α → ℚ) (val : α → Option β) (elig : α → Bool) :
    ∀ (l : List α) (res0 : Option β) (best0 : ℚ),
      (selectScan key val elig l (res0, best0)).1 = res0 ∨
      ∃ x ∈ l, elig x = true ∧ (selectScan key val elig l (res0, best0)).1 = val x := by
  intro l
  induction l with
  | nil => intro res0 best0; exact Or.inl rfl
  | cons hd rest ih =>
    intro res0 best0
    rw [selectScan]
    by_cases hc : elig hd = true ∧ key hd < best0
    · rw [if_pos hc]
      rcases ih (val hd) (key hd) with h | ⟨x, hx, he, hv⟩
      · exact Or.inr ⟨hd, List.mem_cons_self hd rest, hc.1, h⟩
      · exact Or.inr ⟨x, List.mem_cons_of_mem _ hx, he, hv⟩
    · rw [if_neg hc]
      rcases ih res0 best0 with h | ⟨x, hx, he, hv⟩
      · exact Or.inl h
      · exact Or.inr ⟨x, List.mem_cons_of_mem _ hx, he, hv⟩

/-- A returned sharpest corner designates an eligible border edge: it is
`cornerAt` of an in-range border and edge position whose start vertex is
flagged `is_border` and not `is_extended`. -/
theorem sharpest_some_elig (sa : Q2 → Q2 → ℚ) (piQ : ℚ) (isl : UVIsland)
    (c : UVBorderCorner) (h : sharpest_border_corner sa piQ isl = some c) :
    ∃ bp i, bp < isl.borders.length ∧
      i < (isl.borders.getD bp default).edges.length ∧
      edgeEligible isl (isl.borders.getD bp default) i = true ∧
      c = cornerAt sa piQ isl bp (isl.borders.getD bp default) i := by
  unfold sharpest_border_corner at h
  rcases selectScan_mem (fun bp => (sharpest_border_corner_in sa piQ isl bp).2)
      (fun bp => (sharpest_border_corner_in sa piQ isl bp).1) (fun _ => true)
      (List.range isl.borders.length) none floatMax with h0 | ⟨bp, hbp, _, hv⟩
  · rw [h0] at h
    cases h
  · rw [hv] at h
    unfold sharpest_border_corner_in at h
    simp only [] at h
    rcases selectScan_mem (edgeAngle sa piQ isl (isl.borders.getD bp default))
        (fun i => some (cornerAt sa piQ isl bp (isl.borders.getD bp default) i))
        (edgeEligible isl (isl.borders.getD bp default))
        (List.range (isl.borders.getD bp default).edges.length) none floatMax
      with h1 | ⟨i, hi, he, hv2⟩
    · rw [h1] at h
      cases h
    · rw [hv2] at h
      injection h with h
      exact ⟨bp, i, by simpa using hbp, by simpa using hi, he, h.symm⟩

/-- Replacing the border list of an island preserves the flag-extension
relation. -/
theorem FlagExt.set_borders {a b : UVIsland} (bs : List UVBorder) (h : FlagExt a b) :
    FlagExt a { b with borders := bs } :=
  h.trans (FlagExt.of_verts_eq rfl)

/-- The zero-path island extends the entry island's flags. -/
theorem FlagExt.extendZero (isl : UVIsland) (m : MeshData) (cuv : CornerUV)
    (c : UVBorderCorner) (d : ℚ) : FlagExt isl (extendAtVertZero m cuv isl c d) := by
  unfold extendAtVertZero
  simp only []
  exact FlagExt.set_borders _ (FlagExt.add_shared _ _ _ _ _ _ (FlagExt.add_shared _ _ _ _ _ _
    (FlagExt.refl isl)))

/-- One fill-loop step extends the flags of the island inside the state. -/
theorem FlagExt.extendStep {a : UVIsland} (m : MeshData) (cuv : CornerUV) (isl : UVIsland)
    (c : UVBorderCorner) (d : ℚ) (uvv : UVVertex) (n : ℕ)
    (st : UVIsland × Fan × ℕ × List UVBorderEdge × Bool) (i : ℕ)
    (h : FlagExt a st.1) : FlagExt a (extendStepFn m cuv isl c d uvv n st i).1 := by
  unfold extendStepFn
  simp only []
  split
  · exact h
  · exact FlagExt.add_fill _ _ _ _ _ (FlagExt.lookup_vert2 _ _ (FlagExt.lookup_vert2 _ _
      (FlagExt.lookup_vert2 _ _ h)))

/-- The fill loop preserves the flag extension. -/
theorem FlagExt.extendFold {a : UVIsland} (m : MeshData) (cuv : CornerUV) (isl : UVIsland)
    (c : UVBorderCorner) (d : ℚ) (uvv : UVVertex) (n : ℕ) :
    ∀ (l : List ℕ) (st : UVIsland × Fan × ℕ × List UVBorderEdge × Bool),
      FlagExt a st.1 →
      FlagExt a ((l.foldl (extendStepFn m cuv isl c d uvv n) st)).1 := by
  intro l
  induction l with
  | nil => intro st h; exact h
  | cons hd t ih =>
    intro st h
    rw [List.foldl_cons]
    exact ih _ (FlagExt.extendStep m cuv isl c d uvv n st hd h)

/-- The final fill segment extends the flags of the island inside the
state. -/
theorem FlagExt.extendFinal {a : UVIsland} (m : MeshData) (isl : UVIsland)
    (secondE : UVBorderEdge) (uvv : UVVertex)
    (stL : UVIsland × Fan × ℕ × List UVBorderEdge × Bool)
    (h : FlagExt a stL.1) : FlagExt a (extendFinalSeg m isl secondE uvv stL).1 := by
  unfold extendFinalSeg
  simp only []
  split
  · exact h
  · exact FlagExt.add_fill _ _ _ _ _ (FlagExt.lookup_vert2 _ _ (FlagExt.lookup_vert2 _ _
      (FlagExt.lookup_vert2 _ _ h)))

/-- The many-path island extends the entry island's flags. -/
theorem FlagExt.extendMany (isl : UVIsland) (m : MeshData) (cuv : CornerUV)
    (c : UVBorderCorner) (d : ℚ) (uvv : UVVertex) (fan2 : Fan) (n : ℕ) :
    FlagExt isl (extendAtVertMany m cuv isl c d uvv fan2 n).1 := by
  unfold extendAtVertMany
  simp only []
  exact FlagExt.set_borders _ (FlagExt.extendFinal m isl _ uvv _
    (FlagExt.extendFold m cuv isl c d uvv n _ _ (FlagExt.refl isl)))

/-- Every island produced by `extend_at_vert` extends the entry island's
flags: existing vertex records keep their flags and new records are not
border-flagged. -/
theorem extend_at_vert_flags (m : MeshData) (cuv : CornerUV) (fanFuel : ℕ) (isl : UVIsland)
    (c : UVBorderCorner) (d : ℚ) (isl2 : UVIsland) (ok : Bool)
    (h : extend_at_vert m cuv fanFuel isl c d = some (isl2, ok)) : FlagExt isl isl2 := by
  unfold extend_at_vert at h
  simp only [] at h
  split at h
  · cases h
  · split at h
    · injection h with h1
      injection h1 with ha hb
      rw [← ha]
      exact FlagExt.refl isl
    · split at h
      · injection h with h1
        injection h1 with ha hb
        rw [← ha]
        exact FlagExt.extendZero isl m cuv c d
      · injection h with h1
        have h2 : (extendAtVertMany m cuv isl c d
            (isl.vert (isl.bedgeVertId ((isl.borders.getD c.borderPos default).edges.getD
              c.secondPos default) 0))
            (markSegments isl m (isl.vert (isl.bedgeVertId
              ((isl.borders.getD c.borderPos default).edges.getD c.secondPos default) 0))
              (initFanUV isl (isl.vert (isl.bedgeVertId
                ((isl.borders.getD c.borderPos default).edges.getD c.secondPos default) 0)) m _))
            _).1 = isl2 := congrArg Prod.fst h1
        rw [← h2]
        exact FlagExt.extendMany isl m cuv c d _ _ _

/-- A selected corner's shared vertex is an eligible vertex of the island. -/
theorem sharpest_vert_eligible (sa : Q2 → Q2 → ℚ) (piQ : ℚ) (islS : UVIsland)
    (c : UVBorderCorner) (hc : sharpest_border_corner sa piQ islS = some c) :
    vertEligible (islS.vert (islS.bedgeVertId
      ((islS.borders.getD c.borderPos default).edges.getD c.secondPos default) 0)) = true := by
  obtain ⟨bp, i, hbp, hi, helig, hceq⟩ := sharpest_some_elig sa piQ islS c hc
  rw [hceq]
  unfold cornerAt
  simp only []
  unfold edgeEligible at helig
  simp only [] at helig
  unfold vertEligible
  exact helig

/-- An eligible vertex id is inside the vertex store (out-of-range lookups
read the default record, whose flags are cleared). -/
theorem eligible_vid_lt (islS : UVIsland) (vid : ℕ)
    (h : vertEligible (islS.vert vid) = true) : vid < islS.uv_vertices.length := by
  by_contra hge
  rw [not_lt] at hge
  unfold UVIsland.vert at h
  rw [List.getD_eq_default _ _ hge] at h
  exact absurd h (by decide)

/-- A successful extension step strictly decreases the eligible count. -/
theorem extendBorderStep_decreases (m : MeshData) (sa : Q2 → Q2 → ℚ) (piQ : ℚ)
    (cuv : CornerUV) (fanFuel : ℕ) (mask : UVIslandsMask) (ii : ℕ)
    (islS : UVIsland) (c : UVBorderCorner) (s2 : UVIsland)
    (hc : sharpest_border_corner sa piQ islS = some c)
    (hs : extendBorderStep m cuv fanFuel mask ii islS c = some s2) :
    eligCount s2 < eligCount islS := by
  have hvE := sharpest_vert_eligible sa piQ islS c hc
  have hvid := eligible_vid_lt islS _ hvE
  unfold extendBorderStep at hs
  simp only [] at hs
  have step2 : ∀ isl2 : UVIsland, FlagExt islS isl2 →
      s2 = markExtended isl2 (islS.bedgeVertId
        ((islS.borders.getD c.borderPos default).edges.getD c.secondPos default) 0) →
      eligCount s2 < eligCount islS := by
    intro isl2 hfe hs2
    rw [hs2]
    have h1 : eligCount (markExtended isl2 (islS.bedgeVertId
        ((islS.borders.getD c.borderPos default).edges.getD c.secondPos default) 0)) <
        eligCount isl2 := by
      refine eligCount_markExtended_lt isl2 _ (lt_of_lt_of_le hvid hfe.1) ?_
      rw [vertEligible_flags (hfe.2.1 _ hvid)]
      exact hvE
    rw [eligCount_eq_of_flagExt hfe] at h1
    exact h1
  split at hs
  · rename_i tile htile
    split at hs
    · rw [Option.map_map] at hs
      rcases Option.map_eq_some'.mp hs with ⟨pr, hev, hpr⟩
      obtain ⟨risl, rok⟩ := pr
      refine step2 risl (extend_at_vert_flags m cuv fanFuel islS c _ risl rok hev) ?_
      rw [← hpr]
      rfl
    · rcases Option.map_eq_some'.mp hs with ⟨pr, hev, hpr⟩
      injection hev with hev2
      refine step2 islS (FlagExt.refl islS) ?_
      rw [← hpr, ← hev2]
  · rcases Option.map_eq_some'.mp hs with ⟨pr, hev, hpr⟩
    injection hev with hev2
    refine step2 islS (FlagExt.refl islS) ?_
    rw [← hpr, ← hev2]
/-- A selected corner certifies a positive eligible count. -/
theorem sharpest_some_eligCount_pos (sa : Q2 → Q2 → ℚ) (piQ : ℚ) (islS : UVIsland)
    (c : UVBorderCorner) (hc : sharpest_border_corner sa piQ islS = some c) :
    0 < eligCount islS := by
  have hvE := sharpest_vert_eligible sa piQ islS c hc
  have hvid := eligible_vid_lt islS _ hvE
  unfold eligCount
  exact filter_length_pos vertEligible islS.uv_vertices _ hvid hvE

/-- Fuel `eligCount` suffices for the extension loop: any extra fuel yields
the same result. -/
theorem extendBorderLoop_fuel (m : MeshData) (sa : Q2 → Q2 → ℚ) (piQ : ℚ) (cuv : CornerUV)
    (fanFuel : ℕ) (mask : UVIslandsMask) (ii : ℕ) :
    ∀ (n : ℕ) (s : UVIsland) (k : ℕ), eligCount s ≤ n →
      extendBorderLoop m sa piQ cuv fanFuel mask ii (n + k) s =
      extendBorderLoop m sa piQ cuv fanFuel mask ii n s := by
  intro n
  induction n with
  | zero =>
    intro s k h0
    cases hsh : sharpest_border_corner sa piQ s with
    | none =>
      cases k with
      | zero => rfl
      | succ k2 =>
        rw [Nat.zero_add]
        rw [extendBorderLoop, extendBorderLoop, hsh]
    | some c =>
      exact absurd (sharpest_some_eligCount_pos sa piQ s c hsh) (by omega)
  | succ n ih =>
    intro s k h
    have hidx : n + 1 + k = (n + k) + 1 := by omega
    rw [hidx, extendBorderLoop, extendBorderLoop]
    cases hsh : sharpest_border_corner sa piQ s with
    | none => rfl
    | some c =>
      simp only []
      cases hst : extendBorderStep m cuv fanFuel mask ii s c with
      | none => rfl
      | some s2 =>
        have hdec := extendBorderStep_decreases m sa piQ cuv fanFuel mask ii s c s2 hsh hst
        exact ih s2 k (by omega)

/-- C1: the `while (true)` loop of `UVIsland::extend_border` halts within
finitely many iterations, bounded by the number of UV vertices flagged
`is_border` after the entry pass: the loop run with fuel `eligCount` (the
number of vertices flagged `is_border` and not `is_extended`, which is at
most the border-flag count) gives the same result as with any larger fuel,
because every iteration marks the selected corner's shared vertex
`is_extended`, extension never clears old flags nor border-flags new
vertices, so the eligible count strictly shrinks. -/
theorem claim_C1 (m : MeshData) (sa : Q2 → Q2 → ℚ) (piQ : ℚ) (cuv : CornerUV)
    (fanFuel : ℕ) (mask : UVIslandsMask) (island_index : ℕ) (isl : UVIsland) :
    eligCount isl.extend_border_prep ≤ borderFlagCount isl.extend_border_prep ∧
    ∀ k, extendBorderLoop m sa piQ cuv fanFuel mask island_index
        (eligCount isl.extend_border_prep + k) isl.extend_border_prep =
      isl.extend_border m sa piQ cuv fanFuel mask island_index := by
  refine ⟨eligCount_le_borderFlagCount _, ?_⟩
  intro k
  rw [UVIsland.extend_border]
  exact extendBorderLoop_fuel m sa piQ cuv fanFuel mask island_index
    (eligCount isl.extend_border_prep) isl.extend_border_prep k (le_refl _)

/-!  ## Claim C7: every iteration marks; skipped iterations only mark -/

/-- Every successful step is `markExtended` of a flag-extension of the
state. -/
theorem extendBorderStep_shape (m : MeshData) (cuv : CornerUV) (fanFuel : ℕ)
    (mask : UVIslandsMask) (ii : ℕ) (islS : UVIsland) (c : UVBorderCorner) (s2 : UVIsland)
    (hs : extendBorderStep m cuv fanFuel mask ii islS c = some s2) :
    ∃ isl2, FlagExt islS isl2 ∧ s2 = markExtended isl2 (islS.bedgeVertId
      ((islS.borders.getD c.borderPos default).edges.getD c.secondPos default) 0) := by
  unfold extendBorderStep at hs
  simp only [] at hs
  split at hs
  · rename_i tile htile
    split at hs
    · rw [Option.map_map] at hs
      rcases Option.map_eq_some'.mp hs with ⟨pr, hev, hpr⟩
      obtain ⟨risl, rok⟩ := pr
      exact ⟨risl, extend_at_vert_flags m cuv fanFuel islS c _ risl rok hev, by
        rw [← hpr]
        rfl⟩
    · rcases Option.map_eq_some'.mp hs with ⟨pr, hev, hpr⟩
      injection hev with hev2
      exact ⟨islS, FlagExt.refl islS, by rw [← hpr, ← hev2]⟩
  · rcases Option.map_eq_some'.mp hs with ⟨pr, hev, hpr⟩
    injection hev with hev2
    exact ⟨islS, FlagExt.refl islS, by rw [← hpr, ← hev2]⟩

/-- C7: in every iteration of the extension loop, the selected corner's
shared UV vertex (`corner.second->get_uv_vertex(0)`) is marked
`is_extended`, whatever path was taken; when the iteration is skipped --
no mask tile contains the vertex's UV, the tile does not claim the UV for
this island index, or the vertex fan is not full -- the step state is
exactly `markExtended` of the unchanged island; and `markExtended` only
sets that one flag: the edge, primitive and border stores and every other
vertex record are untouched. -/
theorem claim_C7 (m : MeshData) (cuv : CornerUV) (fanFuel : ℕ) (mask : UVIslandsMask)
    (island_index : ℕ) (islS : UVIsland) (c : UVBorderCorner) (vid : ℕ)
    (hvid : vid = islS.bedgeVertId
      ((islS.borders.getD c.borderPos default).edges.getD c.secondPos default) 0)
    (hlt : vid < islS.uv_vertices.length) :
    (∀ s2, extendBorderStep m cuv fanFuel mask island_index islS c = some s2 →
      (s2.vert vid).flags.is_extended = true) ∧
    (mask.find_tile (islS.vert vid).uv = none →
      extendBorderStep m cuv fanFuel mask island_index islS c =
        some (markExtended islS vid)) ∧
    (∀ tile, mask.find_tile (islS.vert vid).uv = some tile →
      tile.is_masked island_index (islS.vert vid).uv = false →
      extendBorderStep m cuv fanFuel mask island_index islS c =
        some (markExtended islS vid)) ∧
    (∀ tile fan0, mask.find_tile (islS.vert vid).uv = some tile →
      tile.is_masked island_index (islS.vert vid).uv = true →
      mkFan m fanFuel ((islS.vert vid).vertex) = some fan0 → fan0.full = false →
      extendBorderStep m cuv fanFuel mask island_index islS c =
        some (markExtended islS vid)) ∧
    ((markExtended islS vid).uv_edges = islS.uv_edges ∧
     (markExtended islS vid).uv_primitives = islS.uv_primitives ∧
     (markExtended islS vid).borders = islS.borders ∧
     (markExtended islS vid).uv_vertices.length = islS.uv_vertices.length ∧
     (∀ i, i ≠ vid → (markExtended islS vid).vert i = islS.vert i) ∧
     (markExtended islS vid).vert vid =
       { islS.vert vid with
         flags := { (islS.vert vid).flags with is_extended := true } }) := by
  subst hvid
  refine ⟨?_, ?_, ?_, ?_, rfl, rfl, rfl, by
    unfold markExtended
    simp only []
    exact List.length_set _ _ _, markExtended_vert_other islS _, markExtended_vert_self islS _ hlt⟩
  · intro s2 hs
    obtain ⟨isl2, hfe, hs2⟩ := extendBorderStep_shape m cuv fanFuel mask island_index
      islS c s2 hs
    rw [hs2, markExtended_vert_self isl2 _ (lt_of_lt_of_le hlt hfe.1)]
  · intro hfind
    unfold extendBorderStep
    simp only []
    rw [hfind]
    rfl
  · intro tile hfind hm
    unfold extendBorderStep
    simp only []
    rw [hfind]
    simp only []
    rw [if_neg (by rw [hm]; decide)]
    rfl
  · intro tile fan0 hfind hm hfan hfull
    unfold extendBorderStep
    simp only []
    rw [hfind]
    simp only []
    rw [if_pos hm]
    unfold extend_at_vert
    simp only []
    rw [hfan]
    simp only []
    rw [if_pos hfull]
    rfl

/-- Concrete island for the C7 witness: one vertex (mesh vertex 7, flagged
`is_border`), one UV edge looping on it, one border edge. -/
def islC7 : UVIsland :=
  { uv_vertices := [{ vertex := 7, uv := (0, 0), uv_edges := [], flags := ⟨true, false⟩ }]
    uv_edges := [{ vertex0 := 0, vertex1 := 0, uv_primitives := [] }]
    uv_primitives := []
    borders := [⟨[mkUVBorderEdge 0 0]⟩] }

/-- Empty mesh for the C7 witness. -/
def mC7 : MeshData := ⟨[], [], []⟩

/-- Constant corner-UV routine for the C7 witness. -/
def cuvC7 : CornerUV := fun _ _ _ _ => (0, 0)

/-- Mask without tiles for the C7 witness (`find_tile` yields none). -/
def maskC7 : UVIslandsMask := ⟨[]⟩

/-- Corner selecting the only border edge of `islC7`. -/
def cC7 : UVBorderCorner := ⟨0, 0, 0, 0⟩

/-- Witness for C7 at a concrete island, corner and tile-less mask. -/
theorem claim_C7_witness :
    ((0 : ℕ) = islC7.bedgeVertId
        ((islC7.borders.getD cC7.borderPos default).edges.getD cC7.secondPos default) 0 ∧
      0 < islC7.uv_vertices.length) ∧
    ((∀ s2, extendBorderStep mC7 cuvC7 5 maskC7 3 islC7 cC7 = some s2 →
        (s2.vert 0).flags.is_extended = true) ∧
     (maskC7.find_tile (islC7.vert 0).uv = none →
        extendBorderStep mC7 cuvC7 5 maskC7 3 islC7 cC7 = some (markExtended islC7 0)) ∧
     (∀ tile, maskC7.find_tile (islC7.vert 0).uv = some tile →
        tile.is_masked 3 (islC7.vert 0).uv = false →
        extendBorderStep mC7 cuvC7 5 maskC7 3 islC7 cC7 = some (markExtended islC7 0)) ∧
     (∀ tile fan0, maskC7.find_tile (islC7.vert 0).uv = some tile →
        tile.is_masked 3 (islC7.vert 0).uv = true →
        mkFan mC7 5 ((islC7.vert 0).vertex) = some fan0 → fan0.full = false →
        extendBorderStep mC7 cuvC7 5 maskC7 3 islC7 cC7 = some (markExtended islC7 0)) ∧
     ((markExtended islC7 0).uv_edges = islC7.uv_edges ∧
      (markExtended islC7 0).uv_primitives = islC7.uv_primitives ∧
      (markExtended islC7 0).borders = islC7.borders ∧
      (markExtended islC7 0).uv_vertices.length = islC7.uv_vertices.length ∧
      (∀ i, i ≠ 0 → (markExtended islC7 0).vert i = islC7.vert i) ∧
      (markExtended islC7 0).vert 0 =
        { islC7.vert 0 with
          flags := { (islC7.vert 0).flags with is_extended := true } })) :=
  ⟨⟨by decide, by decide⟩, claim_C7 mC7 cuvC7 5 maskC7 3 islC7 cC7 0 (by decide) (by decide)⟩

/-!  ## Claim C5: the `num_to_add == 0` extension path

The analysis needs, besides the flag invariant, that every store operation
keeps the identity (mesh vertex, UV) of existing vertex records and the
border list. -/

/-- Identity-preservation relation: the vertex store only grew, old records
keep their mesh vertex and UV coordinate, and the border list is unchanged. -/
def Keep (a b : UVIsland) : Prop :=
  a.uv_vertices.length ≤ b.uv_vertices.length ∧
  (∀ j, j < a.uv_vertices.length →
    (b.vert j).uv = (a.vert j).uv ∧ (b.vert j).vertex = (a.vert j).vertex) ∧
  b.borders = a.borders

theorem keep_refl (s : UVIsland) : Keep s s := ⟨le_refl _, fun _ _ => ⟨rfl, rfl⟩, rfl⟩

/-- Replacing the primitive list keeps vertex identities and borders. -/
theorem Keep.set_prims {x : UVIsland} (ps : List UVPrimitive) :
    Keep x { x with uv_primitives := ps } :=
  ⟨le_refl _, fun _ _ => ⟨rfl, rfl⟩, rfl⟩

/-- Projection of a primitive-list replacement. -/
theorem verts_set_prims (x : UVIsland) (ps : List UVPrimitive) :
    ({ x with uv_primitives := ps } : UVIsland).uv_vertices.length =
      x.uv_vertices.length := rfl

/-- Projection of a primitive-list replacement. -/
theorem prims_set_prims (x : UVIsland) (ps : List UVPrimitive) :
    ({ x with uv_primitives := ps } : UVIsland).uv_primitives = ps := rfl

/-- The primitive store is untouched by back-reference registration. -/
theorem append_to_prims (x : UVIsland) (e : ℕ) :
    (x.edge_append_to_uv_vertices e).uv_primitives = x.uv_primitives := rfl

/-- The primitive store is untouched by per-edge primitive registration. -/
theorem append_prim_prims (x : UVIsland) (e p : ℕ) :
    (x.edge_append_prim e p).uv_primitives = x.uv_primitives := rfl

theorem keep_trans {a b c : UVIsland} (h1 : Keep a b) (h2 : Keep b c) : Keep a c := by
  obtain ⟨l1, f1, b1⟩ := h1
  obtain ⟨l2, f2, b2⟩ := h2
  refine ⟨le_trans l1 l2, ?_, b2.trans b1⟩
  intro j hj
  obtain ⟨hu2, hv2⟩ := f2 j (lt_of_lt_of_le hj l1)
  obtain ⟨hu1, hv1⟩ := f1 j hj
  exact ⟨hu2.trans hu1, hv2.trans hv1⟩

/-- Back-reference registration keeps length, mesh vertex and UV of every
vertex record. -/
theorem addEdgeRef_keep (vs : List UVVertex) (vi ei : ℕ) :
    (addEdgeRef vs vi ei).length = vs.length ∧
    ∀ i, ((addEdgeRef vs vi ei).getD i default).uv = (vs.getD i default).uv ∧
      ((addEdgeRef vs vi ei).getD i default).vertex = (vs.getD i default).vertex := by
  unfold addEdgeRef
  simp only []
  by_cases hmem : ei ∈ (vs.getD vi default).uv_edges
  · rw [if_pos hmem]
    exact ⟨rfl, fun i => ⟨rfl, rfl⟩⟩
  · rw [if_neg hmem]
    refine ⟨by simp, ?_⟩
    intro i
    rw [getD_set]
    by_cases hc : vi = i ∧ i < vs.length
    · rw [if_pos hc, ← hc.1]
      exact ⟨rfl, rfl⟩
    · rw [if_neg hc]
      exact ⟨rfl, rfl⟩

/-- `append_to_uv_vertices` keeps identities and the vertex count. -/
theorem keep_edge_append_to (isl : UVIsland) (ei : ℕ) :
    Keep isl (isl.edge_append_to_uv_vertices ei) ∧
    (isl.edge_append_to_uv_vertices ei).uv_vertices.length = isl.uv_vertices.length := by
  unfold UVIsland.edge_append_to_uv_vertices
  obtain ⟨hl1, hf1⟩ := addEdgeRef_keep isl.uv_vertices (isl.uvedge ei).vertex0 ei
  obtain ⟨hl2, hf2⟩ := addEdgeRef_keep (addEdgeRef isl.uv_vertices (isl.uvedge ei).vertex0 ei)
    (isl.uvedge ei).vertex1 ei
  refine ⟨⟨by simp only []; omega, ?_, rfl⟩, by simp only []; omega⟩
  intro j hj
  unfold UVIsland.vert
  simp only []
  obtain ⟨ha2, hb2⟩ := hf2 j
  obtain ⟨ha1, hb1⟩ := hf1 j
  exact ⟨ha2.trans ha1, hb2.trans hb1⟩

/-- `push_prim` keeps identities, the vertex count, appends exactly the new
primitive record and keeps the borders. -/
theorem push_prim_shape (b : UVIsland) (mp e1 e2 e3 : ℕ) :
    Keep b (b.push_prim mp e1 e2 e3) ∧
    (b.push_prim mp e1 e2 e3).uv_vertices.length = b.uv_vertices.length ∧
    (b.push_prim mp e1 e2 e3).uv_primitives = b.uv_primitives ++ [⟨mp, [e1, e2, e3]⟩] := by
  have happ : ∀ (x : UVIsland) (ei pi : ℕ), Keep x (x.edge_append_prim ei pi) ∧
      (x.edge_append_prim ei pi).uv_vertices.length = x.uv_vertices.length := by
    intro x ei pi
    exact ⟨⟨le_refl _, fun j _ => ⟨rfl, rfl⟩, rfl⟩, rfl⟩
  have h1 := happ b e1 b.uv_primitives.length
  have h2 := happ (b.edge_append_prim e1 b.uv_primitives.length) e2 b.uv_primitives.length
  have h3 := happ ((b.edge_append_prim e1 b.uv_primitives.length).edge_append_prim e2
    b.uv_primitives.length) e3 b.uv_primitives.length
  have h4 := keep_edge_append_to (((b.edge_append_prim e1
    b.uv_primitives.length).edge_append_prim e2 b.uv_primitives.length).edge_append_prim e3
    b.uv_primitives.length) e1
  have h5 := keep_edge_append_to ((((b.edge_append_prim e1
    b.uv_primitives.length).edge_append_prim e2 b.uv_primitives.length).edge_append_prim e3
    b.uv_primitives.length).edge_append_to_uv_vertices e1) e2
  have h6 := keep_edge_append_to (((((b.edge_append_prim e1
    b.uv_primitives.length).edge_append_prim e2 b.uv_primitives.length).edge_append_prim e3
    b.uv_primitives.length).edge_append_to_uv_vertices e1).edge_append_to_uv_vertices e2) e3
  have hkeep : Keep b ((((((b.edge_append_prim e1 b.uv_primitives.length).edge_append_prim e2
      b.uv_primitives.length).edge_append_prim e3
      b.uv_primitives.length).edge_append_to_uv_vertices e1).edge_append_to_uv_vertices
      e2).edge_append_to_uv_vertices e3) :=
    (keep_trans (keep_trans (keep_trans (keep_trans (keep_trans h1.1 h2.1) h3.1) h4.1) h5.1) h6.1)
  have hlen : ((((((b.edge_append_prim e1 b.uv_primitives.length).edge_append_prim e2
      b.uv_primitives.length).edge_append_prim e3
      b.uv_primitives.length).edge_append_to_uv_vertices e1).edge_append_to_uv_vertices
      e2).edge_append_to_uv_vertices e3).uv_vertices.length = b.uv_vertices.length := by
    rw [h6.2, h5.2, h4.2, h3.2, h2.2, h1.2]
  refine ⟨?_, ?_, ?_⟩
  · refine keep_trans hkeep ?_
    unfold UVIsland.push_prim
    simp only []
    exact Keep.set_prims _
  · unfold UVIsland.push_prim
    simp only []
    rw [verts_set_prims]
    exact hlen
  · unfold UVIsland.push_prim
    simp only []
    rw [prims_set_prims, append_to_prims, append_to_prims, append_to_prims,
      append_prim_prims, append_prim_prims, append_prim_prims]

/-- Does the island store a vertex record with identity `(v, uv)`?  (The
lookup key of `UVIsland::lookup_or_create(UVVertex)`.) -/
def hasVertRecord (isl : UVIsland) (v : ℕ) (uv : Q2) : Bool :=
  isl.uv_vertices.any (fun x => x.uv == uv && x.vertex == v)

/-- Positional reading of `hasVertRecord`. -/
theorem hasVertRecord_iff (isl : UVIsland) (v : ℕ) (uv : Q2) :
    hasVertRecord isl v uv = true ↔
      ∃ j, j < isl.uv_vertices.length ∧ (isl.vert j).uv = uv ∧ (isl.vert j).vertex = v := by
  unfold hasVertRecord
  rw [List.any_eq_true]
  constructor
  · rintro ⟨x, hx, hp⟩
    rw [List.mem_iff_getElem] at hx
    obtain ⟨j, hj, hxe⟩ := hx
    rw [Bool.and_eq_true, beq_iff_eq, beq_iff_eq] at hp
    refine ⟨j, hj, ?_, ?_⟩
    · unfold UVIsland.vert
      rw [List.getD_eq_getElem _ _ hj, hxe]
      exact hp.1
    · unfold UVIsland.vert
      rw [List.getD_eq_getElem _ _ hj, hxe]
      exact hp.2
  · rintro ⟨j, hj, hu, hv⟩
    refine ⟨isl.vert j, ?_, ?_⟩
    · unfold UVIsland.vert
      rw [List.getD_eq_getElem _ _ hj]
      exact isl.uv_vertices.getElem_mem hj
    · rw [Bool.and_eq_true, beq_iff_eq, beq_iff_eq]
      exact ⟨hu, hv⟩

/-- A failed index search means every element fails the predicate. -/
theorem findIdx?_eq_none {α : Type} (p : α → Bool) :
    ∀ l : List α, l.findIdx? p = none → ∀ x ∈ l, p x = false := by
  intro l
  induction l with
  | nil => intro _ x hx; cases hx
  | cons hd t ih =>
    intro h x hx
    rw [List.findIdx?_cons] at h
    by_cases hp : p hd
    · rw [if_pos hp] at h
      cases h
    · rw [if_neg hp, List.findIdx?_succ] at h
      have ht : t.findIdx? p = none := by
        cases hfi : t.findIdx? p with
        | none => rfl
        | some i =>
          rw [hfi] at h
          simp at h
      rcases List.mem_cons.mp hx with hh | ht2
      · rw [hh]
        exact Bool.not_eq_true _ |>.mp hp
      · exact ih ht x ht2

/-- A hit lookup returns the island unchanged. -/
theorem lookup_vert_hit (isl : UVIsland) (t : UVVertex)
    (h : hasVertRecord isl t.vertex t.uv = true) :
    (isl.lookup_or_create_vert t).1 = isl := by
  unfold UVIsland.lookup_or_create_vert
  cases hfi : isl.uv_vertices.findIdx? (fun v => v.uv == t.uv && v.vertex == t.vertex) with
  | some i => rfl
  | none =>
    exfalso
    obtain ⟨j, hj, hu, hv⟩ := (hasVertRecord_iff isl t.vertex t.uv).mp h
    have hmem : isl.uv_vertices.getD j default ∈ isl.uv_vertices := by
      rw [List.getD_eq_getElem _ _ hj]
      exact isl.uv_vertices.getElem_mem hj
    have hfalse := findIdx?_eq_none _ _ hfi _ hmem
    unfold UVIsland.vert at hu hv
    rw [hu, hv] at hfalse
    simp at hfalse

/-- A missed lookup appends the cleared template and returns its index. -/
theorem lookup_vert_miss (isl : UVIsland) (t : UVVertex)
    (h : hasVertRecord isl t.vertex t.uv = false) :
    (isl.lookup_or_create_vert t).1.uv_vertices =
      isl.uv_vertices ++ [{ t with uv_edges := [] }] ∧
    (isl.lookup_or_create_vert t).2 = isl.uv_vertices.length ∧
    (isl.lookup_or_create_vert t).1.uv_primitives = isl.uv_primitives ∧
    (isl.lookup_or_create_vert t).1.uv_edges = isl.uv_edges ∧
    (isl.lookup_or_create_vert t).1.borders = isl.borders := by
  unfold UVIsland.lookup_or_create_vert
  cases hfi : isl.uv_vertices.findIdx? (fun v => v.uv == t.uv && v.vertex == t.vertex) with
  | none => exact ⟨rfl, rfl, rfl, rfl, rfl⟩
  | some i =>
    exfalso
    obtain ⟨hlt, hp, _⟩ := findIdx?_spec _ _ _ hfi
    rw [Bool.and_eq_true, beq_iff_eq, beq_iff_eq] at hp
    have : hasVertRecord isl t.vertex t.uv = true :=
      (hasVertRecord_iff isl t.vertex t.uv).mpr ⟨i, hlt, hp.1, hp.2⟩
    rw [h] at this
    cases this

/-- Vertex lookup keeps identities and borders (hit: unchanged; miss: one
appended record). -/
theorem keep_lookup_vert (isl : UVIsland) (t : UVVertex) :
    Keep isl (isl.lookup_or_create_vert t).1 := by
  unfold UVIsland.lookup_or_create_vert
  cases hfi : isl.uv_vertices.findIdx? (fun v => v.uv == t.uv && v.vertex == t.vertex) with
  | some i => exact keep_refl isl
  | none =>
    refine ⟨by simp, ?_, rfl⟩
    intro j hj
    unfold UVIsland.vert
    simp only []
    rw [List.getD_append _ _ _ _ hj]
    exact ⟨rfl, rfl⟩

/-- Edge lookup does not touch vertices, primitives or borders. -/
theorem lookup_edge_fields (isl : UVIsland) (a b : ℕ) :
    ((isl.lookup_or_create_edge a b).1).uv_vertices = isl.uv_vertices ∧
    ((isl.lookup_or_create_edge a b).1).uv_primitives = isl.uv_primitives ∧
    ((isl.lookup_or_create_edge a b).1).borders = isl.borders := by
  unfold UVIsland.lookup_or_create_edge
  cases isl.uv_edges.findIdx?
      (fun e => (e.vertex0 == a && e.vertex1 == b) || (e.vertex0 == b && e.vertex1 == a)) with
  | some i => exact ⟨rfl, rfl, rfl⟩
  | none => exact ⟨rfl, rfl, rfl⟩

/-- `Keep` from unchanged vertices and borders. -/
theorem Keep.of_eq {a b : UVIsland} (hv : b.uv_vertices = a.uv_vertices)
    (hb : b.borders = a.borders) : Keep a b := by
  refine ⟨by rw [hv], ?_, hb⟩
  intro j hj
  unfold UVIsland.vert
  rw [hv]
  exact ⟨rfl, rfl⟩

/-- Shape of `add_uv_primitive_fill`: no vertex appended, identities and
borders kept, exactly one primitive appended. -/
theorem add_fill_shape (b : UVIsland) (v1 v2 v3 mp : ℕ) :
    Keep b (add_uv_primitive_fill b v1 v2 v3 mp) ∧
    (add_uv_primitive_fill b v1 v2 v3 mp).uv_vertices.length = b.uv_vertices.length ∧
    (add_uv_primitive_fill b v1 v2 v3 mp).uv_primitives.length =
      b.uv_primitives.length + 1 ∧
    (add_uv_primitive_fill b v1 v2 v3 mp).borders = b.borders := by
  unfold add_uv_primitive_fill
  simp only []
  have h1 := lookup_edge_fields b v1 v2
  have h2 := lookup_edge_fields (b.lookup_or_create_edge v1 v2).1 v2 v3
  have h3 := lookup_edge_fields ((b.lookup_or_create_edge v1 v2).1.lookup_or_create_edge
    v2 v3).1 v3 v1
  have hk3 : Keep b (((b.lookup_or_create_edge v1 v2).1.lookup_or_create_edge
      v2 v3).1.lookup_or_create_edge v3 v1).1 :=
    Keep.of_eq (h3.1.trans (h2.1.trans h1.1)) (h3.2.2.trans (h2.2.2.trans h1.2.2))
  obtain ⟨hpk, hpl, hpp⟩ := push_prim_shape (((b.lookup_or_create_edge
    v1 v2).1.lookup_or_create_edge v2 v3).1.lookup_or_create_edge v3 v1).1
    mp (b.lookup_or_create_edge v1 v2).2 ((b.lookup_or_create_edge
    v1 v2).1.lookup_or_create_edge v2 v3).2 (((b.lookup_or_create_edge
    v1 v2).1.lookup_or_create_edge v2 v3).1.lookup_or_create_edge v3 v1).2
  refine ⟨keep_trans hk3 hpk, ?_, ?_, ?_⟩
  · rw [hpl]
    rw [h3.1, h2.1, h1.1]
  · rw [hpp, List.length_append, h3.2.1, h2.2.1, h1.2.1]
    rfl
  · exact hpk.2.2.trans (hk3.2.2)

/-- `hasVertRecord` is monotone along `Keep`. -/
theorem hasVertRecord_mono {a b : UVIsland} (k : Keep a b) {v : ℕ} {uv : Q2}
    (h : hasVertRecord a v uv = true) : hasVertRecord b v uv = true := by
  obtain ⟨j, hj, hu, hv⟩ := (hasVertRecord_iff a v uv).mp h
  refine (hasVertRecord_iff b v uv).mpr ⟨j, lt_of_lt_of_le hj k.1, ?_, ?_⟩
  · exact (k.2.1 j hj).1.trans hu
  · exact (k.2.1 j hj).2.trans hv

/-- Shape of `add_uv_primitive_shared_uv_edge` when the unconnected template
is new and both connected templates already have records: identities and
borders kept, exactly one vertex record appended -- the unconnected one,
placed at `uv_unconnected` -- and exactly one primitive appended. -/
theorem add_shared_shape (b : UVIsland) (m : MeshData) (cv1 cv2 : ℕ) (uvu : Q2) (mp : ℕ)
    (hm0 : hasVertRecord b ((((m.primAt mp).get_other_uv_vertex ((b.vert cv1).vertex) ((b.vert cv2).vertex)).getD default).vertex) uvu = false)
    (hh1 : hasVertRecord b ((get_uv_vert (m.primAt mp) ((b.vert cv1).vertex)).vertex)
      ((b.vert cv1).uv) = true)
    (hh2 : hasVertRecord b ((get_uv_vert (m.primAt mp) ((b.vert cv2).vertex)).vertex)
      ((b.vert cv2).uv) = true) :
    Keep b (add_uv_primitive_shared_uv_edge b m cv1 cv2 uvu mp) ∧
    (add_uv_primitive_shared_uv_edge b m cv1 cv2 uvu mp).uv_vertices.length =
      b.uv_vertices.length + 1 ∧
    ((add_uv_primitive_shared_uv_edge b m cv1 cv2 uvu mp).vert b.uv_vertices.length).uv =
      uvu ∧
    ((add_uv_primitive_shared_uv_edge b m cv1 cv2 uvu mp).vert b.uv_vertices.length).vertex =
      (((m.primAt mp).get_other_uv_vertex ((b.vert cv1).vertex) ((b.vert cv2).vertex)).getD default).vertex ∧
    (add_uv_primitive_shared_uv_edge b m cv1 cv2 uvu mp).uv_primitives.length =
      b.uv_primitives.length + 1 ∧
    (add_uv_primitive_shared_uv_edge b m cv1 cv2 uvu mp).borders = b.borders := by
  obtain ⟨s1v, s1i, s1p, s1e, s1b⟩ := lookup_vert_miss b (mkUVVertex ((((m.primAt mp).get_other_uv_vertex ((b.vert cv1).vertex) ((b.vert cv2).vertex)).getD default).vertex) uvu) hm0
  have hkb1 : Keep b ((b.lookup_or_create_vert (mkUVVertex ((((m.primAt mp).get_other_uv_vertex ((b.vert cv1).vertex) ((b.vert cv2).vertex)).getD default).vertex) uvu)).1) := keep_lookup_vert b (mkUVVertex ((((m.primAt mp).get_other_uv_vertex ((b.vert cv1).vertex) ((b.vert cv2).vertex)).getD default).vertex) uvu)
  have hr1 : (((b.lookup_or_create_vert (mkUVVertex ((((m.primAt mp).get_other_uv_vertex ((b.vert cv1).vertex) ((b.vert cv2).vertex)).getD default).vertex) uvu)).1).lookup_or_create_vert (mkUVVertex ((get_uv_vert (m.primAt mp) ((b.vert cv1).vertex)).vertex) ((b.vert cv1).uv))).1 = (b.lookup_or_create_vert (mkUVVertex ((((m.primAt mp).get_other_uv_vertex ((b.vert cv1).vertex) ((b.vert cv2).vertex)).getD default).vertex) uvu)).1 :=
    lookup_vert_hit ((b.lookup_or_create_vert (mkUVVertex ((((m.primAt mp).get_other_uv_vertex ((b.vert cv1).vertex) ((b.vert cv2).vertex)).getD default).vertex) uvu)).1) (mkUVVertex ((get_uv_vert (m.primAt mp) ((b.vert cv1).vertex)).vertex) ((b.vert cv1).uv)) (hasVertRecord_mono hkb1 hh1)
  have hr2 : (((b.lookup_or_create_vert (mkUVVertex ((((m.primAt mp).get_other_uv_vertex ((b.vert cv1).vertex) ((b.vert cv2).vertex)).getD default).vertex) uvu)).1).lookup_or_create_vert (mkUVVertex ((get_uv_vert (m.primAt mp) ((b.vert cv2).vertex)).vertex) ((b.vert cv2).uv))).1 = (b.lookup_or_create_vert (mkUVVertex ((((m.primAt mp).get_other_uv_vertex ((b.vert cv1).vertex) ((b.vert cv2).vertex)).getD default).vertex) uvu)).1 :=
    lookup_vert_hit ((b.lookup_or_create_vert (mkUVVertex ((((m.primAt mp).get_other_uv_vertex ((b.vert cv1).vertex) ((b.vert cv2).vertex)).getD default).vertex) uvu)).1) (mkUVVertex ((get_uv_vert (m.primAt mp) ((b.vert cv2).vertex)).vertex) ((b.vert cv2).uv)) (hasVertRecord_mono hkb1 hh2)
  have hs1len : ((b.lookup_or_create_vert (mkUVVertex ((((m.primAt mp).get_other_uv_vertex ((b.vert cv1).vertex) ((b.vert cv2).vertex)).getD default).vertex) uvu)).1).uv_vertices.length = b.uv_vertices.length + 1 := by
    rw [s1v, List.length_append]
    rfl
  have hcell : ((b.lookup_or_create_vert (mkUVVertex ((((m.primAt mp).get_other_uv_vertex ((b.vert cv1).vertex) ((b.vert cv2).vertex)).getD default).vertex) uvu)).1).uv_vertices.getD b.uv_vertices.length default =
      { (mkUVVertex ((((m.primAt mp).get_other_uv_vertex ((b.vert cv1).vertex) ((b.vert cv2).vertex)).getD default).vertex) uvu) with uv_edges := [] } := by
    rw [s1v, List.getD_append_right _ _ _ _ (le_refl _), Nat.sub_self]
    rfl
  have hs1at : (((b.lookup_or_create_vert (mkUVVertex ((((m.primAt mp).get_other_uv_vertex ((b.vert cv1).vertex) ((b.vert cv2).vertex)).getD default).vertex) uvu)).1).vert b.uv_vertices.length).uv = uvu ∧
      (((b.lookup_or_create_vert (mkUVVertex ((((m.primAt mp).get_other_uv_vertex ((b.vert cv1).vertex) ((b.vert cv2).vertex)).getD default).vertex) uvu)).1).vert b.uv_vertices.length).vertex = (((m.primAt mp).get_other_uv_vertex ((b.vert cv1).vertex) ((b.vert cv2).vertex)).getD default).vertex := by
    constructor
    · show ((((b.lookup_or_create_vert (mkUVVertex ((((m.primAt mp).get_other_uv_vertex ((b.vert cv1).vertex) ((b.vert cv2).vertex)).getD default).vertex) uvu)).1).uv_vertices.getD b.uv_vertices.length default)).uv = uvu
      rw [hcell]
      rfl
    · show ((((b.lookup_or_create_vert (mkUVVertex ((((m.primAt mp).get_other_uv_vertex ((b.vert cv1).vertex) ((b.vert cv2).vertex)).getD default).vertex) uvu)).1).uv_vertices.getD b.uv_vertices.length default)).vertex = (((m.primAt mp).get_other_uv_vertex ((b.vert cv1).vertex) ((b.vert cv2).vertex)).getD default).vertex
      rw [hcell]
      rfl
  unfold add_uv_primitive_shared_uv_edge
  simp only []
  rw [hr1, hr2]
  generalize hgS : ((b.lookup_or_create_vert (mkUVVertex ((((m.primAt mp).get_other_uv_vertex ((b.vert cv1).vertex) ((b.vert cv2).vertex)).getD default).vertex) uvu)).1) = X
  rw [hgS] at hkb1 hs1len hs1at s1p s1e s1b
  generalize hg0 : (b.lookup_or_create_vert (mkUVVertex ((((m.primAt mp).get_other_uv_vertex ((b.vert cv1).vertex) ((b.vert cv2).vertex)).getD default).vertex) uvu)).2 = i0
  generalize hg1 : (X.lookup_or_create_vert (mkUVVertex ((get_uv_vert (m.primAt mp) ((b.vert cv1).vertex)).vertex) ((b.vert cv1).uv))).2 = i1
  generalize hg2 : (X.lookup_or_create_vert (mkUVVertex ((get_uv_vert (m.primAt mp) ((b.vert cv2).vertex)).vertex) ((b.vert cv2).uv))).2 = i2
  have hE1 := lookup_edge_fields X i1 i2
  have hE2 := lookup_edge_fields (X.lookup_or_create_edge i1 i2).1 i2 i0
  have hE3 := lookup_edge_fields ((X.lookup_or_create_edge i1 i2).1.lookup_or_create_edge
    i2 i0).1 i0 i1
  have hK3 : Keep X (((X.lookup_or_create_edge i1 i2).1.lookup_or_create_edge
      i2 i0).1.lookup_or_create_edge i0 i1).1 :=
    Keep.of_eq (hE3.1.trans (hE2.1.trans hE1.1)) (hE3.2.2.trans (hE2.2.2.trans hE1.2.2))
  obtain ⟨hPk, hPl, hPp⟩ := push_prim_shape (((X.lookup_or_create_edge
    i1 i2).1.lookup_or_create_edge i2 i0).1.lookup_or_create_edge i0 i1).1 mp
    (X.lookup_or_create_edge i1 i2).2
    ((X.lookup_or_create_edge i1 i2).1.lookup_or_create_edge i2 i0).2
    (((X.lookup_or_create_edge i1 i2).1.lookup_or_create_edge i2 i0).1.lookup_or_create_edge
      i0 i1).2
  have hKXF := keep_trans hK3 hPk
  refine ⟨keep_trans (keep_trans hkb1 hK3) hPk, ?_, ?_, ?_, ?_, ?_⟩
  · rw [hPl, hE3.1, hE2.1, hE1.1]
    exact hs1len
  · have hn : b.uv_vertices.length < X.uv_vertices.length := by omega
    rw [(hKXF.2.1 b.uv_vertices.length hn).1]
    exact hs1at.1
  · have hn : b.uv_vertices.length < X.uv_vertices.length := by omega
    rw [(hKXF.2.1 b.uv_vertices.length hn).2]
    exact hs1at.2
  · rw [hPp, List.length_append, hE3.2.1, hE2.2.1, hE1.2.1, s1p]
    rfl
  · rw [hPk.2.2, hE3.2.2, hE2.2.2, hE1.2.2, s1b]

/-- C5 (amended): on the `num_to_add == 0` path, `extend_at_vert` runs
`extendAtVertZero`; under the stated non-degeneracy conditions (the corner's
connected vertices have records, the midpoint identity is new for both
resolved fill primitives, and the two third corners differ) exactly two
primitives are appended and exactly two new UV vertex records are created --
one per `add_uv_primitive_shared_uv_edge` call, both placed at
`corner.uv(0.5, min_uv_distance)` but with distinct mesh vertices, not a
single shared record; the corner's two border edges are replaced in place by
edges of the two new primitives and the border cycle's edge count is
unchanged. -/
theorem claim_C5 (m : MeshData) (cuv : CornerUV) (fanFuel : ℕ) (isl : UVIsland)
    (c : UVBorderCorner) (d : ℚ) (fan0 : Fan) (fp1 fp2 ov1 ov2 : ℕ)
    (hb : c.borderPos < isl.borders.length)
    (hfp : c.firstPos < (isl.borders.getD c.borderPos default).edges.length)
    (hsp : c.secondPos < (isl.borders.getD c.borderPos default).edges.length)
    (hne : c.firstPos ≠ c.secondPos)
    (hfan : mkFan m fanFuel ((isl.vert (isl.bedgeVertId ((isl.borders.getD c.borderPos default).edges.getD c.secondPos default) 0)).vertex) = some fan0)
    (hfull : fan0.full = true)
    (hnum : countNumToAdd (markSegments isl m (isl.vert (isl.bedgeVertId ((isl.borders.getD c.borderPos default).edges.getD c.secondPos default) 0))
      (initFanUV isl (isl.vert (isl.bedgeVertId ((isl.borders.getD c.borderPos default).edges.getD c.secondPos default) 0)) m fan0)) = 0)
    (hfp12 : (fp1, fp2) = resolveFillPrims isl m c)
    (hov1 : ov1 = (((m.primAt fp1).get_other_uv_vertex ((isl.vert (isl.bedgeVertId ((isl.borders.getD c.borderPos default).edges.getD c.firstPos default) 1)).vertex)
      ((isl.vert (isl.bedgeVertId ((isl.borders.getD c.borderPos default).edges.getD c.firstPos default) 0)).vertex)).getD default).vertex)
    (hov2 : ov2 = (((m.primAt fp2).get_other_uv_vertex ((isl.vert (isl.bedgeVertId ((isl.borders.getD c.borderPos default).edges.getD c.secondPos default) 0)).vertex)
      ((isl.vert (isl.bedgeVertId ((isl.borders.getD c.borderPos default).edges.getD c.secondPos default) 1)).vertex)).getD default).vertex)
    (hc3 : isl.bedgeVertId ((isl.borders.getD c.borderPos default).edges.getD c.secondPos default) 0 < isl.uv_vertices.length)
    (hc4 : isl.bedgeVertId ((isl.borders.getD c.borderPos default).edges.getD c.secondPos default) 1 < isl.uv_vertices.length)
    (hm1 : hasVertRecord isl ov1 (cuv isl c (1 / 2) d) = false)
    (hm2 : hasVertRecord isl ov2 (cuv isl c (1 / 2) d) = false)
    (hovne : ov2 ≠ ov1)
    (hh1 : hasVertRecord isl ((get_uv_vert (m.primAt fp1)
      ((isl.vert (isl.bedgeVertId ((isl.borders.getD c.borderPos default).edges.getD c.firstPos default) 1)).vertex)).vertex) ((isl.vert (isl.bedgeVertId ((isl.borders.getD c.borderPos default).edges.getD c.firstPos default) 1)).uv) = true)
    (hh2 : hasVertRecord isl ((get_uv_vert (m.primAt fp1)
      ((isl.vert (isl.bedgeVertId ((isl.borders.getD c.borderPos default).edges.getD c.firstPos default) 0)).vertex)).vertex) ((isl.vert (isl.bedgeVertId ((isl.borders.getD c.borderPos default).edges.getD c.firstPos default) 0)).uv) = true)
    (hh3 : hasVertRecord isl ((get_uv_vert (m.primAt fp2)
      ((isl.vert (isl.bedgeVertId ((isl.borders.getD c.borderPos default).edges.getD c.secondPos default) 0)).vertex)).vertex) ((isl.vert (isl.bedgeVertId ((isl.borders.getD c.borderPos default).edges.getD c.secondPos default) 0)).uv) = true)
    (hh4 : hasVertRecord isl ((get_uv_vert (m.primAt fp2)
      ((isl.vert (isl.bedgeVertId ((isl.borders.getD c.borderPos default).edges.getD c.secondPos default) 1)).vertex)).vertex) ((isl.vert (isl.bedgeVertId ((isl.borders.getD c.borderPos default).edges.getD c.secondPos default) 1)).uv) = true) :
    extend_at_vert m cuv fanFuel isl c d = some (extendAtVertZero m cuv isl c d, true) ∧
    (extendAtVertZero m cuv isl c d).uv_vertices.length = isl.uv_vertices.length + 2 ∧
    ((extendAtVertZero m cuv isl c d).vert isl.uv_vertices.length).uv = cuv isl c (1 / 2) d ∧
    ((extendAtVertZero m cuv isl c d).vert (isl.uv_vertices.length + 1)).uv = cuv isl c (1 / 2) d ∧
    ((extendAtVertZero m cuv isl c d).vert isl.uv_vertices.length).vertex = ov1 ∧
    ((extendAtVertZero m cuv isl c d).vert (isl.uv_vertices.length + 1)).vertex = ov2 ∧
    (∀ j, j < isl.uv_vertices.length →
      ((extendAtVertZero m cuv isl c d).vert j).uv = (isl.vert j).uv ∧
      ((extendAtVertZero m cuv isl c d).vert j).vertex = (isl.vert j).vertex) ∧
    (extendAtVertZero m cuv isl c d).uv_primitives.length = isl.uv_primitives.length + 2 ∧
    (extendAtVertZero m cuv isl c d).borders.length = isl.borders.length ∧
    ((extendAtVertZero m cuv isl c d).borders.getD c.borderPos default).edges.length =
      (isl.borders.getD c.borderPos default).edges.length ∧
    (((extendAtVertZero m cuv isl c d).borders.getD c.borderPos default).edges.getD c.firstPos
      default).uv_primitive = isl.uv_primitives.length ∧
    (((extendAtVertZero m cuv isl c d).borders.getD c.borderPos default).edges.getD c.secondPos
      default).uv_primitive = isl.uv_primitives.length + 1 ∧
    (∀ j, j ≠ c.firstPos → j ≠ c.secondPos →
      ((extendAtVertZero m cuv isl c d).borders.getD c.borderPos default).edges.getD j default =
      (isl.borders.getD c.borderPos default).edges.getD j default) := by
  have hlink : extend_at_vert m cuv fanFuel isl c d = some (extendAtVertZero m cuv isl c d, true) := by
    unfold extend_at_vert
    simp only []
    rw [hfan]
    simp only []
    rw [if_neg (by rw [hfull]; decide), if_pos hnum]
  refine ⟨hlink, ?_⟩
  rw [hov1] at hm1
  obtain ⟨kA, hAlen, hAatu, hAatv, hAplen, hAbord⟩ :=
    add_shared_shape isl m (isl.bedgeVertId ((isl.borders.getD c.borderPos default).edges.getD c.firstPos default) 1) (isl.bedgeVertId ((isl.borders.getD c.borderPos default).edges.getD c.firstPos default) 0) (cuv isl c (1 / 2) d) fp1 hm1 hh1 hh2
  rw [← hov1] at hAatv
  unfold extendAtVertZero
  simp only []
  rw [← hfp12]
  simp only []
  generalize hgA : add_uv_primitive_shared_uv_edge isl m (isl.bedgeVertId ((isl.borders.getD c.borderPos default).edges.getD c.firstPos default) 1) (isl.bedgeVertId ((isl.borders.getD c.borderPos default).edges.getD c.firstPos default) 0) (cuv isl c (1 / 2) d) fp1 = A
  rw [hgA] at kA hAlen hAatu hAatv hAplen hAbord
  have hA3u : (A.vert (isl.bedgeVertId ((isl.borders.getD c.borderPos default).edges.getD c.secondPos default) 0)).uv = (isl.vert (isl.bedgeVertId ((isl.borders.getD c.borderPos default).edges.getD c.secondPos default) 0)).uv := (kA.2.1 _ hc3).1
  have hA3v : (A.vert (isl.bedgeVertId ((isl.borders.getD c.borderPos default).edges.getD c.secondPos default) 0)).vertex = (isl.vert (isl.bedgeVertId ((isl.borders.getD c.borderPos default).edges.getD c.secondPos default) 0)).vertex := (kA.2.1 _ hc3).2
  have hA4u : (A.vert (isl.bedgeVertId ((isl.borders.getD c.borderPos default).edges.getD c.secondPos default) 1)).uv = (isl.vert (isl.bedgeVertId ((isl.borders.getD c.borderPos default).edges.getD c.secondPos default) 1)).uv := (kA.2.1 _ hc4).1
  have hA4v : (A.vert (isl.bedgeVertId ((isl.borders.getD c.borderPos default).edges.getD c.secondPos default) 1)).vertex = (isl.vert (isl.bedgeVertId ((isl.borders.getD c.borderPos default).edges.getD c.secondPos default) 1)).vertex := (kA.2.1 _ hc4).2
  have hm0A : hasVertRecord A ((((m.primAt fp2).get_other_uv_vertex
      ((A.vert (isl.bedgeVertId ((isl.borders.getD c.borderPos default).edges.getD c.secondPos default) 0)).vertex) ((A.vert (isl.bedgeVertId ((isl.borders.getD c.borderPos default).edges.getD c.secondPos default) 1)).vertex)).getD default).vertex)
      (cuv isl c (1 / 2) d) = false := by
    rw [hA3v, hA4v, ← hov2]
    cases hcon : hasVertRecord A ov2 (cuv isl c (1 / 2) d) with
    | false => rfl
    | true =>
      exfalso
      obtain ⟨j, hj, hu, hv⟩ := (hasVertRecord_iff A ov2 (cuv isl c (1 / 2) d)).mp hcon
      by_cases hjl : j < isl.uv_vertices.length
      · have hKj := kA.2.1 j hjl
        have hisl : hasVertRecord isl ov2 (cuv isl c (1 / 2) d) = true :=
          (hasVertRecord_iff isl ov2 (cuv isl c (1 / 2) d)).mpr
            ⟨j, hjl, hKj.1.symm.trans hu, hKj.2.symm.trans hv⟩
        rw [hm2] at hisl
        cases hisl
      · have hje : j = isl.uv_vertices.length := by
          rw [hAlen] at hj
          omega
        rw [hje, hAatv] at hv
        exact hovne hv.symm
  have hh3A : hasVertRecord A ((get_uv_vert (m.primAt fp2)
      ((A.vert (isl.bedgeVertId ((isl.borders.getD c.borderPos default).edges.getD c.secondPos default) 0)).vertex)).vertex) ((A.vert (isl.bedgeVertId ((isl.borders.getD c.borderPos default).edges.getD c.secondPos default) 0)).uv) = true := by
    rw [hA3v, hA3u]
    exact hasVertRecord_mono kA hh3
  have hh4A : hasVertRecord A ((get_uv_vert (m.primAt fp2)
      ((A.vert (isl.bedgeVertId ((isl.borders.getD c.borderPos default).edges.getD c.secondPos default) 1)).vertex)).vertex) ((A.vert (isl.bedgeVertId ((isl.borders.getD c.borderPos default).edges.getD c.secondPos default) 1)).uv) = true := by
    rw [hA4v, hA4u]
    exact hasVertRecord_mono kA hh4
  obtain ⟨kB, hBlen, hBatu, hBatv, hBplen, hBbord⟩ :=
    add_shared_shape A m (isl.bedgeVertId ((isl.borders.getD c.borderPos default).edges.getD c.secondPos default) 0) (isl.bedgeVertId ((isl.borders.getD c.borderPos default).edges.getD c.secondPos default) 1) (cuv isl c (1 / 2) d) fp2 hm0A hh3A hh4A
  generalize hgB : add_uv_primitive_shared_uv_edge A m (isl.bedgeVertId ((isl.borders.getD c.borderPos default).edges.getD c.secondPos default) 0) (isl.bedgeVertId ((isl.borders.getD c.borderPos default).edges.getD c.secondPos default) 1) (cuv isl c (1 / 2) d) fp2 = B
  rw [hgB] at kB hBlen hBatu hBatv hBplen hBbord
  have hbB : c.borderPos < B.borders.length := by
    rw [hBbord, hAbord]
    exact hb
  have hnlt : isl.uv_vertices.length < A.uv_vertices.length := by omega
  refine ⟨?_, ?_, ?_, ?_, ?_, ?_, ?_, ?_, ?_, ?_, ?_, ?_⟩
  · show B.uv_vertices.length = isl.uv_vertices.length + 2
    rw [hBlen, hAlen]
  · show (B.vert isl.uv_vertices.length).uv = cuv isl c (1 / 2) d
    rw [(kB.2.1 _ hnlt).1]
    exact hAatu
  · show (B.vert (isl.uv_vertices.length + 1)).uv = cuv isl c (1 / 2) d
    rw [hAlen] at hBatu
    exact hBatu
  · show (B.vert isl.uv_vertices.length).vertex = ov1
    rw [(kB.2.1 _ hnlt).2]
    exact hAatv
  · show (B.vert (isl.uv_vertices.length + 1)).vertex = ov2
    rw [hA3v, hA4v, ← hov2] at hBatv
    rw [hAlen] at hBatv
    exact hBatv
  · intro j hj
    have hk := (keep_trans kA kB).2.1 j hj
    exact ⟨hk.1, hk.2⟩
  · show B.uv_primitives.length = isl.uv_primitives.length + 2
    rw [hBplen, hAplen]
  · rw [List.length_set, hBbord, hAbord]
  · rw [getD_set, if_pos ⟨rfl, hbB⟩]
    rw [List.length_set, List.length_set]
  · rw [getD_set, if_pos ⟨rfl, hbB⟩]
    rw [getD_set, if_neg (fun hcc => hne hcc.1.symm), getD_set, if_pos ⟨rfl, hfp⟩]
    split
    · rw [hAplen]
      simp
    · rw [hAplen]
      simp
  · rw [getD_set, if_pos ⟨rfl, hbB⟩]
    rw [getD_set, if_pos ⟨rfl, by rw [List.length_set]; exact hsp⟩]
    split
    · rw [hBplen, hAplen]
      simp
    · rw [hBplen, hAplen]
      simp
  · intro j hj1 hj2
    rw [getD_set, if_pos ⟨rfl, hbB⟩]
    rw [getD_set, if_neg (fun hcc => hj2 hcc.1.symm),
      getD_set, if_neg (fun hcc => hj1 hcc.1.symm)]

/-- Concrete mesh for C5: an umbrella of three triangles around mesh vertex
0 (ring vertices 1, 2, 3). -/
def mC5 : MeshData :=
  { verts := [⟨0, [0, 1, 2]⟩, ⟨1, [0, 3, 5]⟩, ⟨2, [1, 3, 4]⟩, ⟨3, [2, 4, 5]⟩]
    medges := [⟨0, 1, [0, 2]⟩, ⟨0, 2, [0, 1]⟩, ⟨0, 3, [1, 2]⟩,
               ⟨1, 2, [0]⟩, ⟨2, 3, [1]⟩, ⟨3, 1, [2]⟩]
    mprims := [⟨0, [⟨0, (0, 0)⟩, ⟨1, (0, 10)⟩, ⟨2, (10, 0)⟩], [0, 3, 1], 0⟩,
               ⟨1, [⟨0, (0, 0)⟩, ⟨2, (10, 0)⟩, ⟨3, (10, 10)⟩], [1, 4, 2], 0⟩,
               ⟨2, [⟨0, (0, 0)⟩, ⟨3, (10, 10)⟩, ⟨1, (0, 10)⟩], [2, 5, 0], 0⟩] }

/-- Concrete island for C5: records for all four mesh vertices, the three UV
edges around the centre, and a border whose corner sits at the centre
vertex. -/
def islC5 : UVIsland :=
  { uv_vertices := [⟨1, (0, 10), [0], ⟨true, false⟩⟩, ⟨0, (0, 0), [0, 1, 2], ⟨true, false⟩⟩,
                    ⟨2, (10, 0), [1], ⟨true, false⟩⟩, ⟨3, (10, 10), [2], ⟨false, false⟩⟩]
    uv_edges := [⟨0, 1, [0]⟩, ⟨1, 2, [1]⟩, ⟨1, 3, [2]⟩]
    uv_primitives := [⟨0, [0]⟩, ⟨1, [1]⟩, ⟨2, [2]⟩]
    borders := [⟨[{ edge := 0, reverse_order := false, uv_primitive := 0, tag := false
                    prev_index := 1, index := 0, next_index := 1, border_index := 0 },
                  { edge := 1, reverse_order := false, uv_primitive := 1, tag := false
                    prev_index := 0, index := 1, next_index := 0, border_index := 0 }]⟩] }

/-- Constant corner-UV routine for C5: the midpoint is placed at `(5, 5)`. -/
def cuvC5 : CornerUV := fun _ _ _ _ => (5, 5)

/-- The corner of `islC5` between border edges 0 and 1. -/
def cC5 : UVBorderCorner := ⟨0, 0, 1, 0⟩

/-- C5 counterexample: on this corner the fan is full, `count_num_to_add`
is 0 and `find_fill_border` finds primitive 0, yet the zero path appends TWO
new UV vertex records -- `(mesh 2, (5,5))` and `(mesh 1, (5,5))`, one per
`add_uv_primitive_shared_uv_edge` call -- both at the angular midpoint but
with distinct mesh vertices, not the single shared new UV vertex the claim
states. -/
theorem claim_C5_counterexample :
    find_fill_border_corner islC5 mC5 cC5 = some 0 ∧
    (mkFan mC5 9 ((islC5.vert 1).vertex)).map (fun f => f.full) = some true ∧
    extend_at_vert mC5 cuvC5 9 islC5 cC5 1 = some (extendAtVertZero mC5 cuvC5 islC5 cC5 1, true) ∧
    (extendAtVertZero mC5 cuvC5 islC5 cC5 1).uv_vertices.length = islC5.uv_vertices.length + 2 ∧
    ((extendAtVertZero mC5 cuvC5 islC5 cC5 1).vert 4).uv = (5, 5) ∧
    ((extendAtVertZero mC5 cuvC5 islC5 cC5 1).vert 5).uv = (5, 5) ∧
    ((extendAtVertZero mC5 cuvC5 islC5 cC5 1).vert 4).vertex = 2 ∧
    ((extendAtVertZero mC5 cuvC5 islC5 cC5 1).vert 5).vertex = 1 := by
  decide

/-- Witness for the amended C5 at the concrete umbrella corner. -/
theorem claim_C5_witness :
    ((cC5.borderPos < islC5.borders.length) ∧
     (cC5.firstPos < (islC5.borders.getD cC5.borderPos default).edges.length) ∧
     (cC5.secondPos < (islC5.borders.getD cC5.borderPos default).edges.length) ∧
     (cC5.firstPos ≠ cC5.secondPos) ∧
     (mkFan mC5 9 ((islC5.vert (islC5.bedgeVertId ((islC5.borders.getD cC5.borderPos default).edges.getD cC5.secondPos default) 0)).vertex) = some ((mkFan mC5 9 ((islC5.vert (islC5.bedgeVertId ((islC5.borders.getD cC5.borderPos default).edges.getD cC5.secondPos default) 0)).vertex)).getD default)) ∧
     (((mkFan mC5 9 ((islC5.vert (islC5.bedgeVertId ((islC5.borders.getD cC5.borderPos default).edges.getD cC5.secondPos default) 0)).vertex)).getD default).full = true) ∧
     (countNumToAdd (markSegments islC5 mC5 (islC5.vert (islC5.bedgeVertId ((islC5.borders.getD cC5.borderPos default).edges.getD cC5.secondPos default) 0)) (initFanUV islC5 (islC5.vert (islC5.bedgeVertId ((islC5.borders.getD cC5.borderPos default).edges.getD cC5.secondPos default) 0)) mC5 ((mkFan mC5 9 ((islC5.vert (islC5.bedgeVertId ((islC5.borders.getD cC5.borderPos default).edges.getD cC5.secondPos default) 0)).vertex)).getD default))) = 0) ∧
     (((0 : ℕ), (0 : ℕ)) = resolveFillPrims islC5 mC5 cC5) ∧
     ((2 : ℕ) = (((mC5.primAt 0).get_other_uv_vertex ((islC5.vert (islC5.bedgeVertId ((islC5.borders.getD cC5.borderPos default).edges.getD cC5.firstPos default) 1)).vertex) ((islC5.vert (islC5.bedgeVertId ((islC5.borders.getD cC5.borderPos default).edges.getD cC5.firstPos default) 0)).vertex)).getD default).vertex) ∧
     ((1 : ℕ) = (((mC5.primAt 0).get_other_uv_vertex ((islC5.vert (islC5.bedgeVertId ((islC5.borders.getD cC5.borderPos default).edges.getD cC5.secondPos default) 0)).vertex) ((islC5.vert (islC5.bedgeVertId ((islC5.borders.getD cC5.borderPos default).edges.getD cC5.secondPos default) 1)).vertex)).getD default).vertex) ∧
     (islC5.bedgeVertId ((islC5.borders.getD cC5.borderPos default).edges.getD cC5.secondPos default) 0 < islC5.uv_vertices.length) ∧
     (islC5.bedgeVertId ((islC5.borders.getD cC5.borderPos default).edges.getD cC5.secondPos default) 1 < islC5.uv_vertices.length) ∧
     (hasVertRecord islC5 2 (cuvC5 islC5 cC5 (1 / 2) 1) = false) ∧
     (hasVertRecord islC5 1 (cuvC5 islC5 cC5 (1 / 2) 1) = false) ∧
     ((1 : ℕ) ≠ 2) ∧
     (hasVertRecord islC5 ((get_uv_vert (mC5.primAt 0) ((islC5.vert (islC5.bedgeVertId ((islC5.borders.getD cC5.borderPos default).edges.getD cC5.firstPos default) 1)).vertex)).vertex) ((islC5.vert (islC5.bedgeVertId ((islC5.borders.getD cC5.borderPos default).edges.getD cC5.firstPos default) 1)).uv) = true) ∧
     (hasVertRecord islC5 ((get_uv_vert (mC5.primAt 0) ((islC5.vert (islC5.bedgeVertId ((islC5.borders.getD cC5.borderPos default).edges.getD cC5.firstPos default) 0)).vertex)).vertex) ((islC5.vert (islC5.bedgeVertId ((islC5.borders.getD cC5.borderPos default).edges.getD cC5.firstPos default) 0)).uv) = true) ∧
     (hasVertRecord islC5 ((get_uv_vert (mC5.primAt 0) ((islC5.vert (islC5.bedgeVertId ((islC5.borders.getD cC5.borderPos default).edges.getD cC5.secondPos default) 0)).vertex)).vertex) ((islC5.vert (islC5.bedgeVertId ((islC5.borders.getD cC5.borderPos default).edges.getD cC5.secondPos default) 0)).uv) = true) ∧
     (hasVertRecord islC5 ((get_uv_vert (mC5.primAt 0) ((islC5.vert (islC5.bedgeVertId ((islC5.borders.getD cC5.borderPos default).edges.getD cC5.secondPos default) 1)).vertex)).vertex) ((islC5.vert (islC5.bedgeVertId ((islC5.borders.getD cC5.borderPos default).edges.getD cC5.secondPos default) 1)).uv) = true)) ∧
    (extend_at_vert mC5 cuvC5 9 islC5 cC5 1 = some (extendAtVertZero mC5 cuvC5 islC5 cC5 1, true) ∧
    (extendAtVertZero mC5 cuvC5 islC5 cC5 1).uv_vertices.length = islC5.uv_vertices.length + 2 ∧
    ((extendAtVertZero mC5 cuvC5 islC5 cC5 1).vert islC5.uv_vertices.length).uv = cuvC5 islC5 cC5 (1 / 2) 1 ∧
    ((extendAtVertZero mC5 cuvC5 islC5 cC5 1).vert (islC5.uv_vertices.length + 1)).uv = cuvC5 islC5 cC5 (1 / 2) 1 ∧
    ((extendAtVertZero mC5 cuvC5 islC5 cC5 1).vert islC5.uv_vertices.length).vertex = 2 ∧
    ((extendAtVertZero mC5 cuvC5 islC5 cC5 1).vert (islC5.uv_vertices.length + 1)).vertex = 1 ∧
    (∀ j, j < islC5.uv_vertices.length →
      ((extendAtVertZero mC5 cuvC5 islC5 cC5 1).vert j).uv = (islC5.vert j).uv ∧
      ((extendAtVertZero mC5 cuvC5 islC5 cC5 1).vert j).vertex = (islC5.vert j).vertex) ∧
    (extendAtVertZero mC5 cuvC5 islC5 cC5 1).uv_primitives.length = islC5.uv_primitives.length + 2 ∧
    (extendAtVertZero mC5 cuvC5 islC5 cC5 1).borders.length = islC5.borders.length ∧
    ((extendAtVertZero mC5 cuvC5 islC5 cC5 1).borders.getD cC5.borderPos default).edges.length =
      (islC5.borders.getD cC5.borderPos default).edges.length ∧
    (((extendAtVertZero mC5 cuvC5 islC5 cC5 1).borders.getD cC5.borderPos default).edges.getD cC5.firstPos
      default).uv_primitive = islC5.uv_primitives.length ∧
    (((extendAtVertZero mC5 cuvC5 islC5 cC5 1).borders.getD cC5.borderPos default).edges.getD cC5.secondPos
      default).uv_primitive = islC5.uv_primitives.length + 1 ∧
    (∀ j, j ≠ cC5.firstPos → j ≠ cC5.secondPos →
      ((extendAtVertZero mC5 cuvC5 islC5 cC5 1).borders.getD cC5.borderPos default).edges.getD j default =
      (islC5.borders.getD cC5.borderPos default).edges.getD j default))  := by
  refine ⟨by decide, ?_⟩
  apply claim_C5 mC5 cuvC5 9 islC5 cC5 1
      ((mkFan mC5 9 ((islC5.vert (islC5.bedgeVertId ((islC5.borders.getD cC5.borderPos
        default).edges.getD cC5.secondPos default) 0)).vertex)).getD default) 0 0 2 1 <;> decide

/-!  ## Claim C6: the `num_to_add > 0` extension path -/

/-- Does the island store a vertex record at this UV coordinate? -/
def hasUVCoord (isl : UVIsland) (uv : Q2) : Bool :=
  isl.uv_vertices.any (fun x => x.uv == uv)

/-- Positional reading of `hasUVCoord`. -/
theorem hasUVCoord_iff (isl : UVIsland) (uv : Q2) :
    hasUVCoord isl uv = true ↔
      ∃ j, j < isl.uv_vertices.length ∧ (isl.vert j).uv = uv := by
  unfold hasUVCoord
  rw [List.any_eq_true]
  constructor
  · rintro ⟨x, hx, hp⟩
    rw [List.mem_iff_getElem] at hx
    obtain ⟨j, hj, hxe⟩ := hx
    rw [beq_iff_eq] at hp
    refine ⟨j, hj, ?_⟩
    unfold UVIsland.vert
    rw [List.getD_eq_getElem _ _ hj, hxe]
    exact hp
  · rintro ⟨j, hj, hu⟩
    refine ⟨isl.vert j, ?_, beq_iff_eq.mpr hu⟩
    unfold UVIsland.vert
    rw [List.getD_eq_getElem _ _ hj]
    exact isl.uv_vertices.getElem_mem hj

/-- `hasUVCoord` is monotone along `Keep`. -/
theorem hasUVCoord_mono {a b : UVIsland} (k : Keep a b) {uv : Q2}
    (h : hasUVCoord a uv = true) : hasUVCoord b uv = true := by
  obtain ⟨j, hj, hu⟩ := (hasUVCoord_iff a uv).mp h
  exact (hasUVCoord_iff b uv).mpr ⟨j, lt_of_lt_of_le hj k.1, (k.2.1 j hj).1.trans hu⟩

/-- Vertex lookup does not touch the primitive store. -/
theorem lookup_vert_prims (isl : UVIsland) (t : UVVertex) :
    ((isl.lookup_or_create_vert t).1).uv_primitives = isl.uv_primitives := by
  unfold UVIsland.lookup_or_create_vert
  cases isl.uv_vertices.findIdx? (fun v => v.uv == t.uv && v.vertex == t.vertex) with
  | some i => rfl
  | none => rfl

/-- After a lookup the template's UV coordinate has a record. -/
theorem lookup_vert_hasuv (isl : UVIsland) (t : UVVertex) :
    hasUVCoord ((isl.lookup_or_create_vert t).1) t.uv = true := by
  unfold UVIsland.lookup_or_create_vert
  cases hfi : isl.uv_vertices.findIdx? (fun v => v.uv == t.uv && v.vertex == t.vertex) with
  | some i =>
    obtain ⟨hlt, hp, _⟩ := findIdx?_spec _ _ _ hfi
    rw [Bool.and_eq_true, beq_iff_eq, beq_iff_eq] at hp
    exact (hasUVCoord_iff isl t.uv).mpr ⟨i, hlt, hp.1⟩
  | none =>
    refine (hasUVCoord_iff _ t.uv).mpr ⟨isl.uv_vertices.length, ?_, ?_⟩
    · simp
    · unfold UVIsland.vert
      simp only []
      rw [List.getD_append_right _ _ _ _ (le_refl _), Nat.sub_self]
      rfl

/-- The length of a reindexed border. -/
theorem update_indexes_length (bi : ℕ) (l : List UVBorderEdge) :
    (update_indexes bi l).length = l.length := by
  unfold update_indexes
  simp

/-- One fill-loop step: either it fails (island, collected edges and a
cleared marker) or it succeeds, keeping identities and borders, adding one
primitive and one border edge, keeping the marker, and recording a vertex at
the factor-`(i+1)/(n+1)` corner coordinate. -/
theorem extendStepFn_facts (m : MeshData) (cuv : CornerUV) (isl : UVIsland)
    (c : UVBorderCorner) (d : ℚ) (uvv : UVVertex) (n : ℕ)
    (st : UVIsland × Fan × ℕ × List UVBorderEdge × Bool) (i : ℕ) :
    ((extendStepFn m cuv isl c d uvv n st i).1 = st.1 ∧
     (extendStepFn m cuv isl c d uvv n st i).2.2.2.1 = st.2.2.2.1 ∧
     (extendStepFn m cuv isl c d uvv n st i).2.2.2.2 = false) ∨
    (Keep st.1 (extendStepFn m cuv isl c d uvv n st i).1 ∧
     (extendStepFn m cuv isl c d uvv n st i).1.uv_primitives.length =
       st.1.uv_primitives.length + 1 ∧
     (extendStepFn m cuv isl c d uvv n st i).2.2.2.1.length =
       st.2.2.2.1.length + 1 ∧
     (extendStepFn m cuv isl c d uvv n st i).2.2.2.2 = st.2.2.2.2 ∧
     hasUVCoord (extendStepFn m cuv isl c d uvv n st i).1
       (cuv isl c (((i : ℚ) + 1) / ((n : ℚ) + 1)) d) = true) := by
  unfold extendStepFn
  simp only []
  split
  · exact Or.inl ⟨rfl, rfl, rfl⟩
  · rename_i jfp heq
    refine Or.inr ⟨?_, ?_, ?_, rfl, ?_⟩
    · exact keep_trans (keep_trans (keep_trans (keep_lookup_vert st.1 _)
        (keep_lookup_vert _ _)) (keep_lookup_vert _ _)) (add_fill_shape _ _ _ _ _).1
    · rw [(add_fill_shape _ _ _ _ _).2.2.1, lookup_vert_prims, lookup_vert_prims,
        lookup_vert_prims]
    · rw [List.length_append]
      rfl
    · refine hasUVCoord_mono (add_fill_shape _ _ _ _ _).1 ?_
      exact lookup_vert_hasuv _ _

/-- The fill loop: identities and borders are kept; when it ends with the
marker still set, every iteration succeeded -- the marker was set at entry,
one border edge and one primitive were collected per item, and every item's
corner coordinate has a vertex record. -/
theorem extendFold_facts (m : MeshData) (cuv : CornerUV) (isl : UVIsland)
    (c : UVBorderCorner) (d : ℚ) (uvv : UVVertex) (n : ℕ) :
    ∀ (l : List ℕ) (st : UVIsland × Fan × ℕ × List UVBorderEdge × Bool),
      Keep st.1 ((l.foldl (extendStepFn m cuv isl c d uvv n) st)).1 ∧
      (((l.foldl (extendStepFn m cuv isl c d uvv n) st)).2.2.2.2 = true →
        st.2.2.2.2 = true ∧
        ((l.foldl (extendStepFn m cuv isl c d uvv n) st)).2.2.2.1.length =
          st.2.2.2.1.length + l.length ∧
        ((l.foldl (extendStepFn m cuv isl c d uvv n) st)).1.uv_primitives.length =
          st.1.uv_primitives.length + l.length ∧
        ∀ i ∈ l, hasUVCoord ((l.foldl (extendStepFn m cuv isl c d uvv n) st)).1
          (cuv isl c (((i : ℚ) + 1) / ((n : ℚ) + 1)) d) = true) := by
  intro l
  induction l with
  | nil =>
    intro st
    exact ⟨keep_refl _, fun h => ⟨h, rfl, rfl, fun i hi => absurd hi (by simp)⟩⟩
  | cons hd t ih =>
    intro st
    rw [List.foldl_cons]
    obtain ⟨ihK, ihOk⟩ := ih (extendStepFn m cuv isl c d uvv n st hd)
    rcases extendStepFn_facts m cuv isl c d uvv n st hd with
      ⟨hf1, hf2, hf3⟩ | ⟨hs1, hs2, hs3, hs4, hs5⟩
    · refine ⟨hf1 ▸ ihK, ?_⟩
      intro hok
      obtain ⟨hok2, _, _, _⟩ := ihOk hok
      rw [hf3] at hok2
      cases hok2
    · refine ⟨keep_trans hs1 ihK, ?_⟩
      intro hok
      obtain ⟨hok2, hlenacc, hlenp, hcoords⟩ := ihOk hok
      rw [hs4] at hok2
      refine ⟨hok2, ?_, ?_, ?_⟩
      · rw [hlenacc, hs3, List.length_cons]
        omega
      · rw [hlenp, hs2, List.length_cons]
        omega
      · intro i hi
        rcases List.mem_cons.mp hi with hh | ht
        · rw [hh]
          exact hasUVCoord_mono ihK hs5
        · exact hcoords i ht

/-- The final fill segment: identities and borders kept; a set marker on
exit means it was set at entry and one border edge and one primitive were
added. -/
theorem extendFinalSeg_facts (m : MeshData) (isl : UVIsland) (secondE : UVBorderEdge)
    (uvv : UVVertex) (stL : UVIsland × Fan × ℕ × List UVBorderEdge × Bool) :
    Keep stL.1 (extendFinalSeg m isl secondE uvv stL).1 ∧
    ((extendFinalSeg m isl secondE uvv stL).2.2 = true →
      stL.2.2.2.2 = true ∧
      (extendFinalSeg m isl secondE uvv stL).2.1.length = stL.2.2.2.1.length + 1 ∧
      (extendFinalSeg m isl secondE uvv stL).1.uv_primitives.length =
        stL.1.uv_primitives.length + 1) := by
  unfold extendFinalSeg
  simp only []
  split
  · exact ⟨keep_refl _, fun h => by cases h⟩
  · refine ⟨?_, ?_⟩
    · exact keep_trans (keep_trans (keep_trans (keep_lookup_vert stL.1 _)
        (keep_lookup_vert _ _)) (keep_lookup_vert _ _)) (add_fill_shape _ _ _ _ _).1
    · intro hok
      refine ⟨hok, ?_, ?_⟩
      · rw [List.length_append]
        rfl
      · rw [(add_fill_shape _ _ _ _ _).2.2.1, lookup_vert_prims, lookup_vert_prims,
          lookup_vert_prims]

/-- C6: on the `num_to_add = n > 0` path with every `find_fill_border`
lookup succeeding (the embedded `ok` marker is set), `extend_at_vert` runs
`extendAtVertMany`; `n + 1` new primitives are appended, for each
`i = 0..n-1` the island ends up holding a vertex record at the corner
coordinate `corner.uv((i+1)/(n+1), min_uv_distance)`, and the border at the
corner's border index loses its two consumed edges and gains the `n + 1`
collected ones: its length goes from `len` to `len + n - 1`. -/
theorem claim_C6 (m : MeshData) (cuv : CornerUV) (fanFuel : ℕ) (isl : UVIsland)
    (c : UVBorderCorner) (d : ℚ) (fan0 : Fan) (n : ℕ)
    (hfan : mkFan m fanFuel ((isl.vert (isl.bedgeVertId ((isl.borders.getD c.borderPos default).edges.getD c.secondPos default) 0)).vertex) = some fan0)
    (hfull : fan0.full = true)
    (hn : countNumToAdd (markSegments isl m (isl.vert (isl.bedgeVertId ((isl.borders.getD c.borderPos default).edges.getD c.secondPos default) 0)) (initFanUV isl (isl.vert (isl.bedgeVertId ((isl.borders.getD c.borderPos default).edges.getD c.secondPos default) 0)) m fan0)) = n)
    (hpos : 0 < n)
    (hok : (extendAtVertMany m cuv isl c d (isl.vert (isl.bedgeVertId ((isl.borders.getD c.borderPos default).edges.getD c.secondPos default) 0)) (markSegments isl m (isl.vert (isl.bedgeVertId ((isl.borders.getD c.borderPos default).edges.getD c.secondPos default) 0)) (initFanUV isl (isl.vert (isl.bedgeVertId ((isl.borders.getD c.borderPos default).edges.getD c.secondPos default) 0)) m fan0)) n).2 = true)
    (hbi : ((isl.borders.getD c.borderPos default).edges.getD c.firstPos default).border_index < isl.borders.length)
    (hi0 : ((isl.borders.getD c.borderPos default).edges.getD c.firstPos default).index <
      (isl.borders.getD ((isl.borders.getD c.borderPos default).edges.getD c.firstPos default).border_index default).edges.length)
    (hi1 : ((isl.borders.getD c.borderPos default).edges.getD c.secondPos default).index <
      (isl.borders.getD ((isl.borders.getD c.borderPos default).edges.getD c.firstPos default).border_index default).edges.length)
    (hine : ((isl.borders.getD c.borderPos default).edges.getD c.firstPos default).index ≠ ((isl.borders.getD c.borderPos default).edges.getD c.secondPos default).index) :
    extend_at_vert m cuv fanFuel isl c d = some (extendAtVertMany m cuv isl c d (isl.vert (isl.bedgeVertId ((isl.borders.getD c.borderPos default).edges.getD c.secondPos default) 0)) (markSegments isl m (isl.vert (isl.bedgeVertId ((isl.borders.getD c.borderPos default).edges.getD c.secondPos default) 0)) (initFanUV isl (isl.vert (isl.bedgeVertId ((isl.borders.getD c.borderPos default).edges.getD c.secondPos default) 0)) m fan0)) n) ∧
    (extendAtVertMany m cuv isl c d (isl.vert (isl.bedgeVertId ((isl.borders.getD c.borderPos default).edges.getD c.secondPos default) 0)) (markSegments isl m (isl.vert (isl.bedgeVertId ((isl.borders.getD c.borderPos default).edges.getD c.secondPos default) 0)) (initFanUV isl (isl.vert (isl.bedgeVertId ((isl.borders.getD c.borderPos default).edges.getD c.secondPos default) 0)) m fan0)) n).1.uv_primitives.length = isl.uv_primitives.length + n + 1 ∧
    (∀ i, i < n → hasUVCoord (extendAtVertMany m cuv isl c d (isl.vert (isl.bedgeVertId ((isl.borders.getD c.borderPos default).edges.getD c.secondPos default) 0)) (markSegments isl m (isl.vert (isl.bedgeVertId ((isl.borders.getD c.borderPos default).edges.getD c.secondPos default) 0)) (initFanUV isl (isl.vert (isl.bedgeVertId ((isl.borders.getD c.borderPos default).edges.getD c.secondPos default) 0)) m fan0)) n).1
      (cuv isl c (((i : ℚ) + 1) / ((n : ℚ) + 1)) d) = true) ∧
    (extendAtVertMany m cuv isl c d (isl.vert (isl.bedgeVertId ((isl.borders.getD c.borderPos default).edges.getD c.secondPos default) 0)) (markSegments isl m (isl.vert (isl.bedgeVertId ((isl.borders.getD c.borderPos default).edges.getD c.secondPos default) 0)) (initFanUV isl (isl.vert (isl.bedgeVertId ((isl.borders.getD c.borderPos default).edges.getD c.secondPos default) 0)) m fan0)) n).1.borders.length = isl.borders.length ∧
    ((extendAtVertMany m cuv isl c d (isl.vert (isl.bedgeVertId ((isl.borders.getD c.borderPos default).edges.getD c.secondPos default) 0)) (markSegments isl m (isl.vert (isl.bedgeVertId ((isl.borders.getD c.borderPos default).edges.getD c.secondPos default) 0)) (initFanUV isl (isl.vert (isl.bedgeVertId ((isl.borders.getD c.borderPos default).edges.getD c.secondPos default) 0)) m fan0)) n).1.borders.getD ((isl.borders.getD c.borderPos default).edges.getD c.firstPos default).border_index default).edges.length =
      (isl.borders.getD ((isl.borders.getD c.borderPos default).edges.getD c.firstPos default).border_index default).edges.length + n - 1 := by
  have hlink : extend_at_vert m cuv fanFuel isl c d = some (extendAtVertMany m cuv isl c d (isl.vert (isl.bedgeVertId ((isl.borders.getD c.borderPos default).edges.getD c.secondPos default) 0)) (markSegments isl m (isl.vert (isl.bedgeVertId ((isl.borders.getD c.borderPos default).edges.getD c.secondPos default) 0)) (initFanUV isl (isl.vert (isl.bedgeVertId ((isl.borders.getD c.borderPos default).edges.getD c.secondPos default) 0)) m fan0)) n) := by
    unfold extend_at_vert
    simp only []
    rw [hfan]
    simp only []
    rw [if_neg (by rw [hfull]; decide), hn, if_neg (by omega)]
  refine ⟨hlink, ?_⟩
  obtain ⟨foldK, foldOk⟩ := extendFold_facts m cuv isl c d (isl.vert (isl.bedgeVertId ((isl.borders.getD c.borderPos default).edges.getD c.secondPos default) 0)) n (List.range n) ((isl, (markSegments isl m (isl.vert (isl.bedgeVertId ((isl.borders.getD c.borderPos default).edges.getD c.secondPos default) 0)) (initFanUV isl (isl.vert (isl.bedgeVertId ((isl.borders.getD c.borderPos default).edges.getD c.secondPos default) 0)) m fan0)), ((isl.borders.getD c.borderPos default).edges.getD c.firstPos default).edge, ([] : List UVBorderEdge), true) : UVIsland × Fan × ℕ × List UVBorderEdge × Bool)
  obtain ⟨finK, finOk⟩ := extendFinalSeg_facts m isl ((isl.borders.getD c.borderPos default).edges.getD c.secondPos default) (isl.vert (isl.bedgeVertId ((isl.borders.getD c.borderPos default).edges.getD c.secondPos default) 0))
    ((List.range n).foldl (extendStepFn m cuv isl c d (isl.vert (isl.bedgeVertId ((isl.borders.getD c.borderPos default).edges.getD c.secondPos default) 0)) n) ((isl, (markSegments isl m (isl.vert (isl.bedgeVertId ((isl.borders.getD c.borderPos default).edges.getD c.secondPos default) 0)) (initFanUV isl (isl.vert (isl.bedgeVertId ((isl.borders.getD c.borderPos default).edges.getD c.secondPos default) 0)) m fan0)), ((isl.borders.getD c.borderPos default).edges.getD c.firstPos default).edge, ([] : List UVBorderEdge), true) : UVIsland × Fan × ℕ × List UVBorderEdge × Bool))
  unfold extendAtVertMany at hok
  simp only [] at hok
  unfold extendAtVertMany
  simp only []
  generalize hgL : (List.range n).foldl (extendStepFn m cuv isl c d (isl.vert (isl.bedgeVertId ((isl.borders.getD c.borderPos default).edges.getD c.secondPos default) 0)) n) ((isl, (markSegments isl m (isl.vert (isl.bedgeVertId ((isl.borders.getD c.borderPos default).edges.getD c.secondPos default) 0)) (initFanUV isl (isl.vert (isl.bedgeVertId ((isl.borders.getD c.borderPos default).edges.getD c.secondPos default) 0)) m fan0)), ((isl.borders.getD c.borderPos default).edges.getD c.firstPos default).edge, ([] : List UVBorderEdge), true) : UVIsland × Fan × ℕ × List UVBorderEdge × Bool) = L
  rw [hgL] at hok foldK foldOk finK finOk
  generalize hgR : extendFinalSeg m isl ((isl.borders.getD c.borderPos default).edges.getD c.secondPos default) (isl.vert (isl.bedgeVertId ((isl.borders.getD c.borderPos default).edges.getD c.secondPos default) 0)) L = R
  rw [hgR] at hok finK finOk
  obtain ⟨hok0, hacc, hplen⟩ := finOk hok
  obtain ⟨hok1, haccL, hplenL, hcoords⟩ := foldOk hok0
  have hKall : Keep isl R.1 := keep_trans foldK finK
  have hRb : R.1.borders = isl.borders := hKall.2.2
  have hnew : R.2.1.length = n + 1 := by
    rw [hacc, haccL, List.length_range]
    simp
  refine ⟨?_, ?_, ?_, ?_⟩
  · show R.1.uv_primitives.length = isl.uv_primitives.length + n + 1
    rw [hplen, hplenL, List.length_range]
  · intro i hi
    show hasUVCoord R.1 (cuv isl c (((i : ℚ) + 1) / ((n : ℚ) + 1)) d) = true
    exact hasUVCoord_mono finK (hcoords i (List.mem_range.mpr hi))
  · rw [List.length_set, hRb]
  · rw [hRb, getD_set, if_pos ⟨rfl, hbi⟩]
    show (update_indexes (((isl.borders.getD c.borderPos default).edges.getD c.firstPos default).border_index) _).length = _
    rw [update_indexes_length, List.length_append, List.length_append,
      List.length_take, List.length_drop, hnew]
    rw [List.length_eraseIdx, List.length_eraseIdx]
    split_ifs <;> omega

/-- Concrete island for the C6 witness: the `mC5` umbrella with the blade
towards mesh vertex 3 missing in UV space (`num_to_add = 1`). -/
def islC6 : UVIsland :=
  { uv_vertices := [⟨1, (0, 10), [0], ⟨true, false⟩⟩, ⟨0, (0, 0), [0, 1], ⟨true, false⟩⟩,
                    ⟨2, (10, 0), [1], ⟨true, false⟩⟩]
    uv_edges := [⟨0, 1, [0]⟩, ⟨1, 2, [1]⟩]
    uv_primitives := [⟨0, [0]⟩, ⟨1, [1]⟩]
    borders := [⟨[{ edge := 0, reverse_order := false, uv_primitive := 0, tag := false
                    prev_index := 1, index := 0, next_index := 1, border_index := 0 },
                  { edge := 1, reverse_order := false, uv_primitive := 1, tag := false
                    prev_index := 0, index := 1, next_index := 0, border_index := 0 }]⟩] }

/-- Constant corner-UV routine for C6: inserted coordinates land at `(7, 7)`. -/
def cuvC6 : CornerUV := fun _ _ _ _ => (7, 7)

/-- Witness for C6 at the one-missing-blade umbrella corner. -/
theorem claim_C6_witness :
    ((mkFan mC5 9 ((islC6.vert (islC6.bedgeVertId ((islC6.borders.getD cC5.borderPos default).edges.getD cC5.secondPos default) 0)).vertex) = some ((mkFan mC5 9 ((islC6.vert (islC6.bedgeVertId ((islC6.borders.getD cC5.borderPos default).edges.getD cC5.secondPos default) 0)).vertex)).getD default)) ∧
     (((mkFan mC5 9 ((islC6.vert (islC6.bedgeVertId ((islC6.borders.getD cC5.borderPos default).edges.getD cC5.secondPos default) 0)).vertex)).getD default).full = true) ∧
     (countNumToAdd (markSegments islC6 mC5 (islC6.vert (islC6.bedgeVertId ((islC6.borders.getD cC5.borderPos default).edges.getD cC5.secondPos default) 0)) (initFanUV islC6 (islC6.vert (islC6.bedgeVertId ((islC6.borders.getD cC5.borderPos default).edges.getD cC5.secondPos default) 0)) mC5 ((mkFan mC5 9 ((islC6.vert (islC6.bedgeVertId ((islC6.borders.getD cC5.borderPos default).edges.getD cC5.secondPos default) 0)).vertex)).getD default))) = 1) ∧
     ((0 : ℕ) < 1) ∧
     ((extendAtVertMany mC5 cuvC6 islC6 cC5 1 (islC6.vert (islC6.bedgeVertId ((islC6.borders.getD cC5.borderPos default).edges.getD cC5.secondPos default) 0)) (markSegments islC6 mC5 (islC6.vert (islC6.bedgeVertId ((islC6.borders.getD cC5.borderPos default).edges.getD cC5.secondPos default) 0)) (initFanUV islC6 (islC6.vert (islC6.bedgeVertId ((islC6.borders.getD cC5.borderPos default).edges.getD cC5.secondPos default) 0)) mC5 ((mkFan mC5 9 ((islC6.vert (islC6.bedgeVertId ((islC6.borders.getD cC5.borderPos default).edges.getD cC5.secondPos default) 0)).vertex)).getD default))) 1).2 = true) ∧
     (((islC6.borders.getD cC5.borderPos default).edges.getD cC5.firstPos default).border_index < islC6.borders.length) ∧
     (((islC6.borders.getD cC5.borderPos default).edges.getD cC5.firstPos default).index < (islC6.borders.getD ((islC6.borders.getD cC5.borderPos default).edges.getD cC5.firstPos default).border_index default).edges.length) ∧
     (((islC6.borders.getD cC5.borderPos default).edges.getD cC5.secondPos default).index < (islC6.borders.getD ((islC6.borders.getD cC5.borderPos default).edges.getD cC5.firstPos default).border_index default).edges.length) ∧
     (((islC6.borders.getD cC5.borderPos default).edges.getD cC5.firstPos default).index ≠ ((islC6.borders.getD cC5.borderPos default).edges.getD cC5.secondPos default).index)) ∧
    (extend_at_vert mC5 cuvC6 9 islC6 cC5 1 = some (extendAtVertMany mC5 cuvC6 islC6 cC5 1 (islC6.vert (islC6.bedgeVertId ((islC6.borders.getD cC5.borderPos default).edges.getD cC5.secondPos default) 0)) (markSegments islC6 mC5 (islC6.vert (islC6.bedgeVertId ((islC6.borders.getD cC5.borderPos default).edges.getD cC5.secondPos default) 0)) (initFanUV islC6 (islC6.vert (islC6.bedgeVertId ((islC6.borders.getD cC5.borderPos default).edges.getD cC5.secondPos default) 0)) mC5 ((mkFan mC5 9 ((islC6.vert (islC6.bedgeVertId ((islC6.borders.getD cC5.borderPos default).edges.getD cC5.secondPos default) 0)).vertex)).getD default))) 1) ∧
    (extendAtVertMany mC5 cuvC6 islC6 cC5 1 (islC6.vert (islC6.bedgeVertId ((islC6.borders.getD cC5.borderPos default).edges.getD cC5.secondPos default) 0)) (markSegments islC6 mC5 (islC6.vert (islC6.bedgeVertId ((islC6.borders.getD cC5.borderPos default).edges.getD cC5.secondPos default) 0)) (initFanUV islC6 (islC6.vert (islC6.bedgeVertId ((islC6.borders.getD cC5.borderPos default).edges.getD cC5.secondPos default) 0)) mC5 ((mkFan mC5 9 ((islC6.vert (islC6.bedgeVertId ((islC6.borders.getD cC5.borderPos default).edges.getD cC5.secondPos default) 0)).vertex)).getD default))) 1).1.uv_primitives.length = islC6.uv_primitives.length + 1 + 1 ∧
    (∀ i : ℕ, i < 1 → hasUVCoord (extendAtVertMany mC5 cuvC6 islC6 cC5 1 (islC6.vert (islC6.bedgeVertId ((islC6.borders.getD cC5.borderPos default).edges.getD cC5.secondPos default) 0)) (markSegments islC6 mC5 (islC6.vert (islC6.bedgeVertId ((islC6.borders.getD cC5.borderPos default).edges.getD cC5.secondPos default) 0)) (initFanUV islC6 (islC6.vert (islC6.bedgeVertId ((islC6.borders.getD cC5.borderPos default).edges.getD cC5.secondPos default) 0)) mC5 ((mkFan mC5 9 ((islC6.vert (islC6.bedgeVertId ((islC6.borders.getD cC5.borderPos default).edges.getD cC5.secondPos default) 0)).vertex)).getD default))) 1).1
      (cuvC6 islC6 cC5 (((i : ℚ) + 1) / (((1 : ℕ) : ℚ) + 1)) 1) = true) ∧
    (extendAtVertMany mC5 cuvC6 islC6 cC5 1 (islC6.vert (islC6.bedgeVertId ((islC6.borders.getD cC5.borderPos default).edges.getD cC5.secondPos default) 0)) (markSegments islC6 mC5 (islC6.vert (islC6.bedgeVertId ((islC6.borders.getD cC5.borderPos default).edges.getD cC5.secondPos default) 0)) (initFanUV islC6 (islC6.vert (islC6.bedgeVertId ((islC6.borders.getD cC5.borderPos default).edges.getD cC5.secondPos default) 0)) mC5 ((mkFan mC5 9 ((islC6.vert (islC6.bedgeVertId ((islC6.borders.getD cC5.borderPos default).edges.getD cC5.secondPos default) 0)).vertex)).getD default))) 1).1.borders.length = islC6.borders.length ∧
    ((extendAtVertMany mC5 cuvC6 islC6 cC5 1 (islC6.vert (islC6.bedgeVertId ((islC6.borders.getD cC5.borderPos default).edges.getD cC5.secondPos default) 0)) (markSegments islC6 mC5 (islC6.vert (islC6.bedgeVertId ((islC6.borders.getD cC5.borderPos default).edges.getD cC5.secondPos default) 0)) (initFanUV islC6 (islC6.vert (islC6.bedgeVertId ((islC6.borders.getD cC5.borderPos default).edges.getD cC5.secondPos default) 0)) mC5 ((mkFan mC5 9 ((islC6.vert (islC6.bedgeVertId ((islC6.borders.getD cC5.borderPos default).edges.getD cC5.secondPos default) 0)).vertex)).getD default))) 1).1.borders.getD ((islC6.borders.getD cC5.borderPos default).edges.getD cC5.firstPos default).border_index default).edges.length =
      (islC6.borders.getD ((islC6.borders.getD cC5.borderPos default).edges.getD cC5.firstPos default).border_index default).edges.length + 1 - 1) := by
  refine ⟨by decide, ?_⟩
  apply claim_C6 mC5 cuvC6 9 islC6 cC5 1
      ((mkFan mC5 9 ((islC6.vert (islC6.bedgeVertId ((islC6.borders.getD cC5.borderPos
        default).edges.getD cC5.secondPos default) 0)).vertex)).getD default) 1 <;> decide

end UVIslandsModel
